import Mathlib

/-!
# GPS acquisition engine (`gps/search.cpp`): embedding and verified properties

The C++ source is embedded shallowly.  Floating-point values are exact
rationals, `fftwf_complex` is a pair of rationals, C arrays are functions from
indices to values (a separate argument records where a buffer starts when
aliasing matters), and the calls made to collaborators outside the file
(task sleep / wakeup, channel start, status reporting) are recorded as lists
of events.  Constants that `gps.h` declares (`FFT_LEN`, `NSAMPLES`, `DECIM`,
`BIN_SIZE`, `SAMPLE_RATE`, ...) are parameters.
-/

namespace Search

/-- An `fftwf_complex` value: real part and imaginary part. -/
abbrev Cplx := ℚ × ℚ

/-- A buffer of complex samples, or the memory it lives in: element index to value. -/
abbrev Buf := Nat → Cplx

/-! ## Doppler search range and code-table indexing (`Correlate`) -/

/-- Conversion of a floating value to `int` in C: truncation toward zero. -/
def cTrunc (q : ℚ) : Int := if 0 ≤ q then ⌊q⌋ else ⌈q⌉

/-- Initial value of the Doppler loop variable: `int dop = -5000/BIN_SIZE`. -/
def dopFirst (BIN_SIZE : ℚ) : Int := cTrunc (-5000 / BIN_SIZE)

/-- Loop condition of the Doppler sweep: `dop <= 5000/BIN_SIZE`. -/
def dopCond (BIN_SIZE : ℚ) (dop : Int) : Bool := decide ((dop : ℚ) ≤ 5000 / BIN_SIZE)

/-- The values taken by `dop` in
`for (int dop = -5000/BIN_SIZE; dop <= 5000/BIN_SIZE; dop++)`. -/
def dopInRange (BIN_SIZE : ℚ) (dop : Int) : Prop :=
  dopFirst BIN_SIZE ≤ dop ∧ dopCond BIN_SIZE dop = true

/-- Offset of row `code[sat]` inside `code[MAX_SATS][2*FFT_LEN]`. -/
def codeRow (FFT_LEN : Nat) (sat : Nat) : Int := (sat : Int) * (2 * (FFT_LEN : Int))

/-- Index, relative to `code[sat]`, of element `i` of the operand
`code[sat]+FFT_LEN-dop` handed to `simd_multiply_conjugate`. -/
def corrCodeIndex (FFT_LEN : Nat) (dop : Int) (i : Nat) : Int :=
  (FFT_LEN : Int) - dop + (i : Int)

/-- Index used by the disabled reference loop: `j=(i-dop+FFT_LEN)%FFT_LEN`
(C remainder, truncating). -/
def refCodeIndex (FFT_LEN : Nat) (dop : Int) (i : Nat) : Int :=
  Int.tmod ((i : Int) - dop + (FFT_LEN : Int)) (FFT_LEN : Int)

/-- The duplication invariant of row `sat` of the code table (seen as flat
memory): the second half repeats the first. -/
def Duplicated (FFT_LEN : Nat) (code : Int → Cplx) (sat : Nat) : Prop :=
  ∀ i : Nat, i < FFT_LEN →
    code (codeRow FFT_LEN sat + (FFT_LEN : Int) + (i : Int)) = code (codeRow FFT_LEN sat + (i : Int))

/-! ## Load control (`SearchTaskRun`) -/

/-- Values polled by one evaluation of `SearchTaskRun`. -/
structure RunInputs where
  /-- Result of `rx_server_users()`. -/
  users : Int
  /-- Field `clk.adc_gps_clk_corrections`. -/
  adc_gps_clk_corrections : Int
  /-- Field `gps.good`. -/
  good : Int
  /-- Result of `admcfg_bool("always_acq_gps")`. -/
  always_acq_gps : Bool
  update_in_progress : Bool
  sd_copy_in_progress : Bool
  backup_in_progress : Bool
  /-- Result of `admcfg_bool("enable_gps")`. -/
  enable_gps : Bool
deriving DecidableEq, Repr

/-- The two statics `SearchTaskRun` works on. -/
structure RunState where
  searchTaskID : Int
  gps_acquire : Int
deriving DecidableEq, Repr

/-- Calls made by `SearchTaskRun` to its collaborators. -/
inductive Call where
  /-- The call `GPSstat(STAT_ACQUIRE, 0, v)`. -/
  | statAcquire (v : Int)
  /-- The call `TaskSleepID(id, 0)`. -/
  | taskSleepID (id : Int)
  /-- The call `TaskWakeup(id, FALSE, 0)`. -/
  | taskWakeup (id : Int)
deriving DecidableEq, Repr

/-- Value of the local `start` when the transition test is reached. -/
def startDecision (inp : RunInputs) : Bool :=
  let start := false
  let start := if inp.adc_gps_clk_corrections = 0 then true else start
  let start := if inp.users = 0 then true else start
  let start := if inp.good < 5 then true else start
  let start := if inp.always_acq_gps = true then true else start
  let start :=
    if inp.update_in_progress || inp.sd_copy_in_progress || inp.backup_in_progress
    then false else start
  let enable := (inp.enable_gps == true)
  let start := if !enable then false else start
  start

/-- One evaluation of `SearchTaskRun`: new state, calls issued (in order),
return value. -/
def SearchTaskRun (s : RunState) (inp : RunInputs) : RunState × List Call × Bool :=
  if s.searchTaskID = -1 then (s, [], false)
  else
    let start := startDecision inp
    let enable := (inp.enable_gps == true)
    if s.gps_acquire ≠ 0 ∧ start = false then
      ({ s with gps_acquire := 0 },
        [Call.statAcquire 0, Call.taskSleepID s.searchTaskID], enable)
    else if s.gps_acquire = 0 ∧ start = true then
      ({ s with gps_acquire := 1 },
        [Call.statAcquire 1, Call.taskWakeup s.searchTaskID], enable)
    else (s, [], enable)

/-- States the two statics can take: they start as `searchTaskID = -1`,
`gps_acquire = 1`; `SearchTask` stores its task id; `SearchTaskRun` is
evaluated with arbitrary inputs. -/
inductive Reachable : RunState → Prop where
  | init : Reachable ⟨-1, 1⟩
  | taskStart (s : RunState) (tid : Int) : Reachable s → Reachable { s with searchTaskID := tid }
  | run (s : RunState) (inp : RunInputs) : Reachable s → Reachable (SearchTaskRun s inp).1

/-- The condition under which the specification says the state is Searching. -/
def shouldSearch (inp : RunInputs) : Prop :=
  (inp.adc_gps_clk_corrections = 0 ∨ inp.users = 0 ∨ inp.good < 5 ∨ inp.always_acq_gps = true) ∧
  (inp.update_in_progress = false ∧ inp.sd_copy_in_progress = false ∧
    inp.backup_in_progress = false) ∧
  inp.enable_gps = true

/-- Successive evaluations of `SearchTaskRun`: for each one the state before,
the state after and the calls it issued. -/
def runTrace : RunState → List RunInputs → List (RunState × RunState × List Call)
  | _, [] => []
  | s, inp :: rest =>
      let r := SearchTaskRun s inp
      (s, r.1, r.2.1) :: runTrace r.1 rest

/-- Number of sleep calls in a list of calls. -/
def sleepCalls (cs : List Call) : Nat :=
  (cs.filter (fun c => match c with | Call.taskSleepID _ => true | _ => false)).length

/-- Number of wake calls in a list of calls. -/
def wakeCalls (cs : List Call) : Nat :=
  (cs.filter (fun c => match c with | Call.taskWakeup _ => true | _ => false)).length

/-! ## Decimator (`DecimateBy2float`, `DecimateBy2binary`) -/

/-- Number of filter taps: `#define NTAPS 31`. -/
def NTAPS : Nat := 31

/-- Column selector of the coefficient table: `#define FT 0`. -/
def FT : Nat := 0

/-- The half-band filter table `COEF[NTAPS][2]` (columns: remez, firwin). -/
def COEF : List (ℚ × ℚ) :=
  [ (-0.010233, -0.001888),
    ( 0.000000,  0.000000),
    ( 0.010668,  0.003862),
    ( 0.000000,  0.000000),
    (-0.016324, -0.008242),
    ( 0.000000,  0.000000),
    ( 0.024377,  0.015947),
    ( 0.000000,  0.000000),
    (-0.036482, -0.028677),
    ( 0.000000,  0.000000),
    ( 0.056990,  0.050719),
    ( 0.000000,  0.000000),
    (-0.101993, -0.098016),
    ( 0.000000,  0.000000),
    ( 0.316926,  0.315942),
    ( 0.500009,  0.500706),
    ( 0.316926,  0.315942),
    ( 0.000000,  0.000000),
    (-0.101993, -0.098016),
    ( 0.000000,  0.000000),
    ( 0.056990,  0.050719),
    ( 0.000000,  0.000000),
    (-0.036482, -0.028677),
    ( 0.000000,  0.000000),
    ( 0.024377,  0.015947),
    ( 0.000000,  0.000000),
    (-0.016324, -0.008242),
    ( 0.000000,  0.000000),
    ( 0.010668,  0.003862),
    ( 0.000000,  0.000000),
    (-0.010233, -0.001888) ]

/-- The entry `COEF[j][FT]`. -/
def coef (j : Nat) : ℚ :=
  let row := COEF.getD j (0, 0)
  if FT = 0 then row.1 else row.2

/-- The overlap handling `memset((void *) ibuf[size], 0, NTAPS * sizeof(fftwf_complex))`,
for a buffer `ibuf` that starts at element `ibase` of the memory. -/
def zeroTail (size ibase : Nat) (mem : Buf) : Buf :=
  fun a => if ibase + size ≤ a ∧ a < ibase + size + NTAPS then (0, 0) else mem a

/-- The tap loop `for (int j=2; j<NTAPS; j+=2)` accumulating into `(accI, accQ)`; `ibuf`
starts at element `ibase`.  The first numeric argument bounds the number of passes
(`NTAPS` is enough). -/
def tapLoop (mem : Buf) (ibase i : Nat) : Nat → Nat → Cplx → Cplx
  | 0, _, acc => acc
  | fuel + 1, j, acc =>
    if j < NTAPS then
      tapLoop mem ibase i fuel (j + 2)
        (acc.1 + (mem (ibase + (i + j))).1 * coef j, acc.2 + (mem (ibase + (i + j))).2 * coef j)
    else acc

/-- The value `(accI, accQ)` stored for input position `i`: first tap, even taps, centre
tap. -/
def firAt (mem : Buf) (ibase i : Nat) : Cplx :=
  let coef_0 := coef 0
  let coef_m := coef ((NTAPS - 1) / 2)
  let acc : Cplx := ((mem (ibase + i)).1 * coef_0, (mem (ibase + i)).2 * coef_0)
  let acc := tapLoop mem ibase i NTAPS 2 acc
  (acc.1 + (mem (ibase + (i + (NTAPS - 1) / 2))).1 * coef_m,
   acc.2 + (mem (ibase + (i + (NTAPS - 1) / 2))).2 * coef_m)

/-- The sample loop `for (int i=0, o=0; i<size; i+=2, ++o)`; `ibuf` starts at element
`ibase` and `obuf` at element `obase` of the same memory, so that the two may alias.  The
first numeric argument bounds the number of passes (`size` is enough). -/
def decimLoop (size ibase obase : Nat) : Nat → Nat → Nat → Buf → Buf
  | 0, _, _, mem => mem
  | fuel + 1, i, o, mem =>
    if i < size then
      decimLoop size ibase obase fuel (i + 2) (o + 1)
        (Function.update mem (obase + o) (firAt mem ibase i))
    else mem

/-- `DecimateBy2float(size, ibuf, obuf, yield)`: the memory afterwards and the returned
sample count `size/2`.  The `yield` flag only inserts `NextTask` calls and is left out. -/
def DecimateBy2float (size ibase obase : Nat) (mem : Buf) : Buf × Nat :=
  let mem := zeroTail size ibase mem
  (decimLoop size ibase obase size 0 0 mem, size / 2)

/-- `Bipolar(bit)`: the branchless `-1.0f*(bit!=0) + 1.0f*(bit==0)`. -/
def Bipolar (bit : Int) : ℚ :=
  -1 * (if bit ≠ 0 then 1 else 0) + 1 * (if bit = 0 then 1 else 0)

/-- `DecimateBy2binary(size, ibuf, obuf, yield)`.  The element-wise conversion
`simd_bit2float` is declared outside the file and is the parameter `bit2float`. -/
def DecimateBy2binary (bit2float : Int → ℚ) (size : Nat) (ibuf : Nat → Int × Int)
    (obase : Nat) (mem : Buf) : Buf × Nat :=
  -- (1) convert the input to a float array
  let mem1 : Buf := fun a =>
    if obase ≤ a ∧ a < obase + size then
      (bit2float (ibuf (a - obase)).1, bit2float (ibuf (a - obase)).2)
    else mem a
  -- (2) set output to +-1
  let mem2 : Buf := fun a =>
    if obase ≤ a ∧ a < obase + size then
      (Bipolar (if (mem1 a).1 ≥ 0 then 1 else 0), Bipolar (if (mem1 a).2 ≥ 0 then 1 else 0))
    else mem1 a
  -- (3) then use the float version
  DecimateBy2float size obase obase mem2

/-! ## Sample-count bookkeeping of `SearchInit` and `Sample` -/

/-- The loop `for (int i=DECIM; i>1; i>>=1) nsamples = DecimateBy2float(nsamples, fwd_buf,
fwd_buf)`, on the pair (memory holding `fwd_buf` at element 0, `nsamples`).  The first
argument bounds the number of passes (the initial `i` is enough). -/
def halvingLoop : Nat → Nat → Buf × Nat → Buf × Nat
  | 0, _, st => st
  | fuel + 1, i, st =>
    if i > 1 then halvingLoop fuel (i >>> 1) (DecimateBy2float st.2 0 0 st.1)
    else st

/-- The decimation step of `SearchInit` for one satellite, from the filled `fwd_buf` to the
point where the transform runs: `none` when an assertion fails, otherwise the buffer and
`nsamples`. -/
def SearchInit_decimate (DECIM NSAMPLES FFT_LEN : Nat) (fwd_buf : Buf) : Option (Buf × Nat) :=
  let st : Buf × Nat := (fwd_buf, NSAMPLES)
  if DECIM ≠ 1 then
    if DECIM > 2 then
      let st := halvingLoop DECIM DECIM st
      if st.2 = NSAMPLES / DECIM ∧ st.2 = FFT_LEN then some st else none
    else none
  else
    if st.2 = NSAMPLES / DECIM ∧ st.2 = FFT_LEN then some st else none

/-- The decimation step of `Sample`, from the captured `bits` to the point where the
transform runs: `none` when an assertion fails. -/
def Sample_decimate (bit2float : Int → ℚ) (DECIM NSAMPLES FFT_LEN : Nat)
    (bits : Nat → Int × Int) (fwd_buf : Buf) : Option (Buf × Nat) :=
  if DECIM = 1 then
    let nsamples := NSAMPLES
    let buf : Buf := fun i =>
      if i < nsamples then (Bipolar (bits i).1, Bipolar (bits i).2) else fwd_buf i
    if nsamples = NSAMPLES / DECIM ∧ nsamples = FFT_LEN then some (buf, nsamples) else none
  else
    if DECIM > 2 then
      let st := DecimateBy2binary bit2float NSAMPLES bits 0 fwd_buf
      let st := halvingLoop (DECIM >>> 1) (DECIM >>> 1) st
      if st.2 = NSAMPLES / DECIM ∧ st.2 = FFT_LEN then some st else none
    else none

/-- The full 31-tap filter output at input position `i` of a signal `x`: the sum over
`j = 0..30` of `COEF[j][FT] * x[i+j]`, component-wise. -/
def fullFir (x : Nat → Cplx) (i : Nat) : Cplx :=
  (((List.range NTAPS).map (fun j => coef j * (x (i + j)).1)).sum,
   ((List.range NTAPS).map (fun j => coef j * (x (i + j)).2)).sum)

/-- The input buffer of length `n` starting at element `ibase`, with every index `≥ n`
read as zero. -/
def zeroPadded (mem : Buf) (ibase n : Nat) : Nat → Cplx :=
  fun k => if k < n then mem (ibase + k) else (0, 0)

/-- Condition under which the sample loop of `DecimateBy2float` never overwrites an input
element that a later iteration still reads: write index `o` against the reads `k ≥ 2*o + 2`. -/
def NoClobber (size ibase obase : Nat) : Prop :=
  ∀ o k, 2 * o < size → 2 * o + 2 ≤ k → k < size + 30 → obase + o ≠ ibase + k

/-- A sample buffer used in worked examples: element `a` is `a + i`. -/
def rampBuf : Buf := fun a => ((a : ℚ), 1)

/-! ## Build constants and collaborators -/

/-- What `search.cpp` takes from outside the file: the constants of `gps.h`, the two FFTW
plans (each an arbitrary function on `FFT_LEN` points, executed in place), and the helpers
`is_E1B` and `simd_bit2float`. -/
structure Config where
  FFT_LEN : Nat
  NSAMPLES : Nat
  DECIM : Nat
  BIN_SIZE : ℚ
  SAMPLE_RATE : Nat
  GPS_SAMPS : Nat
  FC : ℚ
  FS : ℚ
  E1B_CODE_PERIOD : Nat
  L1_CODE_PERIOD : Nat
  G2_INIT : Int
  E1B_MODE : Int
  GALILEO_CHANS : Nat
  /-- The helper `is_E1B(sat)`. -/
  is_E1B : Nat → Bool
  /-- The element conversion done by `simd_bit2float`. -/
  bit2float : Int → ℚ
  /-- The transform of `fwd_plan` (`FFTW_FORWARD`, `FFT_LEN` points). -/
  fwd_plan : (Fin FFT_LEN → Cplx) → Fin FFT_LEN → Cplx
  /-- The transform of `rev_plan` (`FFTW_BACKWARD`, `FFT_LEN` points). -/
  rev_plan : (Fin FFT_LEN → Cplx) → Fin FFT_LEN → Cplx

/-- `fftwf_execute(plan)` for an in-place plan of `n` points on the buffer `buf`. -/
def fftwf_execute (n : Nat) (transform : (Fin n → Cplx) → Fin n → Cplx) (buf : Buf) : Buf :=
  fun i => if h : i < n then transform (fun k => buf k.val) ⟨i, h⟩ else buf i

/-! ## Sample capture (`Sample`) -/

/-- The table `lo_sin[] = {1,1,0,0}`. -/
def lo_sin : List Nat := [1, 1, 0, 0]

/-- The table `lo_cos[] = {1,0,0,1}`. -/
def lo_cos : List Nat := [1, 0, 0, 1]

/-- Variables of the capture loops of `Sample`: sample counter, NCO phase, the `bits`
array. -/
structure CapState where
  i : Nat
  lo_phase : ℚ
  bits : Nat → Int × Int

/-- The bit loop `for (int b=0; b<8; ++b, ++i, byte>>=1)` with its `break` once
`i >= NSAMPLES`.  The first numeric argument after `lo_rate` bounds the number of passes
(8 is enough). -/
def bitLoop (NSAMPLES : Nat) (lo_rate : ℚ) : Nat → Nat → Nat → CapState → CapState
  | 0, _, _, st => st
  | fuel + 1, b, byte, st =>
    if b < 8 then
      let bit := byte &&& 1
      if st.i ≥ NSAMPLES then st
      else
        let ph := (cTrunc st.lo_phase).toNat
        let bits := Function.update st.bits st.i
          (((bit ^^^ lo_sin.getD ph 0 : Nat) : Int), ((bit ^^^ lo_cos.getD ph 0 : Nat) : Int))
        let lo_phase := st.lo_phase + lo_rate
        let lo_phase := lo_phase - 4 * (if lo_phase ≥ 4 then 1 else 0)
        bitLoop NSAMPLES lo_rate fuel (b + 1) (byte >>> 1) ⟨st.i + 1, lo_phase, bits⟩
    else st

/-- The byte loop `for (int j=0; j<PACKET; ++j)` over one packet `pkt` (`rx.byte`).  The
first numeric argument after `PACKET` bounds the number of passes (`PACKET` is enough). -/
def byteLoop (NSAMPLES : Nat) (lo_rate : ℚ) (pkt : Nat → Nat) (PACKET : Nat) :
    Nat → Nat → CapState → CapState
  | 0, _, st => st
  | fuel + 1, j, st =>
    if j < PACKET then
      byteLoop NSAMPLES lo_rate pkt PACKET fuel (j + 1)
        (bitLoop NSAMPLES lo_rate 8 0 (pkt j % 256) st)
    else st

/-- The packet loop `while (i < NSAMPLES)`; `rx p` is the packet returned by the `p`-th
`spi_get`.  `none` when the fuel runs out with the loop condition still true. -/
def captureLoop (NSAMPLES : Nat) (lo_rate : ℚ) (rx : Nat → Nat → Nat) (PACKET : Nat) :
    Nat → Nat → CapState → Option CapState
  | 0, _, st => if st.i < NSAMPLES then none else some st
  | fuel + 1, p, st =>
    if st.i < NSAMPLES then
      captureLoop NSAMPLES lo_rate rx PACKET fuel (p + 1)
        (byteLoop NSAMPLES lo_rate (rx p) PACKET PACKET 0 st)
    else some st

/-- `Sample()`: capture, down-conversion, decimation and forward transform, on the statics
`bits` and `fwd_buf`.  `none` when an assertion fails or the capture never completes
(`PACKET = 0`).  Sleeps, yields and the SPI trigger are left out. -/
def Sample (cfg : Config) (rx : Nat → Nat → Nat) (bits : Nat → Int × Int) (fwd_buf : Buf) :
    Option ((Nat → Int × Int) × Buf) :=
  let lo_rate := 4 * cfg.FC / cfg.FS
  let PACKET := cfg.GPS_SAMPS * 2
  match captureLoop cfg.NSAMPLES lo_rate rx PACKET cfg.NSAMPLES 0 ⟨0, 0, bits⟩ with
  | none => none
  | some cap =>
    match Sample_decimate cfg.bit2float cfg.DECIM cfg.NSAMPLES cfg.FFT_LEN cap.bits fwd_buf with
    | none => none
    | some st => some (cap.bits, fftwf_execute cfg.FFT_LEN cfg.fwd_plan st.1)

/-! ## Correlation (`Correlate`) -/

/-- Modelled from the spec: `simd_multiply_conjugate(len, data, code, prod)` is declared in
`simd.h`, outside the source files; it forms `prod = conj(data)*code` element by element,
as the reference loop next to the call does.  `cbase` is the position of its `code`
operand in the code table. -/
def simd_multiply_conjugate (len : Nat) (data : Buf) (code : Int → Cplx) (cbase : Int)
    (prod : Buf) : Buf :=
  fun i =>
    if i < len then
      ((data i).1 * (code (cbase + (i : Int))).1 + (data i).2 * (code (cbase + (i : Int))).2,
       (data i).1 * (code (cbase + (i : Int))).2 - (data i).2 * (code (cbase + (i : Int))).1)
    else prod i

/-- Length of the power window: `SAMPLE_RATE/1000*code_period_ms`. -/
def window (cfg : Config) (sat : Nat) : Nat :=
  let code_period_ms := if cfg.is_E1B sat then cfg.E1B_CODE_PERIOD else cfg.L1_CODE_PERIOD
  cfg.SAMPLE_RATE / 1000 * code_period_ms

/-- The power `prod[i][0]*prod[i][0] + prod[i][1]*prod[i][1]` of element `i`. -/
def bufPower (prod : Buf) (i : Nat) : ℚ :=
  (prod i).1 * (prod i).1 + (prod i).2 * (prod i).2

/-- One pass of the power loop body on `(max_pwr, tot_pwr, max_pwr_i)`:
`if (pwr>max_pwr) max_pwr=pwr, max_pwr_i=i; tot_pwr += pwr;`. -/
def pwrStep (pwr : ℚ) (i : Nat) (st : ℚ × ℚ × Nat) : ℚ × ℚ × Nat :=
  let st1 : ℚ × ℚ × Nat := if pwr > st.1 then (pwr, st.2.1, i) else st
  (st1.1, st1.2.1 + pwr, st1.2.2)

/-- The power loop `for (i=0; i < W; i++)` on `(max_pwr, tot_pwr, max_pwr_i)`.  The first
numeric argument after `W` bounds the number of passes (`W` is enough). -/
def pwrLoop (prod : Buf) (W : Nat) : Nat → Nat → ℚ × ℚ × Nat → ℚ × ℚ × Nat
  | 0, _, st => st
  | fuel + 1, i, st =>
    if i < W then pwrLoop prod W fuel (i + 1) (pwrStep (bufPower prod i) i st)
    else st

/-- Variables of the Doppler loop of `Correlate`: `max_snr`, the two output locations
`*max_snr_dop` and `*max_snr_i`, and `rev_buf`.  (The `lcl_` variables only feed a
disabled `printf`.) -/
structure CorrState where
  max_snr : ℚ
  max_snr_dop : Int
  max_snr_i : Int
  rev_buf : Buf

/-- The correlation of one Doppler bin as left in `rev_buf`: conjugate product with the
shifted code spectrum, then the inverse transform. -/
def corrBin (cfg : Config) (code : Int → Cplx) (sat : Nat) (data : Buf) (dop : Int)
    (rev_buf : Buf) : Buf :=
  fftwf_execute cfg.FFT_LEN cfg.rev_plan
    (simd_multiply_conjugate cfg.FFT_LEN data code
      (codeRow cfg.FFT_LEN sat + (cfg.FFT_LEN : Int) - dop) rev_buf)

/-- Body of the Doppler loop for the bin `dop`.  A quotient by zero is `0` here and NaN in
the source; either way the comparison `snr > max_snr` is false. -/
def dopStep (cfg : Config) (code : Int → Cplx) (sat : Nat) (data : Buf) (dop : Int)
    (st : CorrState) : CorrState :=
  let prod := corrBin cfg code sat data dop st.rev_buf
  let W := window cfg sat
  let r := pwrLoop prod W W 0 (0, 0, 0)
  let max_pwr := r.1
  let tot_pwr := r.2.1
  let max_pwr_i := r.2.2
  let ave_pwr := tot_pwr / (W : ℚ)
  let snr := max_pwr / ave_pwr
  if snr > st.max_snr then ⟨snr, dop, (max_pwr_i : Int), prod⟩
  else { st with rev_buf := prod }

/-- The Doppler loop `for (int dop = -5000/BIN_SIZE; dop <= 5000/BIN_SIZE; dop++)`.  The
first numeric argument bounds the number of passes (`dopCount` is enough). -/
def dopLoop (cfg : Config) (code : Int → Cplx) (sat : Nat) (data : Buf) :
    Nat → Int → CorrState → CorrState
  | 0, _, st => st
  | fuel + 1, dop, st =>
    if dopCond cfg.BIN_SIZE dop = true then
      dopLoop cfg code sat data fuel (dop + 1) (dopStep cfg code sat data dop st)
    else st

/-- Number of integers from `-5000/BIN_SIZE` (truncated) to `5000/BIN_SIZE`: the fuel of
the Doppler loop. -/
def dopCount (BIN_SIZE : ℚ) : Nat := (⌊5000 / BIN_SIZE⌋ - dopFirst BIN_SIZE + 1).toNat

/-- `Correlate(sat, data, &max_snr_dop, &max_snr_i)`: the final loop state holds the
returned `max_snr` and the contents of the two output locations, whose previous contents
are the last two arguments. -/
def Correlate (cfg : Config) (code : Int → Cplx) (sat : Nat) (data : Buf) (rev_buf : Buf)
    (max_snr_dop max_snr_i : Int) : CorrState :=
  dopLoop cfg code sat data (dopCount cfg.BIN_SIZE) (dopFirst cfg.BIN_SIZE)
    ⟨0, max_snr_dop, max_snr_i, rev_buf⟩

/-! ### The quantities the specification names -/

/-- Power `re² + im²` of correlation sample `i` for Doppler bin `dop`. -/
def binPower (cfg : Config) (code : Int → Cplx) (sat : Nat) (data rev_buf : Buf) (dop : Int)
    (i : Nat) : ℚ :=
  bufPower (corrBin cfg code sat data dop rev_buf) i

/-- Peak of a power sequence over the leading window of `W` samples. -/
def peakPower (p : Nat → ℚ) (W : Nat) : ℚ := ((List.range W).map p).foldl max 0

/-- Total of a power sequence over the leading window of `W` samples. -/
def totalPower (p : Nat → ℚ) (W : Nat) : ℚ := ((List.range W).map p).sum

/-- Ratio of peak power to average power (total over window length) for one Doppler
bin. -/
def binSnr (cfg : Config) (code : Int → Cplx) (sat : Nat) (data rev_buf : Buf) (dop : Int) : ℚ :=
  peakPower (binPower cfg code sat data rev_buf dop) (window cfg sat) /
    (totalPower (binPower cfg code sat data rev_buf dop) (window cfg sat) / (window cfg sat : ℚ))

/-- Index `idx` is the first one in the window at which the sequence `p` takes the value
`m`. -/
def FirstAt (p : Nat → ℚ) (W : Nat) (m : ℚ) (idx : Nat) : Prop :=
  idx < W ∧ p idx = m ∧ ∀ k, k < idx → p k < m

/-- Invariant of the Doppler loop of `Correlate` on entry to the pass for bin `dop`, for a
call whose output locations held `d0` and `i0` and whose `rev_buf` was `rb0`: `max_snr`
bounds the ratio of every bin already visited; either nothing has been stored yet
(`max_snr = 0`, outputs untouched) or the outputs hold the lowest bin attaining `max_snr`
and the first index attaining that bin's peak power. -/
def CorrInv (cfg : Config) (code : Int → Cplx) (sat : Nat) (data rb0 : Buf) (d0 i0 : Int)
    (dop : Int) (st : CorrState) : Prop :=
  (∀ i, cfg.FFT_LEN ≤ i → st.rev_buf i = rb0 i) ∧
  (∀ d, dopFirst cfg.BIN_SIZE ≤ d → d < dop → binSnr cfg code sat data rb0 d ≤ st.max_snr) ∧
  ((st.max_snr = 0 ∧ st.max_snr_dop = d0 ∧ st.max_snr_i = i0) ∨
   (0 < st.max_snr ∧ dopFirst cfg.BIN_SIZE ≤ st.max_snr_dop ∧ st.max_snr_dop < dop ∧
    binSnr cfg code sat data rb0 st.max_snr_dop = st.max_snr ∧
    (∀ d, dopFirst cfg.BIN_SIZE ≤ d → d < st.max_snr_dop →
      binSnr cfg code sat data rb0 d < st.max_snr) ∧
    ∃ idx : Nat, st.max_snr_i = (idx : Int) ∧
      FirstAt (binPower cfg code sat data rb0 st.max_snr_dop) (window cfg sat)
        (peakPower (binPower cfg code sat data rb0 st.max_snr_dop) (window cfg sat)) idx))

/-! ## One acquisition cycle and the scheduler loop body (`SearchTask`) -/

/-- The statics and scheduler locals one acquisition cycle works on. -/
structure CycleState where
  bits : Nat → Int × Int
  fwd_buf : Buf
  rev_buf : Buf
  lo_shift : Int
  ca_shift : Int

/-- The value an `int` holds after a result `x` of 32-bit arithmetic: `x` reduced modulo
`2^32` into `[-2^31, 2^31)`. -/
def wrapInt32 (x : Int) : Int := (x + 2147483648) % 4294967296 - 2147483648

/-- One acquisition cycle of the scheduler: `Sample(); snr = Correlate(sat, fwd_buf,
&lo_shift, &ca_shift); ca_shift *= DECIM;`, the product being taken in `int`.  Returns the
state afterwards and `snr`; `none` when `Sample` does not return. -/
def acqCycle (cfg : Config) (code : Int → Cplx) (rx : Nat → Nat → Nat) (sat : Nat)
    (s : CycleState) : Option (CycleState × ℚ) :=
  match Sample cfg rx s.bits s.fwd_buf with
  | none => none
  | some (bits, fwd_buf) =>
    let r := Correlate cfg code sat fwd_buf s.rev_buf s.lo_shift s.ca_shift
    some (⟨bits, fwd_buf, r.rev_buf, r.max_snr_dop,
      wrapInt32 (r.max_snr_i * (cfg.DECIM : Int))⟩, r.max_snr)

/-- Constellation of a satellite (`sp->type`). -/
inductive SatType where
  | Navstar
  | QZSS
  | E1B
deriving DecidableEq, Repr

/-- The fields of `SATELLITE` that `search.cpp` uses. -/
structure SATELLITE where
  prn : Int
  type : SatType
  T1 : Int
  T2 : Int
  sat : Nat
  busy : Bool
deriving DecidableEq, Repr

/-- Calls from the scheduler loop body to its collaborators. -/
inductive Event where
  /-- The call `ChanStart(ch, sat, t_sample, init, lo_shift, ca_shift, (int) snr)`. -/
  | chanStart (ch : Int) (sat : Nat) (t_sample init lo_shift ca_shift snr : Int)
  /-- The call `GPSstat(STAT_SAT, snr, ch, sat, low, us)`. -/
  | statSat (snr : ℚ) (ch : Int) (sat : Int) (low : Bool) (us : Int)
  /-- The call `GPSstat(STAT_DOP, 0, ch, lo_shift*BIN_SIZE, ca_shift)`. -/
  | statDop (ch : Int) (dop : ℚ) (ca_shift : Int)

/-- What the environment supplies during one pass of the loop body: the successive
results of `ChanReset(sat)`, the packets of the capture, the two `timer_us()` readings. -/
structure IterEnv where
  chanReset : List Int
  rx : Nat → Nat → Nat
  t_sample : Int
  t_end : Int

/-- Variables of `SearchTask` and the statics it shares: the satellite table, the position
of `sp` in it, the restart / resume requests, and the locals carried across passes. -/
structure SchedState where
  Sats : Nat → SATELLITE
  sp : Nat
  searchRestart : Nat
  searchResume : Nat
  last_ch : Int
  snr : ℚ
  cyc : CycleState

/-- How a pass of the loop body ended. -/
inductive Outcome where
  /-- Left by `if (sp->type != E1B) continue;`. -/
  | skipType
  /-- Left by the `continue` of `if (sp->busy)`. -/
  | skipBusy
  /-- Left by the `continue` after a negative `ChanReset` (`GALILEO_CHANS != 0`). -/
  | noChannel
  /-- Correlation ran for `sat` on channel `ch` and gave `snr < min_sig`. -/
  | lowSnr (sat : Nat) (ch : Int) (snr : ℚ)
  /-- Correlation ran for `sat` on channel `ch` and gave `snr >= min_sig`. -/
  | started (sat : Nat) (ch : Int) (snr : ℚ)

/-- The code-generator initialisation value `init` computed by the `switch (sp->type)`. -/
def chanInit (cfg : Config) (sp : SATELLITE) : Int :=
  match sp.type with
  | SatType.Navstar => (sp.T1 <<< 4) + sp.T2
  | SatType.QZSS => Int.lor cfg.G2_INIT sp.T2
  | SatType.E1B => Int.lor cfg.E1B_MODE (sp.prn - 1)

/-- The channel request: with `GALILEO_CHANS == 0` the loop
`while ((ch = ChanReset(sat)) < 0) TaskSleepMsec(1000)` ends at the first non-negative
result (`none`: it never comes); otherwise the single call of
`if ((ch = ChanReset(sat)) < 0) continue`. -/
def requestChannel (cfg : Config) (results : List Int) : Option Int :=
  if cfg.GALILEO_CHANS = 0 then results.find? (fun ch => decide (0 ≤ ch))
  else results.head?

/-- The restart / resume redirection at the top of a pass: a pending restart saves the
iteration point in `searchResume` and redirects `sat` and `sp` to the requested satellite;
otherwise a pending resume redirects them to the saved point.  Returns the state and the
local `sat`. -/
def redirect (s : SchedState) : SchedState × Nat :=
  let sat := (s.Sats s.sp).sat
  if s.searchRestart ≠ 0 then
    ({ s with searchResume := sat + 1, sp := s.searchRestart - 1, searchRestart := 0 },
      s.searchRestart - 1)
  else if s.searchResume ≠ 0 then
    ({ s with sp := s.searchResume - 1, searchResume := 0 }, s.searchResume - 1)
  else (s, sat)

/-- The part of a pass from the channel grant on: `Sample`, `Correlate`, the threshold test
and the hand-off, for satellite `sat` on channel `ch`. -/
def acquireOn (cfg : Config) (min_sig : Int) (code : Int → Cplx) (env : IterEnv)
    (s : SchedState) (sat : Nat) (ch : Int) : Option (SchedState × List Event × Outcome) :=
  let ev1 : List Event :=
    if s.last_ch ≠ ch ∧ s.snr < (min_sig : ℚ) then [Event.statSat 0 s.last_ch (-1) false 0]
    else []
  match acqCycle cfg code env.rx sat s.cyc with
  | none => none
  | some (cyc, snr) =>
    let us := env.t_end - env.t_sample
    let ev2 := [Event.statSat snr ch (sat : Int) (decide (snr < (min_sig : ℚ))) us]
    let s := { s with cyc := cyc, snr := snr, last_ch := ch }
    if snr < (min_sig : ℚ) then some (s, ev1 ++ ev2, Outcome.lowSnr sat ch snr)
    else
      let ev3 := [Event.statDop ch ((cyc.lo_shift : ℚ) * cfg.BIN_SIZE) cyc.ca_shift]
      let sp := s.Sats s.sp
      let Sats := Function.update s.Sats s.sp { sp with busy := true }
      let init := chanInit cfg sp
      let ev4 := [Event.chanStart ch sat env.t_sample init cyc.lo_shift cyc.ca_shift
        (cTrunc snr)]
      some ({ s with Sats := Sats }, ev1 ++ ev2 ++ ev3 ++ ev4, Outcome.started sat ch snr)

/-- One pass of the body of `for (sp = Sats; sp->prn != -1; sp++)` in `SearchTask`, entered
with `sp` on a table entry: the state afterwards (with `sp` where the pass left it, before
the `sp++`), the calls made, and how the pass ended.  `none` when the pass does not end
(no channel ever granted, or `Sample` does not return). -/
def SearchTask_body (cfg : Config) (min_sig : Int) (code : Int → Cplx) (env : IterEnv)
    (s : SchedState) : Option (SchedState × List Event × Outcome) :=
  if (s.Sats s.sp).type ≠ SatType.E1B then some (s, [], Outcome.skipType)
  else
    let s1 := redirect s
    let s := s1.1
    let sat := s1.2
    if (s.Sats s.sp).busy = true then some (s, [], Outcome.skipBusy)
    else
      match requestChannel cfg env.chanReset with
      | none => none
      | some ch =>
        if ch < 0 then some (s, [], Outcome.noChannel)
        else acquireOn cfg min_sig code env s sat ch

/-- The `ChanStart` calls in a list of events. -/
def chanStarts (evs : List Event) : List Event :=
  evs.filter (fun e => match e with | Event.chanStart _ _ _ _ _ _ _ => true | _ => false)

/-- The numbering done by the first loop of `SearchInit` (`sp->sat = sat`): every table
entry carries its own index. -/
def Numbered (Sats : Nat → SATELLITE) : Prop := ∀ k, (Sats k).sat = k

/-! ## Worked example configuration -/

/-- Multiplication of a complex value by `i^m`. -/
def mulIPow (m : Nat) (z : Cplx) : Cplx :=
  match m % 4 with
  | 0 => z
  | 1 => (-z.2, z.1)
  | 2 => (-z.1, -z.2)
  | _ => (z.2, -z.1)

/-- The 4-point discrete Fourier transform with twiddle `i^s` (unnormalised, as FFTW):
`s = 3` is the forward transform, `s = 1` the backward one. -/
def dft4 (s : Nat) (x : Fin 4 → Cplx) (k : Fin 4) : Cplx :=
  ((List.finRange 4).map (fun j => mulIPow (s * j.val * k.val) (x j))).foldl
    (fun acc z => (acc.1 + z.1, acc.2 + z.2)) (0, 0)

/-- A small consistent build: `FFT_LEN = 4`, `DECIM = 4`, `NSAMPLES = 16`, Doppler bins
`-2..2`, a window of 4 samples for E1B, and the true 4-point transforms. -/
def exampleCfg : Config where
  FFT_LEN := 4
  NSAMPLES := 16
  DECIM := 4
  BIN_SIZE := 2500
  SAMPLE_RATE := 1000
  GPS_SAMPS := 1
  FC := 1
  FS := 4
  E1B_CODE_PERIOD := 4
  L1_CODE_PERIOD := 1
  G2_INIT := 1024
  E1B_MODE := 2048
  GALILEO_CHANS := 1
  is_E1B := fun _ => true
  bit2float := fun b => (b : ℚ)
  fwd_plan := dft4 3
  rev_plan := dft4 1

/-- Two capture-loop states that cannot be told apart by the rest of the capture: same
sample counter, same NCO phase, same `bits` below the counter. -/
def CapRel (st st2 : CapState) : Prop :=
  st.i = st2.i ∧ st.lo_phase = st2.lo_phase ∧ ∀ k, k < st.i → st.bits k = st2.bits k

/-- A build in which `Sample` returns: packets are not empty, and either there is no
decimation (`DECIM = 1`, `NSAMPLES = FFT_LEN`) or `DECIM` is a power of two `≥ 4` with
`NSAMPLES = DECIM * FFT_LEN`. -/
def Consistent (cfg : Config) : Prop :=
  0 < cfg.GPS_SAMPS ∧
  ((cfg.DECIM = 1 ∧ cfg.NSAMPLES = cfg.FFT_LEN) ∨
    ∃ k, 2 ≤ k ∧ cfg.DECIM = 2 ^ k ∧ cfg.NSAMPLES = 2 ^ k * cfg.FFT_LEN)

/-- A code table whose rows are all zero (static storage never written). -/
def zeroCode : Int → Cplx := fun _ => (0, 0)

/-- A capture in which every packet byte is `0x55`. -/
def rx55 : Nat → Nat → Nat := fun _ _ => 85

/-- A scheduler cycle state with empty buffers and the given contents of `lo_shift` and
`ca_shift`. -/
def cycleStart (lo_shift ca_shift : Int) : CycleState :=
  ⟨fun _ => (0, 0), fun _ => (0, 0), fun _ => (0, 0), lo_shift, ca_shift⟩

/-- A satellite table for worked examples: entry `k` is Galileo PRN `k+1`, numbered `k`,
not busy. -/
def exampleSats : Nat → SATELLITE := fun k => ⟨(k : Int) + 1, SatType.E1B, 0, 0, k, false⟩

/-- A scheduler state for worked examples: iteration point on entry 2, nothing pending. -/
def exampleSched : SchedState := ⟨exampleSats, 2, 0, 0, -1, 0, cycleStart 0 0⟩

/-- An environment for worked examples: channel 0 is granted at once. -/
def exampleEnv : IterEnv := ⟨[0], rx55, 1000, 1500⟩

/-- The smallest consistent build: one sample, no decimation, Doppler bins `-1..1`, a code
period of one sample, and the 1-point transforms (the identity). -/
def unitCfg : Config where
  FFT_LEN := 1
  NSAMPLES := 1
  DECIM := 1
  BIN_SIZE := 5000
  SAMPLE_RATE := 1000
  GPS_SAMPS := 1
  FC := 1
  FS := 4
  E1B_CODE_PERIOD := 1
  L1_CODE_PERIOD := 1
  G2_INIT := 1024
  E1B_MODE := 2048
  GALILEO_CHANS := 1
  is_E1B := fun _ => true
  bit2float := fun b => (b : ℚ)
  fwd_plan := fun x => x
  rev_plan := fun x => x

/-- A code table whose every element is `1 + 0i`. -/
def onesCode : Int → Cplx := fun _ => (1, 0)

/-! ## Code-table construction (`SearchInit`) -/

/-- The chip generators `CACODE` and `E1BCODE`, declared outside the file, as pure sequence
producers: the value of `Chip()` after `k` calls of `Clock()` on a freshly constructed
generator. -/
structure CodeGens where
  /-- The generator `CACODE ca(T1, T2)`. -/
  caChip : Int → Int → Nat → Int
  /-- The generator `E1BCODE e1b(prn)`. -/
  e1bChip : Int → Nat → Int

/-- Variables of the replica loop: the NCO phase (`ca_phase` / `e1b_phase`), the number of
`Clock()` calls made on the generator, and `fwd_buf`. -/
structure GenState where
  phase : ℚ
  clocks : Nat
  fwd_buf : Buf

/-- One pass of the replica loop body for sample `i`: chip at the start of the sample
period, NCO advance, and the blend of previous and next chip when a chip boundary is
crossed. -/
def replicaStep (chipAt : Nat → Int) (rate : ℚ) (i : Nat) (st : GenState) : GenState :=
  let chip := Bipolar (chipAt st.clocks)
  let phase := st.phase + rate
  if phase ≥ 1 then
    let phase := phase - 1
    let clocks := st.clocks + 1
    let chip := chip * (1 - phase)
    let chip := chip + phase * Bipolar (chipAt clocks)
    ⟨phase, clocks, Function.update st.fwd_buf i (chip, 0)⟩
  else ⟨phase, st.clocks, Function.update st.fwd_buf i (chip, 0)⟩

/-- The replica loop `for (int i=0; i<NSAMPLES; i++)`.  The first numeric argument after
`NSAMPLES` bounds the number of passes (`NSAMPLES` is enough). -/
def replicaLoop (chipAt : Nat → Int) (rate : ℚ) (NSAMPLES : Nat) :
    Nat → Nat → GenState → GenState
  | 0, _, st => st
  | fuel + 1, i, st =>
    if i < NSAMPLES then
      replicaLoop chipAt rate NSAMPLES fuel (i + 1) (replicaStep chipAt rate i st)
    else st

/-- The copy `memcpy(code[..]+off, fwd_buf, n*sizeof(fftwf_complex))` into the code table
at flat position `dst`. -/
def memcpyCode (code : Int → Cplx) (dst : Int) (src : Buf) (n : Nat) : Int → Cplx :=
  fun a => if dst ≤ a ∧ a < dst + (n : Int) then src (a - dst).toNat else code a

/-- What the satellite loops of `SearchInit` carry: the code table, `fwd_buf`, and the NCO
phase, which is not reset between satellites. -/
structure InitState where
  code : Int → Cplx
  fwd_buf : Buf
  phase : ℚ

/-- The body of a satellite loop of `SearchInit` for the entry `sp`: replica, decimation,
assertion, forward transform, and the two copies into row `sp->sat`.  `none` when an
assertion fails. -/
def SearchInit_sat (cfg : Config) (chipAt : Nat → Int) (rate : ℚ) (sp : SATELLITE)
    (st : InitState) : Option InitState :=
  let g := replicaLoop chipAt rate cfg.NSAMPLES cfg.NSAMPLES 0 ⟨st.phase, 0, st.fwd_buf⟩
  match SearchInit_decimate cfg.DECIM cfg.NSAMPLES cfg.FFT_LEN g.fwd_buf with
  | none => none
  | some d =>
    let nsamples := d.2
    let fwd := fftwf_execute cfg.FFT_LEN cfg.fwd_plan d.1
    let code1 := memcpyCode st.code (codeRow cfg.FFT_LEN sp.sat) fwd nsamples
    let code2 := memcpyCode code1 (codeRow cfg.FFT_LEN sp.sat + (nsamples : Int)) fwd nsamples
    some ⟨code2, fwd, g.phase⟩

/-- A satellite loop `for (sp = Sats; sp->prn != -1; sp++)` of `SearchInit` over the table
entries before the sentinel: entries not selected by the type test are skipped by
`continue`; `gen sp` is the generator constructed for `sp`. -/
def SearchInit_loop (cfg : Config) (sel : SATELLITE → Bool) (gen : SATELLITE → Nat → Int)
    (rate : ℚ) : List SATELLITE → InitState → Option InitState
  | [], st => some st
  | sp :: rest, st =>
    if sel sp = true then
      match SearchInit_sat cfg (gen sp) rate sp st with
      | none => none
      | some st2 => SearchInit_loop cfg sel gen rate rest st2
    else SearchInit_loop cfg sel gen rate rest st

/-- The numbering loop `for (sat = 0, sp = Sats; sp->prn != -1; sat++, sp++) sp->sat = sat`,
started at number `sat`. -/
def numberFrom : Nat → List SATELLITE → List SATELLITE
  | _, [] => []
  | sat, sp :: rest => { sp with sat := sat } :: numberFrom (sat + 1) rest

/-- `SearchInit()` as far as the code table goes, on the table entries `Sats` before the
sentinel, the static `code` and `fwd_buf` it finds, and the constants `CPS` and
`MAX_SATS`: numbering, the capacity assertion, the Navstar / QZSS loop and the E1B loop.
Returns the numbered table and the final statics; `none` when an assertion fails. -/
def SearchInit (cfg : Config) (gens : CodeGens) (CPS : ℚ) (MAX_SATS : Nat)
    (Sats : List SATELLITE) (code : Int → Cplx) (fwd_buf : Buf) :
    Option (List SATELLITE × InitState) :=
  let Sats1 := numberFrom 0 Sats
  let sat := Sats.length
  if sat ≥ MAX_SATS then none
  else
    let ca_rate := CPS / cfg.FS
    match SearchInit_loop cfg
        (fun sp => decide (¬ (sp.type ≠ SatType.Navstar ∧ sp.type ≠ SatType.QZSS)))
        (fun sp => gens.caChip sp.T1 sp.T2) ca_rate Sats1 ⟨code, fwd_buf, 0⟩ with
    | none => none
    | some st1 =>
      let e1b_rate := CPS / cfg.FS
      SearchInit_loop cfg (fun sp => decide (¬ (sp.type ≠ SatType.E1B)))
        (fun sp => gens.e1bChip sp.prn) e1b_rate Sats1 { st1 with phase := 0 } |>.map
          (fun st2 => (Sats1, st2))

/-- The generator `SearchInit` constructs for a table entry, by its type. -/
def genOf (gens : CodeGens) (sp : SATELLITE) : Nat → Int :=
  match sp.type with
  | SatType.E1B => gens.e1bChip sp.prn
  | _ => gens.caChip sp.T1 sp.T2

/-- The spectrum of the decimated replica of the entry `sp`: the first `FFT_LEN` elements of
row `k` of `code` are the forward transform of a buffer that the decimation step produced
from a replica generated for `sp` (at some NCO phase, over some previous buffer
contents). -/
def HoldsSpectrum (cfg : Config) (gens : CodeGens) (rate : ℚ) (sp : SATELLITE)
    (code : Int → Cplx) (k : Nat) : Prop :=
  ∃ (phase : ℚ) (fwd : Buf) (d : Buf × Nat),
    SearchInit_decimate cfg.DECIM cfg.NSAMPLES cfg.FFT_LEN
      (replicaLoop (genOf gens sp) rate cfg.NSAMPLES cfg.NSAMPLES 0 ⟨phase, 0, fwd⟩).fwd_buf =
        some d ∧
    ∀ i : Nat, i < cfg.FFT_LEN →
      code (codeRow cfg.FFT_LEN k + (i : Int)) = fftwf_execute cfg.FFT_LEN cfg.fwd_plan d.1 i

/-- Chip generators for worked examples: alternating sequences seeded by the code
parameters. -/
def exampleGens : CodeGens :=
  ⟨fun T1 T2 k => (T1 + T2 + (k : Int)) % 2, fun prn k => (prn + (k : Int)) % 2⟩

/-- A satellite table for worked examples (entries before the sentinel): one Navstar, one
QZSS and one Galileo satellite, not yet numbered. -/
def exampleTable : List SATELLITE :=
  [⟨5, SatType.Navstar, 1, 9, 0, false⟩, ⟨193, SatType.QZSS, 0, 1020, 0, false⟩,
    ⟨11, SatType.E1B, 0, 0, 0, false⟩]

/-! ## Restart requests and the scheduler loop (`SearchEnable`, `SearchTask`) -/

/-- `SearchEnable(ch, sat, restart)`: `Sats[sat].busy = false; if (restart) searchRestart =
sat+1;` (`ch` only feeds a disabled `printf`). -/
def SearchEnable (_ch : Int) (sat : Nat) (restart : Bool) (s : SchedState) : SchedState :=
  { s with
    Sats := Function.update s.Sats sat { s.Sats sat with busy := false }
    searchRestart := if restart = true then sat + 1 else s.searchRestart }

/-- The step `sp++` followed by the loop test `sp->prn != -1`: at the sentinel the inner
loop ends and the outer `for(;;)` starts again at `Sats` (a table with at least one
entry). -/
def advance (Sats : Nat → SATELLITE) (sp : Nat) : Nat :=
  if (Sats (sp + 1)).prn ≠ -1 then sp + 1 else 0

/-- One pass of the inner loop of `SearchTask`: the loop body, then the move to the next
iteration point. -/
def SearchTask_pass (cfg : Config) (min_sig : Int) (code : Int → Cplx) (env : IterEnv)
    (s : SchedState) : Option (SchedState × List Event × Outcome) :=
  (SearchTask_body cfg min_sig code env s).map
    (fun r => ({ r.1 with sp := advance r.1.Sats r.1.sp }, r.2))

/-- The satellite a pass entered in state `s` examines (tests for `busy` and, if free, goes
on to acquire): none when the iteration point fails the constellation test, otherwise the
satellite left in `sat` by the restart / resume redirection. -/
def examined (s : SchedState) : Option Nat :=
  if (s.Sats s.sp).type ≠ SatType.E1B then none else some (redirect s).2

/-- Successive passes of the inner loop, one per environment, without any call of
`SearchEnable` in between: for each pass the satellite examined and the state after it.
`none` when some pass does not end. -/
def SearchTask_run (cfg : Config) (min_sig : Int) (code : Int → Cplx) :
    List IterEnv → SchedState → Option (List (Option Nat × SchedState))
  | [], _ => some []
  | env :: rest, s =>
    match SearchTask_pass cfg min_sig code env s with
    | none => none
    | some r =>
      (SearchTask_run cfg min_sig code rest r.1).map (fun tr => (examined s, r.1) :: tr)

/-- A satellite table for worked examples: a GPS satellite in entry 0, Galileo satellites
in entries 1 to 5, the sentinel (`prn = -1`) from entry 6 on; numbered, none busy. -/
def mixedSats : Nat → SATELLITE := fun k =>
  if k = 0 then ⟨5, SatType.Navstar, 1, 9, 0, false⟩
  else if k < 6 then ⟨(k : Int) + 1, SatType.E1B, 0, 0, k, false⟩
  else ⟨-1, SatType.Navstar, 0, 0, k, false⟩

/-- A scheduler state on `mixedSats` with the iteration point on entry `sp` and the given
pending restart. -/
def mixedSched (sp searchRestart : Nat) : SchedState :=
  ⟨mixedSats, sp, searchRestart, 0, -1, 0, cycleStart 0 0⟩

/-- Two satellite tables that differ in `busy` flags at most. -/
def SameTable (S S2 : Nat → SATELLITE) : Prop :=
  ∀ k, (S2 k).prn = (S k).prn ∧ (S2 k).type = (S k).type ∧ (S2 k).sat = (S k).sat

/-- The table ends at entry `n`: the entries before `n` are satellites and entry `n` is the
sentinel (`prn == -1`). -/
def SentinelAt (S : Nat → SATELLITE) (n : Nat) : Prop :=
  (∀ k, k < n → (S k).prn ≠ -1) ∧ (S n).prn = -1

/-! ## Histories of the scheduler -/

/-- A call `SearchEnable(ch, sat, restart)` made by another task. -/
structure EnableCall where
  ch : Int
  sat : Nat
  restart : Bool

/-- The calls of `SearchEnable` made by other tasks during one suspension of the scheduler,
in order. -/
def enables : List EnableCall → SchedState → SchedState
  | [], s => s
  | c :: rest, s => enables rest (SearchEnable c.ch c.sat c.restart s)

/-- One pass of the body of the loop in `SearchTask` together with the calls of
`SearchEnable` that other tasks make while the pass is suspended: `pre` during
`TaskSleepMsec(1000)`, before the `busy` test; `mid` during the channel wait, `Sample` and
`Correlate`, before `sp->busy = true`.  With no such calls this is `SearchTask_body`. -/
def SearchTask_body_yield (cfg : Config) (min_sig : Int) (code : Int → Cplx) (env : IterEnv)
    (pre mid : List EnableCall) (s : SchedState) : Option (SchedState × List Event × Outcome) :=
  if (s.Sats s.sp).type ≠ SatType.E1B then some (s, [], Outcome.skipType)
  else
    let s1 := redirect s
    let s := enables pre s1.1
    let sat := s1.2
    if (s.Sats s.sp).busy = true then some (s, [], Outcome.skipBusy)
    else
      match requestChannel cfg env.chanReset with
      | none => none
      | some ch =>
        if ch < 0 then some (s, [], Outcome.noChannel)
        else acquireOn cfg min_sig code env (enables mid s) sat ch

/-- The satellite a pass entered in state `s` passes to `ChanReset(sat)`, and then to
`Correlate` and `ChanStart`: none when the pass ends at the constellation test or at the
`busy` test. -/
def requested (pre : List EnableCall) (s : SchedState) : Option Nat :=
  if (s.Sats s.sp).type ≠ SatType.E1B then none
  else if ((enables pre (redirect s).1).Sats (enables pre (redirect s).1).sp).busy = true then none
  else some (redirect s).2

/-- The satellites handed to the tracking subsystem by the calls in `evs`: the `sat`
arguments of the `ChanStart` calls. -/
def startedSats : List Event → List Nat
  | [] => []
  | Event.chanStart _ sat _ _ _ _ _ :: rest => sat :: startedSats rest
  | _ :: rest => startedSats rest

/-- What happens between two looks at the scheduler: a pass of the loop (with the calls of
`SearchEnable` made during its suspensions), or a call of `SearchEnable` between two
passes. -/
inductive SchedStep where
  | pass (env : IterEnv) (pre mid : List EnableCall)
  | enable (c : EnableCall)

/-- Every call names a satellite that was handed to the tracking subsystem. -/
def allTracked (tracked : List Nat) (calls : List EnableCall) : Bool :=
  calls.all (fun c => decide (c.sat ∈ tracked))

/-- The state in which `SearchTask` enters its loop on the table `Sats`: `sp = Sats`, no
restart or resume pending, `last_ch = -1`, `snr = 0`, `lo_shift = ca_shift = 0`. -/
def schedStart (Sats : Nat → SATELLITE) (bits : Nat → Int × Int) (fwd_buf rev_buf : Buf) :
    SchedState :=
  ⟨Sats, 0, 0, 0, -1, 0, ⟨bits, fwd_buf, rev_buf, 0, 0⟩⟩

/-- A history of the scheduler from the state `st.1`, with `st.2` the satellites handed to
tracking so far: `SearchEnable` is called by the tracking subsystem, for a satellite it was
handed.  `none` when a pass does not end or a call names another satellite. -/
def schedRun (cfg : Config) (min_sig : Int) (code : Int → Cplx) :
    List SchedStep → SchedState × List Nat → Option (SchedState × List Nat)
  | [], st => some st
  | SchedStep.pass env pre mid :: rest, st =>
    if allTracked st.2 (pre ++ mid) = true then
      match SearchTask_body_yield cfg min_sig code env pre mid st.1 with
      | none => none
      | some r =>
        schedRun cfg min_sig code rest
          ({ r.1 with sp := advance r.1.Sats r.1.sp }, startedSats r.2.1 ++ st.2)
    else none
  | SchedStep.enable c :: rest, st =>
    if c.sat ∈ st.2 then
      schedRun cfg min_sig code rest (SearchEnable c.ch c.sat c.restart st.1, st.2)
    else none

/-- The state a history ends in (the starting state when the history is not one). -/
def stateAfter (cfg : Config) (min_sig : Int) (code : Int → Cplx) (acts : List SchedStep)
    (st : SchedState × List Nat) : SchedState × List Nat :=
  (schedRun cfg min_sig code acts st).getD st

/-- Invariant of the scheduler: the table is the initial one up to `busy` flags, and the
satellites handed to tracking, a pending restart and a pending resume point are all
E1B. -/
def PendingE1B (S0 : Nat → SATELLITE) (s : SchedState) (tracked : List Nat) : Prop :=
  SameTable S0 s.Sats ∧
  (∀ q, q ∈ tracked → (S0 q).type = SatType.E1B) ∧
  (s.searchRestart ≠ 0 → (S0 (s.searchRestart - 1)).type = SatType.E1B) ∧
  (s.searchResume ≠ 0 → (S0 (s.searchResume - 1)).type = SatType.E1B)

/-- A history on the example table: the first pass skips entry 0, the second acquires
satellite 1, then tracking reports a restart for satellite 1. -/
def exampleHistory : List SchedStep :=
  [SchedStep.pass exampleEnv [] [], SchedStep.pass exampleEnv [] [],
    SchedStep.enable ⟨0, 1, true⟩]

/-- The state the example history ends in, from the start of `SearchTask` on the example
table with empty buffers. -/
def exampleAfter : SchedState × List Nat :=
  stateAfter unitCfg 1 onesCode exampleHistory
    (schedStart mixedSats (cycleStart 0 0).bits (cycleStart 0 0).fwd_buf
      (cycleStart 0 0).rev_buf, [])
/-! ## Further worked examples -/

/-- A sample spectrum for worked examples: elements 0 and 1 are `1`, the rest `0`. -/
def corrData : Buf := fun i => if i < 2 then (1, 0) else (0, 0)

/-- A code table for worked examples: every row is `1, -1-i, 0, -1-i`, twice. -/
def corrCode : Int → Cplx := fun a =>
  match a % 4 with
  | 0 => (1, 0)
  | 1 => (-1, -1)
  | 2 => (0, 0)
  | _ => (-1, -1)

/-- The code table `SearchInit` leaves when it starts on zeroed static storage (all zero
if it does not complete). -/
def codeAfterInit (cfg : Config) (gens : CodeGens) (CPS : ℚ) (MAX_SATS : Nat)
    (Sats : List SATELLITE) : Int → Cplx :=
  match SearchInit cfg gens CPS MAX_SATS Sats zeroCode (fun _ => (0, 0)) with
  | some r => r.2.code
  | none => zeroCode

/-- A build without decimation: `DECIM = 1`, `FFT_LEN = NSAMPLES = 4`, Doppler bins
`-1..1`, a window of 4 samples, NCO rate `4*FC/FS = 1`, and the true 4-point
transforms. -/
def directCfg : Config where
  FFT_LEN := 4
  NSAMPLES := 4
  DECIM := 1
  BIN_SIZE := 5000
  SAMPLE_RATE := 1000
  GPS_SAMPS := 1
  FC := 1
  FS := 4
  E1B_CODE_PERIOD := 4
  L1_CODE_PERIOD := 1
  G2_INIT := 1024
  E1B_MODE := 2048
  GALILEO_CHANS := 1
  is_E1B := fun _ => true
  bit2float := fun b => 1 - 2 * (b : ℚ)
  fwd_plan := dft4 3
  rev_plan := dft4 1

theorem dopInRange_neg_one (BIN_SIZE : ℚ) (hB : 0 < BIN_SIZE) (hB2 : BIN_SIZE ≤ 5000) :
    dopInRange BIN_SIZE (-1) := by
  have h1 : (1 : ℚ) ≤ 5000 / BIN_SIZE := by
    rw [le_div_iff₀ hB]; linarith
  constructor
  · unfold dopFirst cTrunc
    have hneg : ¬ (0 : ℚ) ≤ -5000 / BIN_SIZE := by
      rw [neg_div]; intro h; linarith
    rw [if_neg hneg, Int.ceil_le]
    rw [neg_div]; push_cast; linarith
  · unfold dopCond
    rw [decide_eq_true_eq]; push_cast; linarith

/-- For a Doppler bin `0 ≤ dop ≤ FFT_LEN` the element read through
`code[sat]+FFT_LEN-dop` lies inside row `sat` and, given the duplication
invariant, is the element the modulo-indexed reference loop reads. -/
theorem corrCodeIndex_in_row_of_nonneg (FFT_LEN : Nat) (dop : Int) (i : Nat)
    (h0 : 0 ≤ dop) (h1 : dop ≤ FFT_LEN) (hi : i < FFT_LEN)
    (code : Int → ℚ × ℚ) (sat : Nat) (hdup : Duplicated FFT_LEN code sat) :
    0 ≤ corrCodeIndex FFT_LEN dop i ∧ corrCodeIndex FFT_LEN dop i < 2 * (FFT_LEN : Int) ∧
    code (codeRow FFT_LEN sat + corrCodeIndex FFT_LEN dop i) =
      code (codeRow FFT_LEN sat + refCodeIndex FFT_LEN dop i) := by
  unfold corrCodeIndex refCodeIndex
  have hi' : (i : Int) < FFT_LEN := by exact_mod_cast hi
  have hi0 : (0 : Int) ≤ i := Int.natCast_nonneg i
  refine ⟨by omega, by omega, ?_⟩
  have hnn : (0 : Int) ≤ (i : Int) - dop + FFT_LEN := by omega
  have hF : (0 : Int) ≤ (FFT_LEN : Int) := Int.natCast_nonneg _
  rw [Int.tmod_eq_emod hnn hF]
  by_cases hc : dop ≤ i
  · -- wraps: the read is in the second copy
    have hm : ((i : Int) - dop + FFT_LEN) % (FFT_LEN : Int) = i - dop := by
      rw [Int.add_emod_self]
      exact Int.emod_eq_of_lt (by omega) (by omega)
    rw [hm]
    have hk := hdup (i - dop).toNat (by omega)
    have hcast : (((i : Int) - dop).toNat : Int) = i - dop := Int.toNat_of_nonneg (by omega)
    rw [hcast] at hk
    rw [← hk]
    congr 1; ring
  · have hm : ((i : Int) - dop + FFT_LEN) % (FFT_LEN : Int) = i - dop + FFT_LEN :=
      Int.emod_eq_of_lt (by omega) (by omega)
    rw [hm]
    congr 1; ring

/-- The row number of a flat address of the code table. -/
theorem codeRow_ediv (FFT_LEN : Nat) (hF : 0 < FFT_LEN) (s : Nat) (k : Int)
    (h0 : 0 ≤ k) (h1 : k < 2 * (FFT_LEN : Int)) :
    (codeRow FFT_LEN s + k) / (2 * (FFT_LEN : Int)) = s := by
  unfold codeRow
  have hpos : (0 : Int) < 2 * (FFT_LEN : Int) := by
    have : (0 : Int) < FFT_LEN := by exact_mod_cast hF
    omega
  rw [Int.add_comm, Int.add_mul_ediv_right _ _ (ne_of_gt hpos), Int.ediv_eq_zero_of_lt h0 h1]
  simp

/-- C1 (fails for negative Doppler bins): for the Doppler bin `dop = -1`, which is in the
search range whenever `BIN_SIZE ≤ 5000`, and `i = FFT_LEN - 1`, the element read through
`code[sat]+FFT_LEN-dop` has index exactly `2*FFT_LEN`, one past the end of the satellite's
`2*FFT_LEN`-element row: it is element 0 of row `sat+1`, whereas the modulo-indexed
reference loop reads index 0 of row `sat`; there is a code table satisfying the
duplication invariant on every row for which the two reads differ. -/
theorem correlate_negative_doppler_reads_past_row (FFT_LEN : Nat) (BIN_SIZE : ℚ) (sat : Nat)
    (hF : 0 < FFT_LEN) (hB : 0 < BIN_SIZE) (hB2 : BIN_SIZE ≤ 5000) :
    dopInRange BIN_SIZE (-1) ∧ FFT_LEN - 1 < FFT_LEN ∧
    corrCodeIndex FFT_LEN (-1) (FFT_LEN - 1) = 2 * (FFT_LEN : Int) ∧
    ¬ corrCodeIndex FFT_LEN (-1) (FFT_LEN - 1) < 2 * (FFT_LEN : Int) ∧
    codeRow FFT_LEN sat + corrCodeIndex FFT_LEN (-1) (FFT_LEN - 1) = codeRow FFT_LEN (sat + 1) ∧
    refCodeIndex FFT_LEN (-1) (FFT_LEN - 1) = 0 ∧
    ∃ code : Int → ℚ × ℚ, (∀ s, Duplicated FFT_LEN code s) ∧
      code (codeRow FFT_LEN sat + corrCodeIndex FFT_LEN (-1) (FFT_LEN - 1)) ≠
        code (codeRow FFT_LEN sat + refCodeIndex FFT_LEN (-1) (FFT_LEN - 1)) := by
  have hFi : (0 : Int) < FFT_LEN := by exact_mod_cast hF
  have hcast : ((FFT_LEN - 1 : Nat) : Int) = (FFT_LEN : Int) - 1 := by omega
  have hidx : corrCodeIndex FFT_LEN (-1) (FFT_LEN - 1) = 2 * (FFT_LEN : Int) := by
    unfold corrCodeIndex; rw [hcast]; ring
  have href : refCodeIndex FFT_LEN (-1) (FFT_LEN - 1) = 0 := by
    unfold refCodeIndex
    rw [hcast]
    have : (FFT_LEN : Int) - 1 - -1 + FFT_LEN = 2 * (FFT_LEN : Int) := by ring
    rw [this, Int.tmod_eq_emod (by omega) (by omega)]
    exact Int.mul_emod_left 2 _
  have hrow : codeRow FFT_LEN sat + 2 * (FFT_LEN : Int) = codeRow FFT_LEN (sat + 1) := by
    unfold codeRow; push_cast; ring
  refine ⟨dopInRange_neg_one BIN_SIZE hB hB2, by omega, hidx, by rw [hidx]; omega,
    by rw [hidx, hrow], href, ?_⟩
  refine ⟨fun a => (((a / (2 * (FFT_LEN : Int)) : Int) : ℚ), 0), ?_, ?_⟩
  · intro s i hi
    have hi' : (i : Int) < FFT_LEN := by exact_mod_cast hi
    have hi0 : (0 : Int) ≤ i := Int.natCast_nonneg i
    show ((((codeRow FFT_LEN s + (FFT_LEN : Int) + (i : Int)) / (2 * (FFT_LEN : Int)) : Int) : ℚ), (0 : ℚ))
      = ((((codeRow FFT_LEN s + (i : Int)) / (2 * (FFT_LEN : Int)) : Int) : ℚ), (0 : ℚ))
    rw [Int.add_assoc, codeRow_ediv FFT_LEN hF s _ (by omega) (by omega),
      codeRow_ediv FFT_LEN hF s _ hi0 (by omega)]
  · rw [hidx, href, hrow]
    have h1 := codeRow_ediv FFT_LEN hF (sat + 1) 0 (le_refl _) (by omega)
    have h2 := codeRow_ediv FFT_LEN hF sat 0 (le_refl _) (by omega)
    simp only [Int.add_zero] at h1 h2 ⊢
    rw [h1, h2]
    intro h
    have := congrArg Prod.fst h
    simp at this

theorem correlate_negative_doppler_reads_past_row_witness :
    dopInRange (249755 / 1000) (-1) ∧ 16384 - 1 < 16384 ∧
    corrCodeIndex 16384 (-1) (16384 - 1) = 2 * ((16384 : Nat) : Int) ∧
    ¬ corrCodeIndex 16384 (-1) (16384 - 1) < 2 * ((16384 : Nat) : Int) ∧
    codeRow 16384 3 + corrCodeIndex 16384 (-1) (16384 - 1) = codeRow 16384 (3 + 1) ∧
    refCodeIndex 16384 (-1) (16384 - 1) = 0 ∧
    ∃ code : Int → ℚ × ℚ, (∀ s, Duplicated 16384 code s) ∧
      code (codeRow 16384 3 + corrCodeIndex 16384 (-1) (16384 - 1)) ≠
        code (codeRow 16384 3 + refCodeIndex 16384 (-1) (16384 - 1)) :=
  correlate_negative_doppler_reads_past_row 16384 (249755 / 1000) 3 (by decide)
    (by norm_num) (by norm_num)

/-! ## Theorems: load control -/

theorem run_state_eq (s : RunState) (inp : RunInputs) :
    (SearchTaskRun s inp).1 =
      if s.searchTaskID = -1 then s
      else if s.gps_acquire ≠ 0 ∧ startDecision inp = false then { s with gps_acquire := 0 }
      else if s.gps_acquire = 0 ∧ startDecision inp = true then { s with gps_acquire := 1 }
      else s := by
  unfold SearchTaskRun
  dsimp only
  split_ifs <;> rfl

theorem run_calls_eq (s : RunState) (inp : RunInputs) :
    (SearchTaskRun s inp).2.1 =
      if s.searchTaskID = -1 then []
      else if s.gps_acquire ≠ 0 ∧ startDecision inp = false then
        [Call.statAcquire 0, Call.taskSleepID s.searchTaskID]
      else if s.gps_acquire = 0 ∧ startDecision inp = true then
        [Call.statAcquire 1, Call.taskWakeup s.searchTaskID]
      else [] := by
  unfold SearchTaskRun
  dsimp only
  split_ifs <;> rfl

theorem run_result_eq (s : RunState) (inp : RunInputs) :
    (SearchTaskRun s inp).2.2 = if s.searchTaskID = -1 then false else inp.enable_gps := by
  unfold SearchTaskRun
  dsimp only
  split_ifs <;> simp

theorem reachable_gps_acquire (s : RunState) (h : Reachable s) :
    s.gps_acquire = 0 ∨ s.gps_acquire = 1 := by
  induction h with
  | init => right; rfl
  | taskStart s tid _ ih => exact ih
  | run s inp _ ih =>
    rw [run_state_eq]
    split_ifs <;> simp_all

theorem startDecision_iff (inp : RunInputs) : startDecision inp = true ↔ shouldSearch inp := by
  unfold startDecision shouldSearch
  cases inp with
  | mk u c g a up sd bk en =>
    cases a <;> cases up <;> cases sd <;> cases bk <;> cases en <;> simp
    all_goals tauto

/-- C2: once the search task has started, in every reachable state and for every combination
of polled inputs, after `SearchTaskRun` the state is Searching (`gps_acquire = 1`) exactly when
(no clock correction yet, or no connection, or fewer than five satellites tracked, or the
always-acquire override) and no update / storage copy / backup is in progress and acquisition
is enabled, and is Suspended (`gps_acquire = 0`) otherwise.  With zero connections the
tracked-satellite count plays no part, and an update in progress gives Suspended. -/
theorem searchTaskRun_state (s : RunState) (inp : RunInputs) (hr : Reachable s)
    (hs : s.searchTaskID ≠ -1) :
    ((SearchTaskRun s inp).1.gps_acquire = 1 ↔ shouldSearch inp) ∧
    (¬ shouldSearch inp → (SearchTaskRun s inp).1.gps_acquire = 0) ∧
    (inp.users = 0 →
      ((SearchTaskRun s inp).1.gps_acquire = 1 ↔
        (inp.update_in_progress = false ∧ inp.sd_copy_in_progress = false ∧
          inp.backup_in_progress = false) ∧ inp.enable_gps = true)) ∧
    (inp.update_in_progress = true → (SearchTaskRun s inp).1.gps_acquire = 0) := by
  have hinv := reachable_gps_acquire s hr
  have key : ((SearchTaskRun s inp).1.gps_acquire = 1 ↔ shouldSearch inp) ∧
      (¬ shouldSearch inp → (SearchTaskRun s inp).1.gps_acquire = 0) := by
    rw [← startDecision_iff, run_state_eq]
    rcases hinv with h | h <;> cases hd : startDecision inp <;> simp [hs, h]
  refine ⟨key.1, key.2, ?_, ?_⟩
  · intro hu
    rw [key.1]
    unfold shouldSearch
    constructor
    · intro h; exact ⟨h.2.1, h.2.2⟩
    · intro h; exact ⟨Or.inr (Or.inl hu), h.1, h.2⟩
  · intro hu
    apply key.2
    unfold shouldSearch
    intro h
    rw [hu] at h
    exact Bool.noConfusion h.2.1.1

theorem searchTaskRun_state_witness :
    ((SearchTaskRun ⟨7, 1⟩ ⟨0, 3, 9, false, true, false, false, true⟩).1.gps_acquire = 1 ↔
      shouldSearch ⟨0, 3, 9, false, true, false, false, true⟩) ∧
    (¬ shouldSearch ⟨0, 3, 9, false, true, false, false, true⟩ →
      (SearchTaskRun ⟨7, 1⟩ ⟨0, 3, 9, false, true, false, false, true⟩).1.gps_acquire = 0) ∧
    ((0 : Int) = 0 →
      ((SearchTaskRun ⟨7, 1⟩ ⟨0, 3, 9, false, true, false, false, true⟩).1.gps_acquire = 1 ↔
        (true = false ∧ false = false ∧ false = false) ∧ true = true)) ∧
    (true = true →
      (SearchTaskRun ⟨7, 1⟩ ⟨0, 3, 9, false, true, false, false, true⟩).1.gps_acquire = 0) :=
  searchTaskRun_state ⟨7, 1⟩ ⟨0, 3, 9, false, true, false, false, true⟩
    (Reachable.taskStart ⟨-1, 1⟩ 7 Reachable.init) (by decide)

theorem runTrace_calls (s : RunState) (inps : List RunInputs) (hr : Reachable s) :
    ∀ e ∈ runTrace s inps,
      sleepCalls e.2.2 = (if e.1.gps_acquire = 1 ∧ e.2.1.gps_acquire = 0 then 1 else 0) ∧
      wakeCalls e.2.2 = (if e.1.gps_acquire = 0 ∧ e.2.1.gps_acquire = 1 then 1 else 0) ∧
      (e.2.1.gps_acquire = e.1.gps_acquire → e.2.2 = []) ∧
      ¬ (0 < sleepCalls e.2.2 ∧ 0 < wakeCalls e.2.2) := by
  induction inps generalizing s with
  | nil => intro e he; simp [runTrace] at he
  | cons inp rest ih =>
    intro e he
    simp only [runTrace, List.mem_cons] at he
    rcases he with rfl | he
    · have hinv := reachable_gps_acquire s hr
      refine ⟨?_, ?_, ?_, ?_⟩
      · show sleepCalls (SearchTaskRun s inp).2.1 = _
        rw [run_calls_eq, run_state_eq]
        rcases hinv with h | h <;> cases hd : startDecision inp <;>
          by_cases hid : s.searchTaskID = -1 <;> simp [h, hid, sleepCalls]
      · show wakeCalls (SearchTaskRun s inp).2.1 = _
        rw [run_calls_eq, run_state_eq]
        rcases hinv with h | h <;> cases hd : startDecision inp <;>
          by_cases hid : s.searchTaskID = -1 <;> simp [h, hid, wakeCalls]
      · show (SearchTaskRun s inp).1.gps_acquire = s.gps_acquire → (SearchTaskRun s inp).2.1 = []
        rw [run_calls_eq, run_state_eq]
        rcases hinv with h | h <;> cases hd : startDecision inp <;>
          by_cases hid : s.searchTaskID = -1 <;> simp [h, hid]
      · show ¬ (0 < sleepCalls (SearchTaskRun s inp).2.1 ∧ 0 < wakeCalls (SearchTaskRun s inp).2.1)
        rw [run_calls_eq]
        rcases hinv with h | h <;> cases hd : startDecision inp <;>
          by_cases hid : s.searchTaskID = -1 <;> simp [h, hid, sleepCalls, wakeCalls]
    · exact ih (SearchTaskRun s inp).1 (Reachable.run s inp hr) e he

theorem run_twice_calls (s : RunState) (inp : RunInputs) (hr : Reachable s) :
    (SearchTaskRun (SearchTaskRun s inp).1 inp).2.1 = [] := by
  have hinv := reachable_gps_acquire s hr
  rw [run_calls_eq, run_state_eq]
  rcases hinv with h | h <;> cases hd : startDecision inp <;>
    by_cases hid : s.searchTaskID = -1 <;> simp [h, hid, hd]

/-- C3: along every sequence of `SearchTaskRun` evaluations from a reachable state, each
evaluation issues exactly one sleep call when the state goes from Searching to Suspended,
exactly one wake call when it goes from Suspended to Searching, and no sleep or wake call
otherwise: an evaluation that leaves the state unchanged issues no call at all, no
evaluation issues both a sleep and a wake call, and evaluating again with the same inputs
issues nothing. -/
theorem searchTaskRun_calls (s : RunState) (inps : List RunInputs) (hr : Reachable s) :
    (∀ e ∈ runTrace s inps,
      sleepCalls e.2.2 = (if e.1.gps_acquire = 1 ∧ e.2.1.gps_acquire = 0 then 1 else 0) ∧
      wakeCalls e.2.2 = (if e.1.gps_acquire = 0 ∧ e.2.1.gps_acquire = 1 then 1 else 0) ∧
      (e.2.1.gps_acquire = e.1.gps_acquire → e.2.2 = []) ∧
      ¬ (0 < sleepCalls e.2.2 ∧ 0 < wakeCalls e.2.2)) ∧
    (∀ inp, (SearchTaskRun (SearchTaskRun s inp).1 inp).2.1 = []) :=
  ⟨runTrace_calls s inps hr, fun inp => run_twice_calls s inp hr⟩

theorem searchTaskRun_calls_witness :
    (∀ e ∈ runTrace ⟨7, 1⟩
        [⟨2, 3, 9, false, false, false, false, true⟩, ⟨2, 3, 9, false, false, false, false, true⟩,
          ⟨0, 3, 9, false, false, false, false, true⟩],
      sleepCalls e.2.2 = (if e.1.gps_acquire = 1 ∧ e.2.1.gps_acquire = 0 then 1 else 0) ∧
      wakeCalls e.2.2 = (if e.1.gps_acquire = 0 ∧ e.2.1.gps_acquire = 1 then 1 else 0) ∧
      (e.2.1.gps_acquire = e.1.gps_acquire → e.2.2 = []) ∧
      ¬ (0 < sleepCalls e.2.2 ∧ 0 < wakeCalls e.2.2)) ∧
    (∀ inp, (SearchTaskRun (SearchTaskRun ⟨7, 1⟩ inp).1 inp).2.1 = []) :=
  searchTaskRun_calls ⟨7, 1⟩ _ (Reachable.taskStart ⟨-1, 1⟩ 7 Reachable.init)

/-- The trace used in the C3 witness: one sleep on the first evaluation, nothing on the
repeated one, one wake when the last connection goes away. -/
theorem runTrace_example :
    (runTrace ⟨7, 1⟩
        [⟨2, 3, 9, false, false, false, false, true⟩, ⟨2, 3, 9, false, false, false, false, true⟩,
          ⟨0, 3, 9, false, false, false, false, true⟩]).map (fun e => e.2.2) =
      [[Call.statAcquire 0, Call.taskSleepID 7], [], [Call.statAcquire 1, Call.taskWakeup 7]] := by
  decide

/-- C4 (counterexample): before the search task has started (`searchTaskID = -1`),
`SearchTaskRun` returns false although `enable_gps` is true. -/
theorem searchTaskRun_result_counterexample :
    (SearchTaskRun ⟨-1, 1⟩ ⟨0, 0, 0, false, false, false, false, true⟩).2.2 = false ∧
    (⟨0, 0, 0, false, false, false, false, true⟩ : RunInputs).enable_gps = true := by
  decide

/-- C4 (amended): for every state and every input, `SearchTaskRun` returns true if and only
if the search task has started (`searchTaskID ≠ -1`) and `enable_gps` is true; the
connection count, the tracked-satellite count, the clock corrections, the override and the
busy-operation flags play no part. -/
theorem searchTaskRun_result (s : RunState) (inp : RunInputs) :
    (SearchTaskRun s inp).2.2 = true ↔ (s.searchTaskID ≠ -1 ∧ inp.enable_gps = true) := by
  rw [run_result_eq]
  by_cases h : s.searchTaskID = -1 <;> simp [h]

/-! ## Theorems: sample-count bookkeeping -/

theorem decimate_count (size ibase obase : Nat) (mem : Buf) :
    (DecimateBy2float size ibase obase mem).2 = size / 2 := rfl

theorem decimateBinary_count (b2f : Int → ℚ) (size : Nat) (ibuf : Nat → Int × Int)
    (obase : Nat) (mem : Buf) :
    (DecimateBy2binary b2f size ibuf obase mem).2 = size / 2 := rfl

/-- With enough fuel the halving loop started at `i = 2^j` runs `j` times. -/
theorem halvingLoop_pow (j : Nat) : ∀ (fuel m : Nat) (mem : Buf), j ≤ fuel →
    (halvingLoop fuel (2 ^ j) (mem, 2 ^ j * m)).2 = m := by
  induction j with
  | zero =>
    intro fuel m mem _
    cases fuel <;> simp [halvingLoop]
  | succ j ih =>
    intro fuel m mem hf
    obtain ⟨f, rfl⟩ : ∃ f, fuel = f + 1 := ⟨fuel - 1, by omega⟩
    have h1 : 2 ^ (j + 1) > 1 := Nat.one_lt_two_pow (by omega)
    have h2 : 2 ^ (j + 1) >>> 1 = 2 ^ j := by
      rw [Nat.shiftRight_eq_div_pow, pow_succ]; simp
    have h3 : 2 ^ (j + 1) * m / 2 = 2 ^ j * m := by
      rw [pow_succ, Nat.mul_assoc, Nat.mul_comm 2 m, ← Nat.mul_assoc]; simp
    rw [halvingLoop, if_pos h1, h2]
    have := ih f m (DecimateBy2float (2 ^ (j + 1) * m) 0 0 mem).1 (by omega)
    rw [← h3] at this
    exact this

/-- The halving loop started at `i` with fuel at least `i` divides the sample count by
`2 ^ ⌊log₂ i⌋` (halving with truncation at each step). -/
theorem halvingLoop_count : ∀ (fuel i n : Nat) (mem : Buf), i ≤ fuel →
    (halvingLoop fuel i (mem, n)).2 = n / 2 ^ Nat.log 2 i := by
  intro fuel
  induction fuel with
  | zero =>
    intro i n mem hi
    have : i = 0 := by omega
    subst this
    simp [halvingLoop]
  | succ f ih =>
    intro i n mem hi
    rw [halvingLoop]
    by_cases h1 : i > 1
    · rw [if_pos h1, Nat.shiftRight_eq_div_pow, pow_one]
      have := ih (i / 2) (n / 2) (DecimateBy2float n 0 0 mem).1 (by omega)
      show (halvingLoop f (i / 2) ((DecimateBy2float n 0 0 mem).1, n / 2)).2 = _
      rw [this, Nat.log_div_base, Nat.div_div_eq_div_mul]
      have hl : 1 ≤ Nat.log 2 i := Nat.log_pos (by omega) (by omega)
      congr 1
      rw [← pow_succ']
      congr 1
      omega
    · rw [if_neg h1]
      have : Nat.log 2 i = 0 := Nat.log_eq_zero_iff.mpr (Or.inl (by omega))
      simp [this]

/-- The initialization path with `DECIM = 2^k`, `k ≥ 2`, `NSAMPLES = DECIM * FFT_LEN`
passes its assertions and ends with `FFT_LEN` samples. -/
theorem searchInit_decimate_pow (k FFT_LEN : Nat) (hk : 2 ≤ k) (fwd_buf : Buf) :
    ∃ st, SearchInit_decimate (2 ^ k) (2 ^ k * FFT_LEN) FFT_LEN fwd_buf = some st ∧
      st.2 = FFT_LEN ∧ st.2 = 2 ^ k * FFT_LEN / 2 ^ k := by
  have hpos : 0 < 2 ^ k := Nat.pos_pow_of_pos k (by norm_num)
  have hgt : 2 ^ k > 2 := by
    calc 2 ^ k ≥ 2 ^ 2 := Nat.pow_le_pow_right (by norm_num) hk
      _ > 2 := by norm_num
  have hne : 2 ^ k ≠ 1 := by omega
  have hdiv : 2 ^ k * FFT_LEN / 2 ^ k = FFT_LEN := Nat.mul_div_cancel_left _ hpos
  have hc := halvingLoop_pow k (2 ^ k) FFT_LEN fwd_buf (le_of_lt (Nat.lt_two_pow k))
  refine ⟨halvingLoop (2 ^ k) (2 ^ k) (fwd_buf, 2 ^ k * FFT_LEN), ?_, hc, by rw [hc, hdiv]⟩
  unfold SearchInit_decimate
  simp only [hne, ne_eq, not_false_eq_true, if_true, hgt, hc, hdiv, and_self]

/-- The capture path with `DECIM = 2^k`, `k ≥ 2`, `NSAMPLES = DECIM * FFT_LEN` passes its
assertions and ends with `FFT_LEN` samples. -/
theorem sample_decimate_pow (k FFT_LEN : Nat) (hk : 2 ≤ k) (fwd_buf : Buf)
    (bit2float : Int → ℚ) (bits : Nat → Int × Int) :
    ∃ st, Sample_decimate bit2float (2 ^ k) (2 ^ k * FFT_LEN) FFT_LEN bits fwd_buf = some st ∧
      st.2 = FFT_LEN ∧ st.2 = 2 ^ k * FFT_LEN / 2 ^ k := by
  have hpos : 0 < 2 ^ k := Nat.pos_pow_of_pos k (by norm_num)
  have hgt : 2 ^ k > 2 := by
    calc 2 ^ k ≥ 2 ^ 2 := Nat.pow_le_pow_right (by norm_num) hk
      _ > 2 := by norm_num
  have hne : 2 ^ k ≠ 1 := by omega
  have hdiv : 2 ^ k * FFT_LEN / 2 ^ k = FFT_LEN := Nat.mul_div_cancel_left _ hpos
  obtain ⟨j, rfl⟩ : ∃ j, k = j + 1 := ⟨k - 1, by omega⟩
  have hs : 2 ^ (j + 1) >>> 1 = 2 ^ j := by
    rw [Nat.shiftRight_eq_div_pow, pow_succ]; simp
  have hb : DecimateBy2binary bit2float (2 ^ (j + 1) * FFT_LEN) bits 0 fwd_buf =
      ((DecimateBy2binary bit2float (2 ^ (j + 1) * FFT_LEN) bits 0 fwd_buf).1,
        2 ^ j * FFT_LEN) := by
    apply Prod.ext
    · rfl
    · rw [decimateBinary_count]
      show 2 ^ (j + 1) * FFT_LEN / 2 = 2 ^ j * FFT_LEN
      rw [pow_succ, Nat.mul_assoc, Nat.mul_comm 2 FFT_LEN, ← Nat.mul_assoc]; simp
  have hc := halvingLoop_pow j (2 ^ j) FFT_LEN
    (DecimateBy2binary bit2float (2 ^ (j + 1) * FFT_LEN) bits 0 fwd_buf).1
    (le_of_lt (Nat.lt_two_pow j))
  rw [← hb] at hc
  refine ⟨halvingLoop (2 ^ j) (2 ^ j)
    (DecimateBy2binary bit2float (2 ^ (j + 1) * FFT_LEN) bits 0 fwd_buf), ?_, hc,
    by rw [hc, hdiv]⟩
  unfold Sample_decimate
  simp only [hne, if_false, hgt, if_true, hs, hc, hdiv, and_self]

/-- C6: for every decimation factor `DECIM = 2^k` with `k ≥ 2` and `NSAMPLES = DECIM *
FFT_LEN`, both decimation paths finish with exactly `FFT_LEN` samples and pass the assertion
`nsamples == NSAMPLES/DECIM && nsamples == FFT_LEN`: the initialization path (the loop
`i = DECIM; i > 1; i >>= 1` of `DecimateBy2float`) and the capture path (one
`DecimateBy2binary`, then the loop `i = DECIM>>1; i > 1; i >>= 1`). -/
theorem halving_yields_FFT_LEN (k FFT_LEN : Nat) (hk : 2 ≤ k) (fwd_buf : Buf)
    (bit2float : Int → ℚ) (bits : Nat → Int × Int) :
    (∃ st, SearchInit_decimate (2 ^ k) (2 ^ k * FFT_LEN) FFT_LEN fwd_buf = some st ∧
      st.2 = FFT_LEN ∧ st.2 = 2 ^ k * FFT_LEN / 2 ^ k) ∧
    (∃ st, Sample_decimate bit2float (2 ^ k) (2 ^ k * FFT_LEN) FFT_LEN bits fwd_buf = some st ∧
      st.2 = FFT_LEN ∧ st.2 = 2 ^ k * FFT_LEN / 2 ^ k) :=
  ⟨searchInit_decimate_pow k FFT_LEN hk fwd_buf,
    sample_decimate_pow k FFT_LEN hk fwd_buf bit2float bits⟩

theorem halving_yields_FFT_LEN_witness :
    (∃ st, SearchInit_decimate (2 ^ 2) (2 ^ 2 * 16384) 16384 (fun _ => (1, 0)) = some st ∧
      st.2 = 16384 ∧ st.2 = 2 ^ 2 * 16384 / 2 ^ 2) ∧
    (∃ st, Sample_decimate (fun b => (b : ℚ)) (2 ^ 2) (2 ^ 2 * 16384) 16384 (fun _ => (1, 0))
        (fun _ => (1, 0)) = some st ∧
      st.2 = 16384 ∧ st.2 = 2 ^ 2 * 16384 / 2 ^ 2) :=
  halving_yields_FFT_LEN 2 16384 (by decide) (fun _ => (1, 0)) (fun b => (b : ℚ))
    (fun _ => (1, 0))

theorem five_not_pow_two : ¬ ∃ k : Nat, 5 = 2 ^ k := by
  rintro ⟨k, hk⟩
  rcases k with _ | _ | _ | k
  · simp at hk
  · simp at hk
  · simp at hk
  · have : 2 ^ (k + 3) = 8 * 2 ^ k := by ring
    have h2 : 0 < 2 ^ k := Nat.pos_pow_of_pos k (by norm_num)
    omega

/-- C7 (counterexample): the assertions of `SearchInit` pass for `DECIM = 5`,
`NSAMPLES = 5`, `FFT_LEN = 1`, where `DECIM` is not a power of two, and for `DECIM = 4`,
`NSAMPLES = 65537`, `FFT_LEN = 16384`, where `NSAMPLES ≠ DECIM * FFT_LEN`. -/
theorem searchInit_accepts_inconsistent :
    ((SearchInit_decimate 5 5 1 (fun _ => (0, 0))).isSome = true ∧ (5 : Nat) ≠ 1 ∧
      ¬ ∃ k : Nat, 5 = 2 ^ k) ∧
    ((SearchInit_decimate 4 65537 16384 (fun _ => (0, 0))).isSome = true ∧ (4 : Nat) ≠ 1 ∧
      (65537 : Nat) ≠ 4 * 16384) := by
  refine ⟨⟨by decide, by decide, five_not_pow_two⟩, ⟨by decide, by decide, by decide⟩⟩

/-- C7 (amended): for every `DECIM ≠ 1`, `NSAMPLES` and `FFT_LEN`, if the assertions of
`SearchInit` all pass then `DECIM > 2`, the buffer handed to the transform holds exactly
`FFT_LEN` samples, `FFT_LEN` is `NSAMPLES / DECIM` with truncating division (so
`DECIM * FFT_LEN ≤ NSAMPLES < DECIM * FFT_LEN + DECIM`), and whenever `FFT_LEN ≥ DECIM` the
factor `DECIM` is a power of two `≥ 4`. -/
theorem searchInit_assertions (DECIM NSAMPLES FFT_LEN : Nat) (fwd_buf : Buf)
    (hD : DECIM ≠ 1) (hpass : (SearchInit_decimate DECIM NSAMPLES FFT_LEN fwd_buf).isSome = true) :
    DECIM > 2 ∧
    (∃ st, SearchInit_decimate DECIM NSAMPLES FFT_LEN fwd_buf = some st ∧ st.2 = FFT_LEN) ∧
    FFT_LEN = NSAMPLES / DECIM ∧
    DECIM * FFT_LEN ≤ NSAMPLES ∧ NSAMPLES < DECIM * FFT_LEN + DECIM ∧
    (DECIM ≤ FFT_LEN → ∃ k, 2 ≤ k ∧ DECIM = 2 ^ k) := by
  have key : DECIM > 2 ∧ (halvingLoop DECIM DECIM (fwd_buf, NSAMPLES)).2 = NSAMPLES / DECIM ∧
      (halvingLoop DECIM DECIM (fwd_buf, NSAMPLES)).2 = FFT_LEN := by
    unfold SearchInit_decimate at hpass
    simp only [hD, ne_eq, not_false_eq_true, if_true] at hpass
    by_cases hgt : DECIM > 2
    · simp only [hgt, if_true] at hpass
      by_cases hass : (halvingLoop DECIM DECIM (fwd_buf, NSAMPLES)).2 = NSAMPLES / DECIM ∧
          (halvingLoop DECIM DECIM (fwd_buf, NSAMPLES)).2 = FFT_LEN
      · exact ⟨hgt, hass⟩
      · rw [if_neg hass] at hpass
        exact absurd hpass (by simp)
    · simp only [hgt, if_false] at hpass
      exact absurd hpass (by simp)
  obtain ⟨hgt, ha, hb⟩ := key
  have hsome : SearchInit_decimate DECIM NSAMPLES FFT_LEN fwd_buf =
      some (halvingLoop DECIM DECIM (fwd_buf, NSAMPLES)) := by
    unfold SearchInit_decimate
    simp only [hD, ne_eq, not_false_eq_true, if_true, hgt]
    rw [if_pos ⟨ha, hb⟩]
  have hcount := halvingLoop_count DECIM DECIM NSAMPLES fwd_buf (le_refl _)
  have hF : FFT_LEN = NSAMPLES / DECIM := by rw [← hb, ha]
  have hF2 : FFT_LEN = NSAMPLES / 2 ^ Nat.log 2 DECIM := by rw [← hb, hcount]
  have hDpos : 0 < DECIM := by omega
  have hle : DECIM * FFT_LEN ≤ NSAMPLES := by
    rw [hF]; exact Nat.mul_div_le _ _
  have hlt : NSAMPLES < DECIM * FFT_LEN + DECIM := by
    rw [hF]
    have := Nat.lt_div_mul_add hDpos (a := NSAMPLES)
    rw [Nat.mul_comm]; exact this
  refine ⟨hgt, ⟨_, hsome, hb⟩, hF, hle, hlt, ?_⟩
  intro hDF
  have hk1 : 2 ^ Nat.log 2 DECIM ≤ DECIM := Nat.pow_log_le_self 2 (by omega)
  have hppos : 0 < 2 ^ Nat.log 2 DECIM := Nat.pos_pow_of_pos _ (by norm_num)
  have hlt2 : NSAMPLES < 2 ^ Nat.log 2 DECIM * FFT_LEN + 2 ^ Nat.log 2 DECIM := by
    have := Nat.lt_div_mul_add hppos (a := NSAMPLES)
    rw [← hF2, Nat.mul_comm] at this; exact this
  have hDk : DECIM = 2 ^ Nat.log 2 DECIM := by
    by_contra hne
    have h3 : 2 ^ Nat.log 2 DECIM + 1 ≤ DECIM := by omega
    have h4 : (2 ^ Nat.log 2 DECIM + 1) * FFT_LEN ≤ DECIM * FFT_LEN :=
      Nat.mul_le_mul_right _ h3
    have h5 : (2 ^ Nat.log 2 DECIM + 1) * FFT_LEN = 2 ^ Nat.log 2 DECIM * FFT_LEN + FFT_LEN := by
      ring
    omega
  refine ⟨Nat.log 2 DECIM, ?_, hDk⟩
  by_contra hk
  have hcases : Nat.log 2 DECIM = 0 ∨ Nat.log 2 DECIM = 1 := by omega
  rcases hcases with h0 | h0 <;> rw [h0] at hDk <;> simp at hDk <;> omega

theorem searchInit_assertions_witness :
    (4 : Nat) > 2 ∧
    (∃ st, SearchInit_decimate 4 65536 16384 (fun _ => (0, 0)) = some st ∧ st.2 = 16384) ∧
    16384 = 65536 / 4 ∧
    4 * 16384 ≤ 65536 ∧ 65536 < 4 * 16384 + 4 ∧
    (4 ≤ 16384 → ∃ k, 2 ≤ k ∧ 4 = 2 ^ k) :=
  searchInit_assertions 4 65536 16384 (fun _ => (0, 0)) (by decide) (by decide)

/-! ## Theorems: the decimating filter -/

theorem coef_symm (j : Nat) (hj : j ≤ 30) : coef j = coef (30 - j) := by
  interval_cases j <;> norm_num [coef, COEF, FT]

theorem COEF_symm (j : Nat) (hj : j ≤ 30) : COEF.getD j (0, 0) = COEF.getD (30 - j) (0, 0) := by
  interval_cases j <;> norm_num [COEF]

theorem COEF_length : COEF.length = NTAPS := rfl

/-- Summing the first tap, the even taps and the centre tap is the full 31-tap sum: the
remaining odd taps of `COEF` are zero. -/
theorem firAt_eq_fullFir (mem : Buf) (ibase i : Nat) :
    firAt mem ibase i = fullFir (fun k => mem (ibase + k)) i := by
  unfold firAt fullFir
  simp only [tapLoop, NTAPS]
  apply Prod.ext
  · simp [List.range_succ]
    norm_num [coef, COEF, FT]
    ring
  · simp [List.range_succ]
    norm_num [coef, COEF, FT]
    ring

theorem fullFir_congr (x y : Nat → Cplx) (i : Nat) (h : ∀ j, j < NTAPS → x (i + j) = y (i + j)) :
    fullFir x i = fullFir y i := by
  unfold fullFir
  have h1 : (List.range NTAPS).map (fun j => coef j * (x (i + j)).1) =
      (List.range NTAPS).map (fun j => coef j * (y (i + j)).1) := by
    apply List.map_congr_left
    intro j hj
    rw [h j (List.mem_range.mp hj)]
  have h2 : (List.range NTAPS).map (fun j => coef j * (x (i + j)).2) =
      (List.range NTAPS).map (fun j => coef j * (y (i + j)).2) := by
    apply List.map_congr_left
    intro j hj
    rw [h j (List.mem_range.mp hj)]
  rw [h1, h2]

/-- Loop invariant of the sample loop of `DecimateBy2float`: started after `t` iterations in
a memory that holds the first `t` outputs and is otherwise the memory `m0` the loop began
with, it ends with every output `o` (`2*o < size`) equal to the filter applied to `m0`, and
every other element as in `m0`. -/
theorem decimLoop_spec (size ibase obase : Nat) (m0 : Buf)
    (hsafe : NoClobber size ibase obase) :
    ∀ (fuel t : Nat) (mem : Buf), size ≤ 2 * t + 2 * fuel → 2 * t ≤ size + 1 →
      (∀ a, (∀ o, o < t → a ≠ obase + o) → mem a = m0 a) →
      (∀ o, o < t → mem (obase + o) = firAt m0 ibase (2 * o)) →
      (∀ a, (∀ o, 2 * o < size → a ≠ obase + o) →
        decimLoop size ibase obase fuel (2 * t) t mem a = m0 a) ∧
      (∀ o, 2 * o < size →
        decimLoop size ibase obase fuel (2 * t) t mem (obase + o) = firAt m0 ibase (2 * o)) := by
  intro fuel
  induction fuel with
  | zero =>
    intro t mem hf ht hA hB
    simp only [decimLoop]
    exact ⟨fun a ha => hA a (fun o ho => ha o (by omega)), fun o ho => hB o (by omega)⟩
  | succ f ih =>
    intro t mem hf ht hA hB
    rw [decimLoop]
    by_cases hlt : 2 * t < size
    · rw [if_pos hlt]
      have hfir : firAt mem ibase (2 * t) = firAt m0 ibase (2 * t) := by
        rw [firAt_eq_fullFir, firAt_eq_fullFir]
        apply fullFir_congr
        intro j hj
        apply hA
        intro o ho
        have := hsafe o (2 * t + j) (by omega) (by omega) (by unfold NTAPS at hj; omega)
        omega
      have h2 : 2 * t + 2 = 2 * (t + 1) := by ring
      rw [h2]
      apply ih (t + 1)
      · omega
      · omega
      · intro a ha
        rw [Function.update_noteq (ha t (by omega))]
        exact hA a (fun o ho => ha o (by omega))
      · intro o ho
        by_cases hot : o = t
        · subst hot
          rw [Function.update_same, hfir]
        · have hne : obase + o ≠ obase + t := by omega
          rw [Function.update_noteq hne]
          exact hB o (by omega)
    · rw [if_neg hlt]
      exact ⟨fun a ha => hA a (fun o ho => ha o (by omega)), fun o ho => hB o (by omega)⟩

/-- What `DecimateBy2float` leaves in memory whenever no write clobbers a pending read
(separate buffers, or the same buffer): output `o` is the filter applied to the zero-padded
input, every element outside the output is as after the `memset`. -/
theorem decimate_spec (size ibase obase : Nat) (mem : Buf)
    (hsafe : NoClobber size ibase obase) :
    (∀ o, 2 * o < size →
      (DecimateBy2float size ibase obase mem).1 (obase + o) =
        fullFir (zeroPadded mem ibase size) (2 * o)) ∧
    (∀ a, (∀ o, 2 * o < size → a ≠ obase + o) →
      (DecimateBy2float size ibase obase mem).1 a = zeroTail size ibase mem a) := by
  have h := decimLoop_spec size ibase obase (zeroTail size ibase mem) hsafe size 0
    (zeroTail size ibase mem) (by omega) (by omega) (fun a _ => rfl) (fun o ho => absurd ho (by omega))
  constructor
  · intro o ho
    show decimLoop size ibase obase size 0 0 (zeroTail size ibase mem) (obase + o) = _
    have := h.2 o ho
    simp only [Nat.mul_zero] at this
    rw [this, firAt_eq_fullFir]
    apply fullFir_congr
    intro j hj
    unfold zeroTail zeroPadded
    unfold NTAPS at hj
    by_cases hk : 2 * o + j < size
    · rw [if_neg (by omega), if_pos hk]
    · rw [if_pos ⟨by omega, by unfold NTAPS; omega⟩, if_neg hk]
  · intro a ha
    have := h.1 a ha
    simp only [Nat.mul_zero] at this
    exact this

/-- C8: for every even length `n` and every input, `DecimateBy2float` run out of place (the
output region disjoint from the input and its zeroed tail) returns `n/2` and writes, for
every `o < n/2`, `output[o] = Σ_{j=0..30} COEF[j] * x[2*o+j]`, the full 31-tap filter at
every second position, where `x` is the input with every index `≥ n` read as zero; the
coefficient table is symmetric (`COEF[j] = COEF[30-j]`, both columns); and the outputs
depend on no memory element other than the `n` input samples (in particular on no input
index `≥ n + 31`). -/
theorem decimateBy2float_fir (n ibase obase : Nat) (mem : Buf) (hn : n % 2 = 0)
    (hdisj : obase + n / 2 ≤ ibase ∨ ibase + n + NTAPS ≤ obase) :
    (DecimateBy2float n ibase obase mem).2 = n / 2 ∧
    (∀ o, o < n / 2 →
      (DecimateBy2float n ibase obase mem).1 (obase + o) =
        fullFir (zeroPadded mem ibase n) (2 * o)) ∧
    (∀ j, j < NTAPS → coef j = coef (NTAPS - 1 - j) ∧
      COEF.getD j (0, 0) = COEF.getD (NTAPS - 1 - j) (0, 0)) ∧
    (∀ mem2 : Buf, (∀ k, k < n → mem2 (ibase + k) = mem (ibase + k)) →
      ∀ o, o < n / 2 →
        (DecimateBy2float n ibase obase mem2).1 (obase + o) =
          (DecimateBy2float n ibase obase mem).1 (obase + o)) := by
  have hsafe : NoClobber n ibase obase := by
    intro o k ho hk1 hk2
    unfold NTAPS at hdisj
    omega
  have hspec := fun m => (decimate_spec n ibase obase m hsafe).1
  refine ⟨rfl, fun o ho => hspec mem o (by omega), ?_, ?_⟩
  · intro j hj
    unfold NTAPS at hj ⊢
    exact ⟨coef_symm j (by omega), COEF_symm j (by omega)⟩
  · intro mem2 hag o ho
    rw [hspec mem2 o (by omega), hspec mem o (by omega)]
    apply fullFir_congr
    intro j _
    unfold zeroPadded
    by_cases hk : 2 * o + j < n
    · rw [if_pos hk, if_pos hk, hag _ hk]
    · rw [if_neg hk, if_neg hk]

theorem decimateBy2float_fir_witness :
    (DecimateBy2float 4 0 100 rampBuf).2 = 4 / 2 ∧
    (∀ o, o < 4 / 2 →
      (DecimateBy2float 4 0 100 rampBuf).1 (100 + o) =
        fullFir (zeroPadded rampBuf 0 4) (2 * o)) ∧
    (∀ j, j < NTAPS → coef j = coef (NTAPS - 1 - j) ∧
      COEF.getD j (0, 0) = COEF.getD (NTAPS - 1 - j) (0, 0)) ∧
    (∀ mem2 : Buf, (∀ k, k < 4 → mem2 (0 + k) = rampBuf (0 + k)) →
      ∀ o, o < 4 / 2 →
        (DecimateBy2float 4 0 100 mem2).1 (100 + o) =
          (DecimateBy2float 4 0 100 rampBuf).1 (100 + o)) :=
  decimateBy2float_fir 4 0 100 rampBuf (by decide) (by decide)

/-! ## Theorems: correlation -/

theorem peakPower_succ (p : Nat → ℚ) (i : Nat) :
    peakPower p (i + 1) = max (peakPower p i) (p i) := by
  unfold peakPower
  rw [List.range_succ, List.map_append, List.foldl_append]
  rfl

theorem totalPower_succ (p : Nat → ℚ) (i : Nat) :
    totalPower p (i + 1) = totalPower p i + p i := by
  unfold totalPower
  rw [List.range_succ, List.map_append, List.sum_append]
  simp

theorem peakPower_nonneg (p : Nat → ℚ) (W : Nat) : 0 ≤ peakPower p W := by
  induction W with
  | zero => simp [peakPower]
  | succ i ih => rw [peakPower_succ]; exact le_trans ih (le_max_left _ _)

theorem le_peakPower (p : Nat → ℚ) (W : Nat) : ∀ i, i < W → p i ≤ peakPower p W := by
  induction W with
  | zero => intro i hi; omega
  | succ n ih =>
    intro i hi
    rw [peakPower_succ]
    by_cases h : i = n
    · subst h; exact le_max_right _ _
    · exact le_trans (ih i (by omega)) (le_max_left _ _)

theorem peakPower_attained (p : Nat → ℚ) (W : Nat) (hW : 0 < W) (hp : ∀ i, 0 ≤ p i) :
    ∃ i, i < W ∧ p i = peakPower p W := by
  induction W with
  | zero => omega
  | succ n ih =>
    rw [peakPower_succ]
    by_cases hle : peakPower p n ≤ p n
    · exact ⟨n, by omega, by rw [max_eq_right hle]⟩
    · have hlt : p n < peakPower p n := lt_of_not_le hle
      have hn : 0 < n := by
        by_contra h0
        have : n = 0 := by omega
        subst this
        have := hp 0
        simp [peakPower] at hlt
        linarith
      obtain ⟨i, hi, he⟩ := ih hn
      exact ⟨i, by omega, by rw [max_eq_left (le_of_lt hlt)]; exact he⟩

theorem totalPower_nonneg (p : Nat → ℚ) (W : Nat) (hp : ∀ i, 0 ≤ p i) : 0 ≤ totalPower p W := by
  induction W with
  | zero => simp [totalPower]
  | succ i ih => rw [totalPower_succ]; exact add_nonneg ih (hp i)

theorem pwrLoop_spec (prod : Buf) (W : Nat) :
    ∀ (fuel i : Nat) (st : ℚ × ℚ × Nat), i + fuel = W →
      st.1 = peakPower (bufPower prod) i →
      st.2.1 = totalPower (bufPower prod) i →
      (0 < st.1 → FirstAt (bufPower prod) i st.1 st.2.2) →
      (pwrLoop prod W fuel i st).1 = peakPower (bufPower prod) W ∧
      (pwrLoop prod W fuel i st).2.1 = totalPower (bufPower prod) W ∧
      (0 < (pwrLoop prod W fuel i st).1 →
        FirstAt (bufPower prod) W (pwrLoop prod W fuel i st).1 (pwrLoop prod W fuel i st).2.2) := by
  intro fuel
  induction fuel with
  | zero =>
    intro i st hi h1 h2 h3
    have : i = W := by omega
    subst this
    simp only [pwrLoop]
    exact ⟨h1, h2, h3⟩
  | succ f ih =>
    intro i st hi h1 h2 h3
    rw [pwrLoop]
    have hlt : i < W := by omega
    rw [if_pos hlt]
    by_cases hc : bufPower prod i > st.1
    · have hstep : pwrStep (bufPower prod i) i st =
          (bufPower prod i, st.2.1 + bufPower prod i, i) := by
        simp [pwrStep, hc]
      rw [hstep]
      apply ih (i + 1) _ (by omega)
      · show bufPower prod i = _
        rw [peakPower_succ, ← h1]
        exact (max_eq_right (le_of_lt hc)).symm
      · show st.2.1 + bufPower prod i = _
        rw [totalPower_succ, ← h2]
      · intro _
        refine ⟨Nat.lt_succ_self i, rfl, ?_⟩
        intro k hk
        have := le_peakPower (bufPower prod) i k hk
        rw [← h1] at this
        exact lt_of_le_of_lt this hc
    · have hstep : pwrStep (bufPower prod i) i st = (st.1, st.2.1 + bufPower prod i, st.2.2) := by
        simp [pwrStep, hc]
      rw [hstep]
      apply ih (i + 1) _ (by omega)
      · show st.1 = _
        rw [peakPower_succ, ← h1]
        exact (max_eq_left (le_of_not_lt hc)).symm
      · show st.2.1 + bufPower prod i = _
        rw [totalPower_succ, ← h2]
      · intro hpos
        obtain ⟨a, b, c⟩ := h3 hpos
        exact ⟨Nat.lt_succ_of_lt a, b, c⟩

theorem bufPower_nonneg (prod : Buf) (i : Nat) : 0 ≤ bufPower prod i := by
  unfold bufPower
  exact add_nonneg (mul_self_nonneg _) (mul_self_nonneg _)

/-- The power loop of one bin computes the peak power, the total power and, when the peak
is positive, the first index attaining it. -/
theorem pwrLoop_result (prod : Buf) (W : Nat) :
    (pwrLoop prod W W 0 (0, 0, 0)).1 = peakPower (bufPower prod) W ∧
    (pwrLoop prod W W 0 (0, 0, 0)).2.1 = totalPower (bufPower prod) W ∧
    (0 < (pwrLoop prod W W 0 (0, 0, 0)).1 →
      FirstAt (bufPower prod) W (pwrLoop prod W W 0 (0, 0, 0)).1
        (pwrLoop prod W W 0 (0, 0, 0)).2.2) :=
  pwrLoop_spec prod W W 0 (0, 0, 0) (by omega) (by simp [peakPower]) (by simp [totalPower])
    (fun h => absurd h (lt_irrefl _))

theorem corrBin_tail (cfg : Config) (code : Int → Cplx) (sat : Nat) (data : Buf) (dop : Int)
    (rb : Buf) (i : Nat) (hi : cfg.FFT_LEN ≤ i) : corrBin cfg code sat data dop rb i = rb i := by
  unfold corrBin fftwf_execute simd_multiply_conjugate
  rw [dif_neg (by omega), if_neg (by omega)]

theorem corrBin_congr (cfg : Config) (code : Int → Cplx) (sat : Nat) (data : Buf) (dop : Int)
    (rb rb2 : Buf) (h : ∀ i, cfg.FFT_LEN ≤ i → rb i = rb2 i) :
    corrBin cfg code sat data dop rb = corrBin cfg code sat data dop rb2 := by
  have hsmc : ∀ cb : Int, simd_multiply_conjugate cfg.FFT_LEN data code cb rb =
      simd_multiply_conjugate cfg.FFT_LEN data code cb rb2 := by
    intro cb
    funext i
    unfold simd_multiply_conjugate
    by_cases hi : i < cfg.FFT_LEN
    · rw [if_pos hi, if_pos hi]
    · rw [if_neg hi, if_neg hi]; exact h i (by omega)
  unfold corrBin
  rw [hsmc]

theorem binSnr_nonneg (cfg : Config) (code : Int → Cplx) (sat : Nat) (data rb : Buf) (dop : Int) :
    0 ≤ binSnr cfg code sat data rb dop := by
  unfold binSnr
  apply div_nonneg (peakPower_nonneg _ _)
  apply div_nonneg
  · exact totalPower_nonneg _ _ (fun i => bufPower_nonneg _ i)
  · exact Nat.cast_nonneg _

/-- What one pass of the Doppler loop does, in terms of the bin's ratio. -/
theorem dopStep_eq (cfg : Config) (code : Int → Cplx) (sat : Nat) (data rb0 : Buf) (dop : Int)
    (st : CorrState) (hrb : ∀ i, cfg.FFT_LEN ≤ i → st.rev_buf i = rb0 i) :
    dopStep cfg code sat data dop st =
      if binSnr cfg code sat data rb0 dop > st.max_snr then
        ⟨binSnr cfg code sat data rb0 dop, dop,
          ((pwrLoop (corrBin cfg code sat data dop rb0) (window cfg sat) (window cfg sat) 0
            (0, 0, 0)).2.2 : Int), corrBin cfg code sat data dop rb0⟩
      else { st with rev_buf := corrBin cfg code sat data dop rb0 } := by
  have hc := corrBin_congr cfg code sat data dop st.rev_buf rb0 hrb
  have hr := pwrLoop_result (corrBin cfg code sat data dop rb0) (window cfg sat)
  unfold dopStep
  simp only [hc]
  have hs : (pwrLoop (corrBin cfg code sat data dop rb0) (window cfg sat) (window cfg sat) 0
      (0, 0, 0)).1 / ((pwrLoop (corrBin cfg code sat data dop rb0) (window cfg sat)
        (window cfg sat) 0 (0, 0, 0)).2.1 / (window cfg sat : ℚ)) =
      binSnr cfg code sat data rb0 dop := by
    rw [hr.1, hr.2.1]; rfl
  rw [hs]

theorem dopStep_inv (cfg : Config) (code : Int → Cplx) (sat : Nat) (data rb0 : Buf) (d0 i0 : Int)
    (dop : Int) (st : CorrState) (hfirst : dopFirst cfg.BIN_SIZE ≤ dop)
    (hinv : CorrInv cfg code sat data rb0 d0 i0 dop st) :
    CorrInv cfg code sat data rb0 d0 i0 (dop + 1) (dopStep cfg code sat data dop st) := by
  obtain ⟨hrb, hub, hcase⟩ := hinv
  have hnn : 0 ≤ st.max_snr := by
    rcases hcase with h | h
    · exact le_of_eq h.1.symm
    · exact le_of_lt h.1
  rw [dopStep_eq cfg code sat data rb0 dop st hrb]
  by_cases hgt : binSnr cfg code sat data rb0 dop > st.max_snr
  · rw [if_pos hgt]
    refine ⟨fun i hi => corrBin_tail cfg code sat data dop rb0 i hi, ?_, Or.inr ?_⟩
    · intro d hd1 hd2
      by_cases hd : d = dop
      · subst hd; exact le_refl _
      · exact le_trans (hub d hd1 (by omega)) (le_of_lt hgt)
    · have hpos : 0 < binSnr cfg code sat data rb0 dop := lt_of_le_of_lt hnn hgt
      refine ⟨hpos, hfirst, by show dop < dop + 1; omega, rfl, ?_, ?_⟩
      · intro d hd1 hd2
        exact lt_of_le_of_lt (hub d hd1 hd2) hgt
      · have hr := pwrLoop_result (corrBin cfg code sat data dop rb0) (window cfg sat)
        refine ⟨_, rfl, ?_⟩
        have hpk : 0 < peakPower (binPower cfg code sat data rb0 dop) (window cfg sat) := by
          by_contra hle
          have h0 : peakPower (binPower cfg code sat data rb0 dop) (window cfg sat) = 0 :=
            le_antisymm (le_of_not_lt hle) (peakPower_nonneg _ _)
          unfold binSnr at hpos
          rw [h0, zero_div] at hpos
          exact lt_irrefl _ hpos
        have h3 := hr.2.2 (by rw [hr.1]; exact hpk)
        rw [hr.1] at h3
        exact h3
  · rw [if_neg hgt]
    refine ⟨fun i hi => corrBin_tail cfg code sat data dop rb0 i hi, ?_, ?_⟩
    · intro d hd1 hd2
      by_cases hd : d = dop
      · subst hd; exact le_of_not_lt hgt
      · exact hub d hd1 (by omega)
    · rcases hcase with h | h
      · exact Or.inl h
      · obtain ⟨a, b, c, e, f, g⟩ := h
        exact Or.inr ⟨a, b, by show st.max_snr_dop < dop + 1; omega, e, f, g⟩

theorem dopLoop_inv (cfg : Config) (code : Int → Cplx) (sat : Nat) (data rb0 : Buf) (d0 i0 : Int) :
    ∀ (fuel : Nat) (dop : Int) (st : CorrState),
      (fuel : Int) = ⌊5000 / cfg.BIN_SIZE⌋ + 1 - dop → dopFirst cfg.BIN_SIZE ≤ dop →
      CorrInv cfg code sat data rb0 d0 i0 dop st →
      CorrInv cfg code sat data rb0 d0 i0 (⌊5000 / cfg.BIN_SIZE⌋ + 1)
        (dopLoop cfg code sat data fuel dop st) := by
  intro fuel
  induction fuel with
  | zero =>
    intro dop st hf _ hinv
    have : dop = ⌊5000 / cfg.BIN_SIZE⌋ + 1 := by simp at hf; omega
    subst this
    exact hinv
  | succ f ih =>
    intro dop st hf hfirst hinv
    rw [dopLoop]
    have hle : dop ≤ ⌊5000 / cfg.BIN_SIZE⌋ := by push_cast at hf; omega
    have hcond : dopCond cfg.BIN_SIZE dop = true := by
      unfold dopCond
      rw [decide_eq_true_eq]
      exact Int.le_floor.mp hle
    rw [if_pos hcond]
    exact ih (dop + 1) _ (by push_cast at hf; omega) (by omega)
      (dopStep_inv cfg code sat data rb0 d0 i0 dop st hfirst hinv)

theorem dopFirst_nonpos (BIN_SIZE : ℚ) (hB : 0 < BIN_SIZE) : dopFirst BIN_SIZE ≤ 0 := by
  unfold dopFirst cTrunc
  have hneg : ¬ (0 : ℚ) ≤ -5000 / BIN_SIZE := by
    rw [neg_div]
    have : 0 < 5000 / BIN_SIZE := div_pos (by norm_num) hB
    intro h; linarith
  rw [if_neg hneg, Int.ceil_le]
  rw [neg_div]
  have : 0 < 5000 / BIN_SIZE := div_pos (by norm_num) hB
  push_cast; linarith

theorem dopLast_nonneg (BIN_SIZE : ℚ) (hB : 0 < BIN_SIZE) : 0 ≤ ⌊5000 / BIN_SIZE⌋ := by
  rw [Int.le_floor]
  have : 0 < 5000 / BIN_SIZE := div_pos (by norm_num) hB
  push_cast; linarith

theorem dopInRange_iff (BIN_SIZE : ℚ) (dop : Int) :
    dopInRange BIN_SIZE dop ↔ dopFirst BIN_SIZE ≤ dop ∧ dop ≤ ⌊5000 / BIN_SIZE⌋ := by
  unfold dopInRange dopCond
  rw [decide_eq_true_eq, Int.le_floor]

/-- The state in which `Correlate` returns satisfies the loop invariant at the end of the
Doppler range. -/
theorem correlate_inv (cfg : Config) (code : Int → Cplx) (sat : Nat) (data rb0 : Buf)
    (d0 i0 : Int) (hB : 0 < cfg.BIN_SIZE) :
    CorrInv cfg code sat data rb0 d0 i0 (⌊5000 / cfg.BIN_SIZE⌋ + 1)
      (Correlate cfg code sat data rb0 d0 i0) := by
  unfold Correlate
  apply dopLoop_inv
  · unfold dopCount
    have h1 := dopFirst_nonpos cfg.BIN_SIZE hB
    have h2 := dopLast_nonneg cfg.BIN_SIZE hB
    rw [Int.toNat_of_nonneg (by omega)]
    ring
  · exact le_refl _
  · refine ⟨fun _ _ => rfl, ?_, Or.inl ⟨rfl, rfl, rfl⟩⟩
    intro d h1 h2
    omega

/-- C5: with the inverse transform an arbitrary function and exact arithmetic, `Correlate`
returns the maximum over the Doppler bins of the search range of (peak power) / (total
power / window length), taken over the leading window of `SAMPLE_RATE/1000*code_period`
samples with power `re² + im²`; whenever that maximum is greater than 0 the reported
Doppler bin is the lowest bin attaining it and the reported sample index is the first
in-window index attaining that bin's peak power, hence smaller than the window length. -/
theorem correlate_max_snr (cfg : Config) (code : Int → Cplx) (sat : Nat) (data rev_buf : Buf)
    (d0 i0 : Int) (hB : 0 < cfg.BIN_SIZE) :
    (∀ dop, dopInRange cfg.BIN_SIZE dop →
      binSnr cfg code sat data rev_buf dop ≤ (Correlate cfg code sat data rev_buf d0 i0).max_snr) ∧
    (∃ dop, dopInRange cfg.BIN_SIZE dop ∧
      binSnr cfg code sat data rev_buf dop = (Correlate cfg code sat data rev_buf d0 i0).max_snr) ∧
    (∀ dop i, i < window cfg sat →
      binPower cfg code sat data rev_buf dop i ≤
        peakPower (binPower cfg code sat data rev_buf dop) (window cfg sat)) ∧
    (0 < (Correlate cfg code sat data rev_buf d0 i0).max_snr →
      dopInRange cfg.BIN_SIZE (Correlate cfg code sat data rev_buf d0 i0).max_snr_dop ∧
      binSnr cfg code sat data rev_buf (Correlate cfg code sat data rev_buf d0 i0).max_snr_dop =
        (Correlate cfg code sat data rev_buf d0 i0).max_snr ∧
      (∀ dop, dopInRange cfg.BIN_SIZE dop →
        dop < (Correlate cfg code sat data rev_buf d0 i0).max_snr_dop →
        binSnr cfg code sat data rev_buf dop <
          (Correlate cfg code sat data rev_buf d0 i0).max_snr) ∧
      ∃ idx : Nat, (Correlate cfg code sat data rev_buf d0 i0).max_snr_i = (idx : Int) ∧
        idx < window cfg sat ∧
        binPower cfg code sat data rev_buf
            (Correlate cfg code sat data rev_buf d0 i0).max_snr_dop idx =
          peakPower (binPower cfg code sat data rev_buf
            (Correlate cfg code sat data rev_buf d0 i0).max_snr_dop) (window cfg sat) ∧
        ∀ k, k < idx →
          binPower cfg code sat data rev_buf
              (Correlate cfg code sat data rev_buf d0 i0).max_snr_dop k <
            peakPower (binPower cfg code sat data rev_buf
              (Correlate cfg code sat data rev_buf d0 i0).max_snr_dop) (window cfg sat)) := by
  obtain ⟨_, hub, hcase⟩ := correlate_inv cfg code sat data rev_buf d0 i0 hB
  have hrange := dopInRange_iff cfg.BIN_SIZE
  refine ⟨?_, ?_, ?_, ?_⟩
  · intro dop hd
    rw [hrange] at hd
    exact hub dop hd.1 (by omega)
  · rcases hcase with h | h
    · have h0 : dopInRange cfg.BIN_SIZE 0 := by
        rw [hrange]
        exact ⟨dopFirst_nonpos cfg.BIN_SIZE hB, dopLast_nonneg cfg.BIN_SIZE hB⟩
      refine ⟨0, h0, ?_⟩
      rw [hrange] at h0
      have hle := hub 0 h0.1 (by omega)
      rw [h.1] at hle ⊢
      exact le_antisymm hle (binSnr_nonneg cfg code sat data rev_buf 0)
    · obtain ⟨_, b, c, e, _, _⟩ := h
      exact ⟨_, (hrange _).mpr ⟨b, by omega⟩, e⟩
  · intro dop i hi
    exact le_peakPower _ _ i hi
  · intro hpos
    rcases hcase with h | h
    · rw [h.1] at hpos
      exact absurd hpos (lt_irrefl _)
    · obtain ⟨_, b, c, e, f, idx, hidx, hfa⟩ := h
      refine ⟨(hrange _).mpr ⟨b, by omega⟩, e, ?_, idx, hidx, hfa.1, hfa.2.1, hfa.2.2⟩
      intro dop hd hlt
      rw [hrange] at hd
      exact f dop hd.1 hlt

theorem exampleCfg_bin : 0 < exampleCfg.BIN_SIZE := by
  show (0 : ℚ) < 2500
  norm_num

/-- The worked correlation example: the Doppler bins `-2..2` have power ratios
`1, 1, 5/3, 5/3, 1`; in bin 0 the four window samples have powers `1, 5, 5, 1`. -/
theorem correlate_example_bins :
    dopFirst exampleCfg.BIN_SIZE = -2 ∧
    [(-2 : Int), -1, 0, 1, 2, 3].map (fun dop => dopCond exampleCfg.BIN_SIZE dop) =
      [true, true, true, true, true, false] ∧
    window exampleCfg 0 = 4 ∧
    [(-2 : Int), -1, 0, 1, 2].map (fun dop => binSnr exampleCfg corrCode 0 corrData rampBuf dop) =
      [1, 1, 5 / 3, 5 / 3, 1] ∧
    [0, 1, 2, 3].map (fun i => binPower exampleCfg corrCode 0 corrData rampBuf 0 i) =
      [1, 5, 5, 1] := by
  decide!

/-- The worked correlation example: `Correlate` returns `5/3`, the maximum over the bins,
and overwrites the outputs (7 and 9 before the call) with bin 0, the lower of the two bins
attaining it, and index 1, the first of the two samples attaining that bin's peak. -/
theorem correlate_example :
    (Correlate exampleCfg corrCode 0 corrData rampBuf 7 9).max_snr = 5 / 3 ∧
    (Correlate exampleCfg corrCode 0 corrData rampBuf 7 9).max_snr_dop = 0 ∧
    (Correlate exampleCfg corrCode 0 corrData rampBuf 7 9).max_snr_i = 1 := by
  decide!

theorem correlate_max_snr_witness :
    0 < exampleCfg.BIN_SIZE ∧
    ((Correlate exampleCfg corrCode 0 corrData rampBuf 7 9).max_snr = 5 / 3 ∧
      (Correlate exampleCfg corrCode 0 corrData rampBuf 7 9).max_snr_dop = 0 ∧
      (Correlate exampleCfg corrCode 0 corrData rampBuf 7 9).max_snr_i = 1) ∧
    ((∀ dop, dopInRange exampleCfg.BIN_SIZE dop →
      binSnr exampleCfg corrCode 0 corrData rampBuf dop ≤ (Correlate exampleCfg corrCode 0 corrData rampBuf 7 9).max_snr) ∧
    (∃ dop, dopInRange exampleCfg.BIN_SIZE dop ∧
      binSnr exampleCfg corrCode 0 corrData rampBuf dop = (Correlate exampleCfg corrCode 0 corrData rampBuf 7 9).max_snr) ∧
    (∀ dop i, i < window exampleCfg 0 →
      binPower exampleCfg corrCode 0 corrData rampBuf dop i ≤
        peakPower (binPower exampleCfg corrCode 0 corrData rampBuf dop) (window exampleCfg 0)) ∧
    (0 < (Correlate exampleCfg corrCode 0 corrData rampBuf 7 9).max_snr →
      dopInRange exampleCfg.BIN_SIZE (Correlate exampleCfg corrCode 0 corrData rampBuf 7 9).max_snr_dop ∧
      binSnr exampleCfg corrCode 0 corrData rampBuf (Correlate exampleCfg corrCode 0 corrData rampBuf 7 9).max_snr_dop =
        (Correlate exampleCfg corrCode 0 corrData rampBuf 7 9).max_snr ∧
      (∀ dop, dopInRange exampleCfg.BIN_SIZE dop →
        dop < (Correlate exampleCfg corrCode 0 corrData rampBuf 7 9).max_snr_dop →
        binSnr exampleCfg corrCode 0 corrData rampBuf dop <
          (Correlate exampleCfg corrCode 0 corrData rampBuf 7 9).max_snr) ∧
      ∃ idx : Nat, (Correlate exampleCfg corrCode 0 corrData rampBuf 7 9).max_snr_i = (idx : Int) ∧
        idx < window exampleCfg 0 ∧
        binPower exampleCfg corrCode 0 corrData rampBuf
            (Correlate exampleCfg corrCode 0 corrData rampBuf 7 9).max_snr_dop idx =
          peakPower (binPower exampleCfg corrCode 0 corrData rampBuf
            (Correlate exampleCfg corrCode 0 corrData rampBuf 7 9).max_snr_dop) (window exampleCfg 0) ∧
        ∀ k, k < idx →
          binPower exampleCfg corrCode 0 corrData rampBuf
              (Correlate exampleCfg corrCode 0 corrData rampBuf 7 9).max_snr_dop k <
            peakPower (binPower exampleCfg corrCode 0 corrData rampBuf
              (Correlate exampleCfg corrCode 0 corrData rampBuf 7 9).max_snr_dop) (window exampleCfg 0))) :=
  ⟨exampleCfg_bin, correlate_example,
    correlate_max_snr exampleCfg corrCode 0 corrData rampBuf 7 9 exampleCfg_bin⟩

/-! ## Theorems: the capture path does not depend on earlier buffer contents -/

theorem bitLoop_rel (N : Nat) (r : ℚ) : ∀ (fuel b byte : Nat) (st st2 : CapState),
    CapRel st st2 → CapRel (bitLoop N r fuel b byte st) (bitLoop N r fuel b byte st2) := by
  intro fuel
  induction fuel with
  | zero => intro b byte st st2 h; simpa [bitLoop] using h
  | succ f ih =>
    intro b byte st st2 h
    obtain ⟨hi, hp, hb⟩ := h
    rw [bitLoop, bitLoop]
    by_cases hb8 : b < 8
    · rw [if_pos hb8, if_pos hb8]
      by_cases hge : st.i ≥ N
      · rw [if_pos hge, if_pos (by rw [← hi]; exact hge)]
        exact ⟨hi, hp, hb⟩
      · rw [if_neg hge, if_neg (by rw [← hi]; exact hge)]
        apply ih
        refine ⟨by simp only [hi], by simp only [hp], ?_⟩
        intro k hk
        simp only at hk ⊢
        rw [← hi, ← hp]
        by_cases hki : k = st.i
        · subst hki
          rw [Function.update_same, Function.update_same]
        · rw [Function.update_noteq hki, Function.update_noteq hki]
          exact hb k (by omega)
    · rw [if_neg hb8, if_neg hb8]
      exact ⟨hi, hp, hb⟩

theorem bitLoop_mono (N : Nat) (r : ℚ) : ∀ (fuel b byte : Nat) (st : CapState),
    st.i ≤ (bitLoop N r fuel b byte st).i := by
  intro fuel
  induction fuel with
  | zero => intro b byte st; simp [bitLoop]
  | succ f ih =>
    intro b byte st
    rw [bitLoop]
    by_cases hb8 : b < 8
    · rw [if_pos hb8]
      by_cases hge : st.i ≥ N
      · rw [if_pos hge]
      · rw [if_neg hge]
        dsimp only
        refine le_trans ?_ (ih _ _ _)
        exact Nat.le_succ _
    · rw [if_neg hb8]

theorem bitLoop_progress (N : Nat) (r : ℚ) (byte : Nat) (st : CapState) (h : st.i < N) :
    st.i < (bitLoop N r 8 0 byte st).i := by
  rw [bitLoop, if_pos (by norm_num), if_neg (by omega)]
  dsimp only
  refine lt_of_lt_of_le ?_ (bitLoop_mono N r _ _ _ _)
  exact Nat.lt_succ_self _

theorem byteLoop_rel (N : Nat) (r : ℚ) (pkt : Nat → Nat) (P : Nat) :
    ∀ (fuel j : Nat) (st st2 : CapState),
      CapRel st st2 → CapRel (byteLoop N r pkt P fuel j st) (byteLoop N r pkt P fuel j st2) := by
  intro fuel
  induction fuel with
  | zero => intro j st st2 h; simpa [byteLoop] using h
  | succ f ih =>
    intro j st st2 h
    rw [byteLoop, byteLoop]
    by_cases hj : j < P
    · rw [if_pos hj, if_pos hj]
      exact ih _ _ _ (bitLoop_rel N r _ _ _ _ _ h)
    · rw [if_neg hj, if_neg hj]
      exact h

theorem byteLoop_mono (N : Nat) (r : ℚ) (pkt : Nat → Nat) (P : Nat) :
    ∀ (fuel j : Nat) (st : CapState), st.i ≤ (byteLoop N r pkt P fuel j st).i := by
  intro fuel
  induction fuel with
  | zero => intro j st; simp [byteLoop]
  | succ f ih =>
    intro j st
    rw [byteLoop]
    by_cases hj : j < P
    · rw [if_pos hj]
      exact le_trans (bitLoop_mono N r _ _ _ _) (ih _ _)
    · rw [if_neg hj]

theorem byteLoop_progress (N : Nat) (r : ℚ) (pkt : Nat → Nat) (P : Nat) (hP : 0 < P)
    (st : CapState) (h : st.i < N) : st.i < (byteLoop N r pkt P P 0 st).i := by
  obtain ⟨q, rfl⟩ : ∃ q, P = q + 1 := ⟨P - 1, by omega⟩
  rw [byteLoop, if_pos hP]
  exact lt_of_lt_of_le (bitLoop_progress N r _ st h) (byteLoop_mono N r _ _ _ _ _)

/-- With a non-empty packet the packet loop ends, and it ends with all `NSAMPLES` samples
stored. -/
theorem captureLoop_returns (N : Nat) (r : ℚ) (rx : Nat → Nat → Nat) (P : Nat) (hP : 0 < P) :
    ∀ (fuel p : Nat) (st : CapState), N ≤ st.i + fuel →
      ∃ cap, captureLoop N r rx P fuel p st = some cap ∧ N ≤ cap.i := by
  intro fuel
  induction fuel with
  | zero =>
    intro p st h
    exact ⟨st, by rw [captureLoop, if_neg (by omega)], by omega⟩
  | succ f ih =>
    intro p st h
    rw [captureLoop]
    by_cases hlt : st.i < N
    · rw [if_pos hlt]
      apply ih
      have := byteLoop_progress N r (rx p) P hP st hlt
      omega
    · rw [if_neg hlt]
      exact ⟨st, rfl, by omega⟩

/-- Two runs of the packet loop on the same packets stay in step whatever `bits` held
before. -/
theorem captureLoop_rel (N : Nat) (r : ℚ) (rx : Nat → Nat → Nat) (P : Nat) :
    ∀ (fuel p : Nat) (st st2 : CapState), CapRel st st2 →
      ∀ cap, captureLoop N r rx P fuel p st = some cap →
        ∃ cap2, captureLoop N r rx P fuel p st2 = some cap2 ∧ CapRel cap cap2 := by
  intro fuel
  induction fuel with
  | zero =>
    intro p st st2 h cap hc
    rw [captureLoop] at hc ⊢
    by_cases hlt : st.i < N
    · rw [if_pos hlt] at hc; exact absurd hc (by simp)
    · rw [if_neg hlt] at hc
      rw [if_neg (by rw [← h.1]; exact hlt)]
      exact ⟨st2, rfl, by rw [← Option.some.inj hc]; exact h⟩
  | succ f ih =>
    intro p st st2 h cap hc
    rw [captureLoop] at hc ⊢
    by_cases hlt : st.i < N
    · rw [if_pos hlt] at hc
      rw [if_pos (by rw [← h.1]; exact hlt)]
      exact ih _ _ _ (byteLoop_rel N r _ P _ _ _ _ h) cap hc
    · rw [if_neg hlt] at hc
      rw [if_neg (by rw [← h.1]; exact hlt)]
      exact ⟨st2, rfl, by rw [← Option.some.inj hc]; exact h⟩

theorem noClobber_inplace (size base : Nat) : NoClobber size base base := by
  intro o k _ h2 _
  omega

/-- Run in place, `DecimateBy2float` gives outputs that depend only on the `size` input
samples. -/
theorem decimate_inplace_agree (size : Nat) (mem mem2 : Buf)
    (h : ∀ k, k < size → mem k = mem2 k) :
    ∀ o, 2 * o < size →
      (DecimateBy2float size 0 0 mem).1 o = (DecimateBy2float size 0 0 mem2).1 o := by
  intro o ho
  have h1 := (decimate_spec size 0 0 mem (noClobber_inplace size 0)).1 o ho
  have h2 := (decimate_spec size 0 0 mem2 (noClobber_inplace size 0)).1 o ho
  rw [Nat.zero_add] at h1 h2
  rw [h1, h2]
  apply fullFir_congr
  intro j _
  unfold zeroPadded
  by_cases hk : 2 * o + j < size
  · rw [if_pos hk, if_pos hk, Nat.zero_add]; exact h _ hk
  · rw [if_neg hk, if_neg hk]

theorem halvingLoop_agree : ∀ (fuel i n : Nat) (mem mem2 : Buf),
    (∀ k, k < n → mem k = mem2 k) →
    (halvingLoop fuel i (mem2, n)).2 = (halvingLoop fuel i (mem, n)).2 ∧
    ∀ k, k < (halvingLoop fuel i (mem, n)).2 →
      (halvingLoop fuel i (mem, n)).1 k = (halvingLoop fuel i (mem2, n)).1 k := by
  intro fuel
  induction fuel with
  | zero => intro i n mem mem2 h; exact ⟨rfl, h⟩
  | succ f ih =>
    intro i n mem mem2 h
    rw [halvingLoop, halvingLoop]
    by_cases hi : i > 1
    · rw [if_pos hi, if_pos hi]
      exact ih (i >>> 1) (n / 2) (DecimateBy2float n 0 0 mem).1 (DecimateBy2float n 0 0 mem2).1
        (fun k hk => decimate_inplace_agree n mem mem2 h k (by omega))
    · rw [if_neg hi, if_neg hi]
      exact ⟨rfl, h⟩

theorem sample_decimate_count (b2f : Int → ℚ) (D N F : Nat) (bits : Nat → Int × Int)
    (fwd : Buf) (st : Buf × Nat) (h : Sample_decimate b2f D N F bits fwd = some st) :
    st.2 = F := by
  unfold Sample_decimate at h
  by_cases hD : D = 1
  · rw [if_pos hD] at h
    dsimp only at h
    by_cases hc : N = N / D ∧ N = F
    · rw [if_pos hc] at h
      rw [← Option.some.inj h]; exact hc.2
    · rw [if_neg hc] at h; exact absurd h (by simp)
  · rw [if_neg hD] at h
    by_cases hg : D > 2
    · rw [if_pos hg] at h
      dsimp only at h
      split_ifs at h with hc
      rw [← Option.some.inj h]; exact hc.2
    · rw [if_neg hg] at h; exact absurd h (by simp)

/-- The decimation step of `Sample` gives the same first `FFT_LEN` samples whatever
`fwd_buf` held before, and whatever `bits` held beyond the captured samples. -/
theorem sample_decimate_agree (b2f : Int → ℚ) (D N F : Nat) (bits bits2 : Nat → Int × Int)
    (fwd fwd2 : Buf) (hb : ∀ k, k < N → bits k = bits2 k) (st : Buf × Nat)
    (h : Sample_decimate b2f D N F bits fwd = some st) :
    ∃ st2, Sample_decimate b2f D N F bits2 fwd2 = some st2 ∧ st2.2 = st.2 ∧
      ∀ k, k < st.2 → st.1 k = st2.1 k := by
  unfold Sample_decimate at h ⊢
  by_cases hD : D = 1
  · rw [if_pos hD] at h ⊢
    dsimp only at h ⊢
    by_cases hc : N = N / D ∧ N = F
    · rw [if_pos hc] at h ⊢
      refine ⟨_, rfl, ?_, ?_⟩
      · rw [← Option.some.inj h]
      · rw [← Option.some.inj h]
        intro k hk
        have hk' : k < N := hk
        simp only [hk', if_true, hb k hk']
    · rw [if_neg hc] at h; exact absurd h (by simp)
  · rw [if_neg hD] at h ⊢
    by_cases hg : D > 2
    · rw [if_pos hg] at h ⊢
      dsimp only at h ⊢
      have hbin : ∀ k, k < N / 2 →
          (DecimateBy2binary b2f N bits 0 fwd).1 k = (DecimateBy2binary b2f N bits2 0 fwd2).1 k := by
        intro k hk
        unfold DecimateBy2binary
        dsimp only
        apply decimate_inplace_agree
        · intro m hm
          simp only [Nat.zero_le, true_and, Nat.zero_add, hm, if_true, Nat.sub_zero, hb m hm]
        · omega
      have hag := halvingLoop_agree (D >>> 1) (D >>> 1) (N / 2)
        (DecimateBy2binary b2f N bits 0 fwd).1 (DecimateBy2binary b2f N bits2 0 fwd2).1 hbin
      have e1 : DecimateBy2binary b2f N bits 0 fwd =
          ((DecimateBy2binary b2f N bits 0 fwd).1, N / 2) := rfl
      have e2 : DecimateBy2binary b2f N bits2 0 fwd2 =
          ((DecimateBy2binary b2f N bits2 0 fwd2).1, N / 2) := rfl
      rw [← e1, ← e2] at hag
      split_ifs at h with hc
      rw [← Option.some.inj h]
      rw [if_pos (by rw [hag.1]; exact hc)]
      exact ⟨_, rfl, hag.1, hag.2⟩
    · rw [if_neg hg] at h; exact absurd h (by simp)

theorem fftwf_execute_agree (n : Nat) (T : (Fin n → Cplx) → Fin n → Cplx) (b b2 : Buf)
    (h : ∀ k, k < n → b k = b2 k) :
    ∀ k, k < n → fftwf_execute n T b k = fftwf_execute n T b2 k := by
  intro k hk
  unfold fftwf_execute
  rw [dif_pos hk, dif_pos hk]
  have : (fun j : Fin n => b j.val) = (fun j : Fin n => b2 j.val) := by
    funext j; exact h j.val j.isLt
  rw [this]

theorem captureLoop_some_ge (N : Nat) (r : ℚ) (rx : Nat → Nat → Nat) (P : Nat) :
    ∀ (fuel p : Nat) (st cap : CapState), captureLoop N r rx P fuel p st = some cap →
      N ≤ cap.i := by
  intro fuel
  induction fuel with
  | zero =>
    intro p st cap hc
    rw [captureLoop] at hc
    by_cases hlt : st.i < N
    · rw [if_pos hlt] at hc; exact absurd hc (by simp)
    · rw [if_neg hlt] at hc
      rw [← Option.some.inj hc]; omega
  | succ f ih =>
    intro p st cap hc
    rw [captureLoop] at hc
    by_cases hlt : st.i < N
    · rw [if_pos hlt] at hc
      exact ih _ _ _ hc
    · rw [if_neg hlt] at hc
      rw [← Option.some.inj hc]; omega

/-- `Sample` leaves in `fwd_buf[0 .. FFT_LEN)` a spectrum that depends on the captured
packets only, not on what `bits` and `fwd_buf` held before. -/
theorem sample_agree (cfg : Config) (rx : Nat → Nat → Nat) (bits bits2 : Nat → Int × Int)
    (fwd fwd2 : Buf) (out : (Nat → Int × Int) × Buf) (h : Sample cfg rx bits fwd = some out) :
    ∃ out2, Sample cfg rx bits2 fwd2 = some out2 ∧
      ∀ k, k < cfg.FFT_LEN → out.2 k = out2.2 k := by
  unfold Sample at h ⊢
  dsimp only at h ⊢
  cases hcap : captureLoop cfg.NSAMPLES (4 * cfg.FC / cfg.FS) rx (cfg.GPS_SAMPS * 2)
      cfg.NSAMPLES 0 ⟨0, 0, bits⟩ with
  | none => rw [hcap] at h; exact absurd h (by simp)
  | some cap =>
    rw [hcap] at h
    dsimp only at h
    have hrel0 : CapRel ⟨0, 0, bits⟩ ⟨0, 0, bits2⟩ := ⟨rfl, rfl, fun k hk => absurd hk (by simp)⟩
    obtain ⟨cap2, hcap2, hrel⟩ := captureLoop_rel cfg.NSAMPLES (4 * cfg.FC / cfg.FS) rx
      (cfg.GPS_SAMPS * 2) cfg.NSAMPLES 0 _ _ hrel0 cap hcap
    have hge : cfg.NSAMPLES ≤ cap.i := captureLoop_some_ge _ _ _ _ _ _ _ _ hcap
    rw [hcap2]
    dsimp only
    cases hdec : Sample_decimate cfg.bit2float cfg.DECIM cfg.NSAMPLES cfg.FFT_LEN cap.bits fwd with
    | none => rw [hdec] at h; exact absurd h (by simp)
    | some st =>
      rw [hdec] at h
      dsimp only at h
      obtain ⟨st2, hdec2, hn, hag⟩ := sample_decimate_agree cfg.bit2float cfg.DECIM cfg.NSAMPLES
        cfg.FFT_LEN cap.bits cap2.bits fwd fwd2 (fun k hk => hrel.2.2 k (by omega)) st hdec
      rw [hdec2]
      dsimp only
      refine ⟨_, rfl, ?_⟩
      rw [← Option.some.inj h]
      have hF := sample_decimate_count _ _ _ _ _ _ _ hdec
      exact fftwf_execute_agree cfg.FFT_LEN cfg.fwd_plan st.1 st2.1 (by rw [← hF]; exact hag)


/-- In a consistent build `Sample` returns. -/
theorem sample_returns (cfg : Config) (hc : Consistent cfg) (rx : Nat → Nat → Nat)
    (bits : Nat → Int × Int) (fwd : Buf) : ∃ out, Sample cfg rx bits fwd = some out := by
  obtain ⟨hP, hcfg⟩ := hc
  unfold Sample
  dsimp only
  obtain ⟨cap, hcap, _⟩ := captureLoop_returns cfg.NSAMPLES (4 * cfg.FC / cfg.FS) rx
    (cfg.GPS_SAMPS * 2) (by omega) cfg.NSAMPLES 0 ⟨0, 0, bits⟩ (by simp)
  rw [hcap]
  dsimp only
  have hdec : ∃ st, Sample_decimate cfg.bit2float cfg.DECIM cfg.NSAMPLES cfg.FFT_LEN cap.bits
      fwd = some st := by
    rcases hcfg with ⟨h1, h2⟩ | ⟨k, hk, h1, h2⟩
    · unfold Sample_decimate
      rw [if_pos h1]
      dsimp only
      rw [if_pos ⟨by rw [h1, Nat.div_one], h2⟩]
      exact ⟨_, rfl⟩
    · obtain ⟨st, hst, _⟩ := sample_decimate_pow k cfg.FFT_LEN hk fwd cfg.bit2float cap.bits
      rw [h1, h2]
      exact ⟨st, hst⟩
  obtain ⟨st, hst⟩ := hdec
  rw [hst]
  exact ⟨_, rfl⟩

/-! ## Theorems: repeatability of an acquisition cycle -/

theorem peakPower_congr (p q : Nat → ℚ) (W : Nat) (h : ∀ i, i < W → p i = q i) :
    peakPower p W = peakPower q W := by
  unfold peakPower
  rw [List.map_congr_left (fun i hi => h i (List.mem_range.mp hi))]

theorem totalPower_congr (p q : Nat → ℚ) (W : Nat) (h : ∀ i, i < W → p i = q i) :
    totalPower p W = totalPower q W := by
  unfold totalPower
  rw [List.map_congr_left (fun i hi => h i (List.mem_range.mp hi))]

/-- The correlation of a bin depends on the first `FFT_LEN` samples of `data` only, and on
`rev_buf` only past its end. -/
theorem corrBin_agree (cfg : Config) (code : Int → Cplx) (sat : Nat) (data data2 rb rb2 : Buf)
    (dop : Int) (hd : ∀ k, k < cfg.FFT_LEN → data k = data2 k) (i : Nat)
    (hr : cfg.FFT_LEN ≤ i → rb i = rb2 i) :
    corrBin cfg code sat data dop rb i = corrBin cfg code sat data2 dop rb2 i := by
  by_cases hi : i < cfg.FFT_LEN
  · unfold corrBin
    apply fftwf_execute_agree _ _ _ _ _ i hi
    intro k hk
    unfold simd_multiply_conjugate
    rw [if_pos hk, if_pos hk, hd k hk]
  · rw [corrBin_tail _ _ _ _ _ _ _ (by omega), corrBin_tail _ _ _ _ _ _ _ (by omega)]
    exact hr (by omega)

theorem binSnr_agree (cfg : Config) (code : Int → Cplx) (sat : Nat) (data data2 rb rb2 : Buf)
    (hd : ∀ k, k < cfg.FFT_LEN → data k = data2 k)
    (hr : ∀ i, cfg.FFT_LEN ≤ i → i < window cfg sat → rb i = rb2 i) (dop : Int) :
    (∀ i, i < window cfg sat →
      binPower cfg code sat data rb dop i = binPower cfg code sat data2 rb2 dop i) ∧
    binSnr cfg code sat data rb dop = binSnr cfg code sat data2 rb2 dop := by
  have hp : ∀ i, i < window cfg sat →
      binPower cfg code sat data rb dop i = binPower cfg code sat data2 rb2 dop i := by
    intro i hi
    unfold binPower bufPower
    rw [corrBin_agree cfg code sat data data2 rb rb2 dop hd i (fun h => hr i h hi)]
  refine ⟨hp, ?_⟩
  unfold binSnr
  rw [peakPower_congr _ _ _ hp, totalPower_congr _ _ _ hp]

theorem firstAt_unique (p : Nat → ℚ) (W : Nat) (m : ℚ) (a b : Nat)
    (ha : FirstAt p W m a) (hb : FirstAt p W m b) : a = b := by
  rcases Nat.lt_trichotomy a b with h | h | h
  · have := hb.2.2 a h
    rw [ha.2.1] at this
    exact absurd this (lt_irrefl _)
  · exact h
  · have := ha.2.2 b h
    rw [hb.2.1] at this
    exact absurd this (lt_irrefl _)

/-- Two calls of `Correlate` on spectra that agree, with any previous contents of the
output locations: the same `max_snr`, and the same outputs whenever `max_snr > 0`. -/
theorem correlate_agree (cfg : Config) (code : Int → Cplx) (sat : Nat) (data data2 rb rb2 : Buf)
    (d0 i0 d1 i1 : Int) (hB : 0 < cfg.BIN_SIZE)
    (hd : ∀ k, k < cfg.FFT_LEN → data k = data2 k)
    (hr : ∀ i, cfg.FFT_LEN ≤ i → i < window cfg sat → rb i = rb2 i) :
    (Correlate cfg code sat data2 rb2 d1 i1).max_snr = (Correlate cfg code sat data rb d0 i0).max_snr ∧
    (0 < (Correlate cfg code sat data rb d0 i0).max_snr →
      (Correlate cfg code sat data2 rb2 d1 i1).max_snr_dop =
        (Correlate cfg code sat data rb d0 i0).max_snr_dop ∧
      (Correlate cfg code sat data2 rb2 d1 i1).max_snr_i =
        (Correlate cfg code sat data rb d0 i0).max_snr_i) := by
  obtain ⟨_, hub, hcase⟩ := correlate_inv cfg code sat data rb d0 i0 hB
  obtain ⟨_, hub2, hcase2⟩ := correlate_inv cfg code sat data2 rb2 d1 i1 hB
  have hs : ∀ dop, binSnr cfg code sat data rb dop = binSnr cfg code sat data2 rb2 dop :=
    fun dop => (binSnr_agree cfg code sat data data2 rb rb2 hd hr dop).2
  have h0f := dopFirst_nonpos cfg.BIN_SIZE hB
  have h0l := dopLast_nonneg cfg.BIN_SIZE hB
  rcases hcase with h | h <;> rcases hcase2 with h2 | h2
  · refine ⟨by rw [h.1, h2.1], ?_⟩
    intro hpos; rw [h.1] at hpos; exact absurd hpos (lt_irrefl _)
  · exfalso
    obtain ⟨hpos, b, c, e, _, _⟩ := h2
    have := hub _ b c
    rw [hs, e, h.1] at this
    linarith
  · exfalso
    obtain ⟨hpos, b, c, e, _, _⟩ := h
    have := hub2 _ b c
    rw [← hs, e, h2.1] at this
    linarith
  · obtain ⟨hpos, b, c, e, f, idx, hidx, hfa⟩ := h
    obtain ⟨hpos2, b2, c2, e2, f2, idx2, hidx2, hfa2⟩ := h2
    have hmax : (Correlate cfg code sat data2 rb2 d1 i1).max_snr =
        (Correlate cfg code sat data rb d0 i0).max_snr := by
      apply le_antisymm
      · rw [← e2, ← hs]; exact hub _ b2 c2
      · rw [← e, hs]; exact hub2 _ b c
    have hdop : (Correlate cfg code sat data2 rb2 d1 i1).max_snr_dop =
        (Correlate cfg code sat data rb d0 i0).max_snr_dop := by
      rcases lt_trichotomy (Correlate cfg code sat data2 rb2 d1 i1).max_snr_dop
        (Correlate cfg code sat data rb d0 i0).max_snr_dop with hlt | heq | hgt
      · exfalso
        have := f _ b2 hlt
        rw [hs, e2, hmax] at this
        exact lt_irrefl _ this
      · exact heq
      · exfalso
        have := f2 _ b hgt
        rw [← hs, e, hmax] at this
        exact lt_irrefl _ this
    refine ⟨hmax, fun _ => ⟨hdop, ?_⟩⟩
    rw [hidx, hidx2]
    congr 1
    rw [hdop] at hfa2
    have hp := (binSnr_agree cfg code sat data data2 rb rb2 hd hr
      (Correlate cfg code sat data rb d0 i0).max_snr_dop).1
    have hpk := peakPower_congr _ _ _ hp
    have hfa2' : FirstAt (binPower cfg code sat data rb
        (Correlate cfg code sat data rb d0 i0).max_snr_dop) (window cfg sat)
        (peakPower (binPower cfg code sat data rb
          (Correlate cfg code sat data rb d0 i0).max_snr_dop) (window cfg sat)) idx2 := by
      obtain ⟨x, y, z⟩ := hfa2
      refine ⟨x, ?_, ?_⟩
      · rw [hp idx2 x, hpk]; exact y
      · intro k hk
        rw [hp k (by omega), hpk]; exact z k hk
    exact firstAt_unique _ _ _ _ _ hfa2' hfa

/-- When no bin has positive power ratio, `Correlate` returns 0 and writes neither
output. -/
theorem correlate_stale (cfg : Config) (code : Int → Cplx) (sat : Nat) (data rb : Buf)
    (d0 i0 : Int) (hB : 0 < cfg.BIN_SIZE)
    (h0 : (Correlate cfg code sat data rb d0 i0).max_snr = 0) :
    (Correlate cfg code sat data rb d0 i0).max_snr_dop = d0 ∧
    (Correlate cfg code sat data rb d0 i0).max_snr_i = i0 := by
  obtain ⟨_, _, hcase⟩ := correlate_inv cfg code sat data rb d0 i0 hB
  rcases hcase with h | h
  · exact h.2
  · rw [h0] at h
    exact absurd h.1 (lt_irrefl _)

theorem correlate_tail (cfg : Config) (code : Int → Cplx) (sat : Nat) (data rb : Buf)
    (d0 i0 : Int) (hB : 0 < cfg.BIN_SIZE) :
    ∀ i, cfg.FFT_LEN ≤ i → (Correlate cfg code sat data rb d0 i0).rev_buf i = rb i :=
  (correlate_inv cfg code sat data rb d0 i0 hB).1

/-- What one acquisition cycle returns, in terms of `Sample` and `Correlate`. -/
theorem acqCycle_eq (cfg : Config) (code : Int → Cplx) (rx : Nat → Nat → Nat) (sat : Nat)
    (s : CycleState) (out : (Nat → Int × Int) × Buf) (h : Sample cfg rx s.bits s.fwd_buf = some out) :
    acqCycle cfg code rx sat s =
      some (⟨out.1, out.2, (Correlate cfg code sat out.2 s.rev_buf s.lo_shift s.ca_shift).rev_buf,
          (Correlate cfg code sat out.2 s.rev_buf s.lo_shift s.ca_shift).max_snr_dop,
          wrapInt32 ((Correlate cfg code sat out.2 s.rev_buf s.lo_shift s.ca_shift).max_snr_i *
            (cfg.DECIM : Int))⟩,
        (Correlate cfg code sat out.2 s.rev_buf s.lo_shift s.ca_shift).max_snr) := by
  unfold acqCycle
  rw [h]

/-- In a consistent build an acquisition cycle returns. -/
theorem acqCycle_returns (cfg : Config) (code : Int → Cplx) (rx : Nat → Nat → Nat) (sat : Nat)
    (s : CycleState) (hc : Consistent cfg) : (acqCycle cfg code rx sat s).isSome = true := by
  obtain ⟨out, hout⟩ := sample_returns cfg hc rx s.bits s.fwd_buf
  rw [acqCycle_eq cfg code rx sat s out hout]
  rfl

/-- Two acquisition cycles on the same capture and code table, started in states that
agree past the end of `rev_buf` as far as the window reads: same SNR, the same Doppler and
code-phase outputs whenever the SNR is positive, and stale outputs when it is 0. -/
theorem acqCycle_agree (cfg : Config) (code : Int → Cplx) (rx : Nat → Nat → Nat) (sat : Nat)
    (s s2 : CycleState) (hc : Consistent cfg) (hB : 0 < cfg.BIN_SIZE)
    (hr : ∀ i, cfg.FFT_LEN ≤ i → i < window cfg sat → s.rev_buf i = s2.rev_buf i) :
    ∃ c1 snr1 c2 snr2, acqCycle cfg code rx sat s = some (c1, snr1) ∧
      acqCycle cfg code rx sat s2 = some (c2, snr2) ∧ snr2 = snr1 ∧
      (0 < snr1 → c2.lo_shift = c1.lo_shift ∧ c2.ca_shift = c1.ca_shift) ∧
      (snr1 = 0 → c1.lo_shift = s.lo_shift ∧ c1.ca_shift = wrapInt32 (s.ca_shift * (cfg.DECIM : Int))) ∧
      (∀ i, cfg.FFT_LEN ≤ i → c1.rev_buf i = s.rev_buf i) := by
  obtain ⟨out, hout⟩ := sample_returns cfg hc rx s.bits s.fwd_buf
  obtain ⟨out2, hout2, hag⟩ := sample_agree cfg rx s.bits s2.bits s.fwd_buf s2.fwd_buf out hout
  have hca := correlate_agree cfg code sat out.2 out2.2 s.rev_buf s2.rev_buf s.lo_shift s.ca_shift
    s2.lo_shift s2.ca_shift hB hag hr
  refine ⟨_, _, _, _, acqCycle_eq cfg code rx sat s out hout,
    acqCycle_eq cfg code rx sat s2 out2 hout2, hca.1, ?_, ?_, ?_⟩
  · intro hpos
    obtain ⟨h1, h2⟩ := hca.2 hpos
    exact ⟨h1, by show wrapInt32 (_ * _) = wrapInt32 (_ * _); rw [h2]⟩
  · intro h0
    obtain ⟨h1, h2⟩ := correlate_stale cfg code sat out.2 s.rev_buf s.lo_shift s.ca_shift hB h0
    exact ⟨h1, by show wrapInt32 (_ * _) = wrapInt32 (_ * _); rw [h2]⟩
  · exact correlate_tail cfg code sat out.2 s.rev_buf s.lo_shift s.ca_shift hB

theorem exampleCfg_consistent : Consistent exampleCfg :=
  ⟨by decide, Or.inr ⟨2, by decide, by decide, by decide⟩⟩



theorem dft4_zero (s : Nat) (k : Fin 4) : dft4 s (fun _ => (0, 0)) k = (0, 0) := by
  have hz : ∀ m, mulIPow m ((0, 0) : Cplx) = (0, 0) := by
    intro m
    unfold mulIPow
    split <;> simp
  have hz2 : ∀ m, mulIPow m (0 : Cplx) = 0 := hz
  simp [dft4, List.finRange, hz2]

/-- With an all-zero code table every bin of the example build has zero power ratio. -/
theorem binSnr_zeroCode (sat : Nat) (data rb : Buf) (dop : Int) :
    binSnr exampleCfg zeroCode sat data rb dop = 0 := by
  have hp : ∀ i, i < window exampleCfg sat →
      binPower exampleCfg zeroCode sat data rb dop i = (fun _ => (0 : ℚ)) i := by
    intro i hi
    have hi4 : i < 4 := hi
    unfold binPower bufPower corrBin fftwf_execute
    have hF : exampleCfg.FFT_LEN = 4 := rfl
    rw [dif_pos (by rw [hF]; exact hi4)]
    have hz : (fun k : Fin exampleCfg.FFT_LEN =>
        simd_multiply_conjugate exampleCfg.FFT_LEN data zeroCode
          (codeRow exampleCfg.FFT_LEN sat + (exampleCfg.FFT_LEN : Int) - dop) rb k.val) =
        fun _ => (0, 0) := by
      funext k
      unfold simd_multiply_conjugate zeroCode
      rw [if_pos k.isLt]
      simp
    rw [hz]
    have := dft4_zero 1 ⟨i, hi4⟩
    show (dft4 1 (fun _ => (0, 0)) ⟨i, hi4⟩).1 * (dft4 1 (fun _ => (0, 0)) ⟨i, hi4⟩).1 +
      (dft4 1 (fun _ => (0, 0)) ⟨i, hi4⟩).2 * (dft4 1 (fun _ => (0, 0)) ⟨i, hi4⟩).2 = 0
    rw [this]
    simp
  unfold binSnr
  rw [peakPower_congr _ _ _ hp]
  have : peakPower (fun _ => (0 : ℚ)) (window exampleCfg sat) = 0 := by
    show peakPower (fun _ => (0 : ℚ)) 4 = 0
    simp [peakPower, List.range_succ]
  rw [this, zero_div]

theorem correlate_zeroCode (sat : Nat) (data rb : Buf) (d0 i0 : Int) :
    (Correlate exampleCfg zeroCode sat data rb d0 i0).max_snr = 0 := by
  obtain ⟨_, _, hcase⟩ := correlate_inv exampleCfg zeroCode sat data rb d0 i0 exampleCfg_bin
  rcases hcase with h | h
  · exact h.1
  · obtain ⟨hpos, _, _, e, _⟩ := h
    rw [binSnr_zeroCode] at e
    exact e.symm

/-- The scaling of a stale `ca_shift`, on a code table row that was never written: in the
example build (`DECIM = 4`) two consecutive acquisition cycles on the same capture,
entered with `lo_shift = 3` and `ca_shift = 5`, both return SNR 0 and leave
`ca_shift = 20` after the first and `ca_shift = 80` after the second. -/
theorem acqCycle_stale_zeroCode :
    ∃ c1 snr1 c2 snr2 c3 snr3,
      acqCycle exampleCfg zeroCode rx55 0 (cycleStart 3 5) = some (c1, snr1) ∧
      acqCycle exampleCfg zeroCode rx55 0 c1 = some (c2, snr2) ∧
      acqCycle exampleCfg zeroCode rx55 0 (cycleStart 0 1) = some (c3, snr3) ∧
      snr1 = 0 ∧ snr2 = 0 ∧ snr3 = 0 ∧
      c1.lo_shift = 3 ∧ c1.ca_shift = 20 ∧ c2.lo_shift = 3 ∧ c2.ca_shift = 80 ∧
      c3.lo_shift = 0 ∧ c3.ca_shift = 4 ∧
      c1.ca_shift ≠ c2.ca_shift ∧ c1.lo_shift ≠ c3.lo_shift := by
  obtain ⟨c1, snr1, _, _, h1, _, _, _, hst1, _⟩ :=
    acqCycle_agree exampleCfg zeroCode rx55 0 (cycleStart 3 5) (cycleStart 3 5)
      exampleCfg_consistent exampleCfg_bin (fun _ _ _ => rfl)
  obtain ⟨c2, snr2, _, _, h2, _, _, _, hst2, _⟩ :=
    acqCycle_agree exampleCfg zeroCode rx55 0 c1 c1
      exampleCfg_consistent exampleCfg_bin (fun _ _ _ => rfl)
  obtain ⟨c3, snr3, _, _, h3, _, _, _, hst3, _⟩ :=
    acqCycle_agree exampleCfg zeroCode rx55 0 (cycleStart 0 1) (cycleStart 0 1)
      exampleCfg_consistent exampleCfg_bin (fun _ _ _ => rfl)
  have hz : ∀ (s c : CycleState) (snr : ℚ),
      acqCycle exampleCfg zeroCode rx55 0 s = some (c, snr) → snr = 0 := by
    intro s c snr h
    cases hs : Sample exampleCfg rx55 s.bits s.fwd_buf with
    | none => unfold acqCycle at h; rw [hs] at h; exact absurd h (by simp)
    | some out =>
      rw [acqCycle_eq exampleCfg zeroCode rx55 0 s out hs] at h
      rw [← (Prod.mk.inj (Option.some.inj h)).2]
      exact correlate_zeroCode 0 _ _ _ _
  have z1 := hz _ _ _ h1
  have z2 := hz _ _ _ h2
  have z3 := hz _ _ _ h3
  obtain ⟨a1, b1⟩ := hst1 z1
  obtain ⟨a2, b2⟩ := hst2 z2
  obtain ⟨a3, b3⟩ := hst3 z3
  have hD : (exampleCfg.DECIM : Int) = 4 := rfl
  have ha1 : c1.lo_shift = 3 := a1
  have hb1 : c1.ca_shift = 20 := by rw [b1, hD]; rfl
  have ha2 : c2.lo_shift = 3 := by rw [a2, ha1]
  have hb2 : c2.ca_shift = 80 := by rw [b2, hb1, hD]; rfl
  have ha3 : c3.lo_shift = 0 := a3
  have hb3 : c3.ca_shift = 4 := by rw [b3, hD]; rfl
  refine ⟨c1, snr1, c2, snr2, c3, snr3, h1, h2, h3, z1, z2, z3, ha1, hb1, ha2, hb2, ha3, hb3, ?_, ?_⟩
  · rw [hb1, hb2]; decide
  · rw [ha1, ha3]; decide

/-- The code table of the build without decimation: `SearchInit` completes, and the row
of satellite 2 (E1B, a constant replica over the four samples) is `-4, 0, 0, 0` twice,
followed by the unwritten row 3. -/
theorem directCfg_code :
    (SearchInit directCfg exampleGens 1 8 exampleTable zeroCode (fun _ => (0, 0))).isSome = true ∧
    (List.range 9).map (fun i : Nat =>
        codeAfterInit directCfg exampleGens 1 8 exampleTable (codeRow 4 2 + (i : Int))) =
      [(-4, 0), (0, 0), (0, 0), (0, 0), (-4, 0), (0, 0), (0, 0), (0, 0), (0, 0)] := by
  decide!

/-- After the redirection `sp` points at the entry of the satellite `sat` that is examined,
in a numbered table. -/
theorem redirect_sp (s : SchedState) (hnum : Numbered s.Sats) :
    (redirect s).1.sp = (redirect s).2 ∧ (redirect s).1.Sats = s.Sats := by
  unfold redirect
  dsimp only
  split_ifs
  · exact ⟨rfl, rfl⟩
  · exact ⟨rfl, rfl⟩
  · exact ⟨(hnum s.sp).symm, rfl⟩

theorem chanStarts_eq (e1 : List Event) (snr : ℚ) (ch : Int) (sat : Int) (low : Bool) (us : Int)
    (h1 : chanStarts e1 = []) :
    chanStarts (e1 ++ [Event.statSat snr ch sat low us]) = [] := by
  unfold chanStarts at h1 ⊢
  rw [List.filter_append, h1]
  rfl

/-- The threshold test of a pass that reached correlation. -/
theorem acquireOn_spec (cfg : Config) (min_sig : Int) (code : Int → Cplx) (env : IterEnv)
    (s : SchedState) (sat : Nat) (ch : Int) (cyc : CycleState) (snr : ℚ)
    (hsp : s.sp = sat) (hbusy : (s.Sats s.sp).busy = false)
    (hcyc : acqCycle cfg code env.rx sat s.cyc = some (cyc, snr)) :
    ∃ s2 evs out, acquireOn cfg min_sig code env s sat ch = some (s2, evs, out) ∧
      (((s2.Sats sat).busy = true ∧
          chanStarts evs = [Event.chanStart ch sat env.t_sample (chanInit cfg (s.Sats sat))
            cyc.lo_shift cyc.ca_shift (cTrunc snr)]) ↔ (min_sig : ℚ) ≤ snr) ∧
      (snr < (min_sig : ℚ) → (s2.Sats sat).busy = false ∧ chanStarts evs = [] ∧
        s2.Sats = s.Sats ∧ out = Outcome.lowSnr sat ch snr) ∧
      ((min_sig : ℚ) ≤ snr → out = Outcome.started sat ch snr ∧
        ∀ k, k ≠ sat → s2.Sats k = s.Sats k) := by
  have hev1 : chanStarts (if s.last_ch ≠ ch ∧ s.snr < (min_sig : ℚ) then
      [Event.statSat 0 s.last_ch (-1) false 0] else []) = [] := by
    split_ifs <;> rfl
  unfold acquireOn
  rw [hcyc]
  dsimp only
  by_cases hlow : snr < (min_sig : ℚ)
  · rw [if_pos hlow]
    refine ⟨_, _, _, rfl, ?_, ?_, ?_⟩
    · constructor
      · intro h
        have hb : (s.Sats sat).busy = false := by rw [← hsp]; exact hbusy
        dsimp only at h
        rw [hb] at h
        exact absurd h.1 (by simp)
      · intro h
        exact absurd hlow (not_lt.mpr h)
    · intro _
      refine ⟨by rw [← hsp]; exact hbusy, chanStarts_eq _ _ _ _ _ _ hev1, rfl, rfl⟩
    · intro h
      exact absurd hlow (not_lt.mpr h)
  · rw [if_neg hlow]
    have hge : (min_sig : ℚ) ≤ snr := not_lt.mp hlow
    refine ⟨_, _, _, rfl, ?_, ?_, ?_⟩
    · constructor
      · intro _; exact hge
      · intro _
        dsimp only
        refine ⟨?_, ?_⟩
        · rw [hsp, Function.update_same]
        · rw [hsp]
          unfold chanStarts at hev1 ⊢
          rw [List.filter_append, List.filter_append, List.filter_append, hev1]
          rfl
    · intro h
      exact absurd h hlow
    · intro _
      refine ⟨rfl, ?_⟩
      intro k hk
      dsimp only
      rw [hsp, Function.update_noteq hk]

/-- C9: in every pass of the scheduler loop body that reaches correlation for a satellite
(its table entry is E1B and not busy, a channel `ch ≥ 0` is granted, `Sample` and
`Correlate` return `snr`), the satellite is marked busy and `ChanStart` is called, exactly
once and with that satellite and that channel, if and only if `snr ≥ min_sig`; when
`snr < min_sig` the busy flag stays false, `ChanStart` is not called and the satellite
table is unchanged. -/
theorem searchTask_threshold (cfg : Config) (min_sig : Int) (code : Int → Cplx) (env : IterEnv)
    (s : SchedState) (ch : Int) (hnum : Numbered s.Sats)
    (htype : (s.Sats s.sp).type = SatType.E1B)
    (hbusy : ((redirect s).1.Sats (redirect s).1.sp).busy = false)
    (hch : requestChannel cfg env.chanReset = some ch) (hch0 : 0 ≤ ch)
    (hret : (acqCycle cfg code env.rx (redirect s).2 (redirect s).1.cyc).isSome = true) :
    ∃ cyc snr s2 evs out,
      acqCycle cfg code env.rx (redirect s).2 (redirect s).1.cyc = some (cyc, snr) ∧
      SearchTask_body cfg min_sig code env s = some (s2, evs, out) ∧
      (((s2.Sats (redirect s).2).busy = true ∧
          chanStarts evs = [Event.chanStart ch (redirect s).2 env.t_sample
            (chanInit cfg (s.Sats (redirect s).2)) cyc.lo_shift cyc.ca_shift (cTrunc snr)]) ↔
        (min_sig : ℚ) ≤ snr) ∧
      (snr < (min_sig : ℚ) → (s2.Sats (redirect s).2).busy = false ∧ chanStarts evs = [] ∧
        s2.Sats = s.Sats ∧ out = Outcome.lowSnr (redirect s).2 ch snr) ∧
      ((min_sig : ℚ) ≤ snr → out = Outcome.started (redirect s).2 ch snr ∧
        ∀ k, k ≠ (redirect s).2 → s2.Sats k = s.Sats k) := by
  obtain ⟨hsp, hSats⟩ := redirect_sp s hnum
  obtain ⟨⟨cyc, snr⟩, hcyc⟩ := Option.isSome_iff_exists.mp hret
  obtain ⟨s2, evs, out, hacq, h1, h2, h3⟩ := acquireOn_spec cfg min_sig code env (redirect s).1
    (redirect s).2 ch cyc snr hsp hbusy hcyc
  rw [hSats] at h1 h2 h3
  refine ⟨cyc, snr, s2, evs, out, hcyc, ?_, h1, h2, h3⟩
  unfold SearchTask_body
  rw [if_neg (by rw [htype]; simp)]
  dsimp only
  rw [if_neg (by rw [hbusy]; simp), hch]
  dsimp only
  rw [if_neg (by omega)]
  exact hacq

theorem exampleSats_numbered : Numbered exampleSats := fun _ => rfl

theorem unitCfg_consistent : Consistent unitCfg :=
  ⟨by decide, Or.inl ⟨rfl, rfl⟩⟩

theorem searchTask_threshold_witness :
    ∃ cyc snr s2 evs out,
      acqCycle unitCfg onesCode exampleEnv.rx (redirect exampleSched).2
        (redirect exampleSched).1.cyc = some (cyc, snr) ∧
      SearchTask_body unitCfg 1 onesCode exampleEnv exampleSched = some (s2, evs, out) ∧
      (((s2.Sats (redirect exampleSched).2).busy = true ∧
          chanStarts evs = [Event.chanStart 0 (redirect exampleSched).2 exampleEnv.t_sample
            (chanInit unitCfg (exampleSched.Sats (redirect exampleSched).2)) cyc.lo_shift
            cyc.ca_shift (cTrunc snr)]) ↔
        ((1 : Int) : ℚ) ≤ snr) ∧
      (snr < ((1 : Int) : ℚ) → (s2.Sats (redirect exampleSched).2).busy = false ∧
        chanStarts evs = [] ∧ s2.Sats = exampleSched.Sats ∧
        out = Outcome.lowSnr (redirect exampleSched).2 0 snr) ∧
      (((1 : Int) : ℚ) ≤ snr → out = Outcome.started (redirect exampleSched).2 0 snr ∧
        ∀ k, k ≠ (redirect exampleSched).2 → s2.Sats k = exampleSched.Sats k) :=
  searchTask_threshold unitCfg 1 onesCode exampleEnv exampleSched 0 exampleSats_numbered
    rfl rfl rfl (by decide)
    (acqCycle_returns unitCfg onesCode exampleEnv.rx _ _ unitCfg_consistent)

/-! ## Worked examples in the one-sample build -/

theorem unit_dopFirst : dopFirst unitCfg.BIN_SIZE = -1 := by
  show dopFirst 5000 = -1
  unfold dopFirst cTrunc
  norm_num
  rw [show (-1 : ℚ) = ((-1 : Int) : ℚ) by norm_num, Int.ceil_intCast]

theorem unit_dopCount : dopCount unitCfg.BIN_SIZE = 3 := by
  unfold dopCount
  rw [unit_dopFirst]
  show (⌊(5000 : ℚ) / 5000⌋ - -1 + 1).toNat = 3
  norm_num
  rfl

theorem unit_dopCond (d : Int) : dopCond unitCfg.BIN_SIZE d = decide (d ≤ 1) := by
  show dopCond 5000 d = _
  unfold dopCond
  norm_num
  norm_cast

theorem unit_step (sat : Nat) (data : Buf) (dop : Int) (st : CorrState) (h : data 0 = (1, 1)) :
    dopStep unitCfg onesCode sat data dop st =
      if 1 > st.max_snr then ⟨1, dop, 0, corrBin unitCfg onesCode sat data dop st.rev_buf⟩
      else { st with rev_buf := corrBin unitCfg onesCode sat data dop st.rev_buf } := by
  have hw : window unitCfg sat = 1 := rfl
  have hp : bufPower (corrBin unitCfg onesCode sat data dop st.rev_buf) 0 = 2 := by
    unfold bufPower corrBin fftwf_execute simd_multiply_conjugate onesCode
    have hF : unitCfg.FFT_LEN = 1 := rfl
    simp [hF, h, unitCfg]
    norm_num
  unfold dopStep
  simp only [hw, pwrLoop, pwrStep, hp]
  norm_num

/-- `Correlate` on a one-sample spectrum `1 + i` against the all-ones code: every bin has
ratio 1, so the SNR is 1, the reported bin is the lowest one (`-1`) and the reported index
is 0, whatever the output locations held. -/
theorem correlate_unit (sat : Nat) (data rb : Buf) (d0 i0 : Int) (h : data 0 = (1, 1)) :
    (Correlate unitCfg onesCode sat data rb d0 i0).max_snr = 1 ∧
    (Correlate unitCfg onesCode sat data rb d0 i0).max_snr_dop = -1 ∧
    (Correlate unitCfg onesCode sat data rb d0 i0).max_snr_i = 0 := by
  unfold Correlate
  rw [unit_dopCount, unit_dopFirst]
  simp [dopLoop, unit_dopCond, unit_step sat _ _ _ h]

/-- `Sample` on a capture of `0x55` bytes leaves the one-sample spectrum `1 + i`. -/
theorem sample_unit (bits : Nat → Int × Int) (fwd : Buf) :
    (Sample unitCfg rx55 bits fwd).map (fun out => out.2 0) = some (1, 1) := by
  have hN : unitCfg.NSAMPLES = 1 := rfl
  have hF : unitCfg.FFT_LEN = 1 := rfl
  have hD : unitCfg.DECIM = 1 := rfl
  have hG : unitCfg.GPS_SAMPS = 1 := rfl
  have hc0 : cTrunc 0 = 0 := by unfold cTrunc; norm_num
  unfold Sample
  simp only [hN, hF, hD, hG, captureLoop, byteLoop, bitLoop, rx55, Sample_decimate]
  simp [fftwf_execute, hF, Bipolar, hc0, lo_sin, lo_cos]
  simp [unitCfg]

/-- A whole acquisition cycle in the one-sample build: SNR 1, `lo_shift = -1`,
`ca_shift = 0`, whatever the scheduler variables held before. -/
theorem acqCycle_unit (sat : Nat) (lo ca : Int) :
    (acqCycle unitCfg onesCode rx55 sat (cycleStart lo ca)).map
      (fun r => (r.2, r.1.lo_shift, r.1.ca_shift)) = some (1, -1, 0) := by
  have hs := sample_unit (cycleStart lo ca).bits (cycleStart lo ca).fwd_buf
  cases hout : Sample unitCfg rx55 (cycleStart lo ca).bits (cycleStart lo ca).fwd_buf with
  | none => rw [hout] at hs; exact absurd hs (by simp)
  | some out =>
    rw [hout] at hs
    have h0 : out.2 0 = (1, 1) := Option.some.inj hs
    obtain ⟨h1, h2, h3⟩ := correlate_unit sat out.2 (cycleStart lo ca).rev_buf
      (cycleStart lo ca).lo_shift (cycleStart lo ca).ca_shift h0
    rw [acqCycle_eq unitCfg onesCode rx55 sat (cycleStart lo ca) out hout]
    simp only [Option.map_some', h1, h2, h3]
    rfl

/-- A whole pass of the scheduler loop body in the one-sample build with `min_sig = 1`:
satellite 2 is examined on channel 0, its SNR 1 meets the threshold, so it is marked busy
and `ChanStart(0, 2, t_sample, E1B_MODE | 2, -1, 0, 1)` is the one `ChanStart` call. -/
theorem searchTask_body_unit :
    (SearchTask_body unitCfg 1 onesCode exampleEnv exampleSched).map
      (fun r => (chanStarts r.2.1, (r.1.Sats 2).busy, (r.1.Sats 1).busy)) =
    some ([Event.chanStart 0 2 1000 2050 (-1) 0 1], true, false) := by
  have hc := acqCycle_unit 2 0 0
  cases hcyc : acqCycle unitCfg onesCode rx55 2 (cycleStart 0 0) with
  | none => rw [hcyc] at hc; exact absurd hc (by simp)
  | some r =>
    rw [hcyc] at hc
    have hr := Option.some.inj hc
    have h1 : r.2 = 1 := (Prod.mk.inj hr).1
    have h2 : r.1.lo_shift = -1 := (Prod.mk.inj (Prod.mk.inj hr).2).1
    have h3 : r.1.ca_shift = 0 := (Prod.mk.inj (Prod.mk.inj hr).2).2
    have hcyc2 : acqCycle unitCfg onesCode exampleEnv.rx 2 exampleSched.cyc = some (r.1, r.2) :=
      hcyc
    have hb : SearchTask_body unitCfg 1 onesCode exampleEnv exampleSched =
        acquireOn unitCfg 1 onesCode exampleEnv exampleSched 2 0 := rfl
    rw [hb]
    unfold acquireOn
    rw [hcyc2]
    have ht : cTrunc 1 = 1 := by unfold cTrunc; norm_num
    simp [h1, h2, h3, chanStarts, exampleSched, exampleSats, exampleEnv, chanInit, ht]
    decide

/-! ## Theorems: decimation in place -/

/-- C14: for every even length `n` and every input, `DecimateBy2float` run in place (input
and output the same buffer, as the callers do with `fwd_buf`) returns `n/2` and leaves the
same `n/2` output samples as a run with a separate output buffer, namely the filter applied
to the original zero-padded input: the pass for input position `i = 2*o` writes index `o`
after its own reads, `o` never exceeds `i`, and every later pass reads indices `≥ 2*o + 2`
only, so no write lands on an element still to be read. -/
theorem decimate_inplace_eq_separate (n ibase obase : Nat) (mem : Buf) (hn : n % 2 = 0)
    (hdisj : obase + n / 2 ≤ ibase ∨ ibase + n + NTAPS ≤ obase) :
    (DecimateBy2float n ibase ibase mem).2 = n / 2 ∧
    (DecimateBy2float n ibase obase mem).2 = n / 2 ∧
    (∀ o, o < n / 2 →
      (DecimateBy2float n ibase ibase mem).1 (ibase + o) =
        (DecimateBy2float n ibase obase mem).1 (obase + o)) ∧
    (∀ o, o < n / 2 →
      (DecimateBy2float n ibase ibase mem).1 (ibase + o) =
        fullFir (zeroPadded mem ibase n) (2 * o)) ∧
    NoClobber n ibase ibase ∧
    (∀ o, o ≤ 2 * o ∧ ∀ k, 2 * o + 2 ≤ k → ibase + o ≠ ibase + k) := by
  have hsep : NoClobber n ibase obase := by
    intro o k ho hk1 hk2
    unfold NTAPS at hdisj
    omega
  have h1 := (decimate_spec n ibase ibase mem (noClobber_inplace n ibase)).1
  have h2 := (decimate_spec n ibase obase mem hsep).1
  refine ⟨rfl, rfl, ?_, ?_, noClobber_inplace n ibase, ?_⟩
  · intro o ho
    rw [h1 o (by omega), h2 o (by omega)]
  · intro o ho
    exact h1 o (by omega)
  · intro o
    exact ⟨by omega, fun k hk => by omega⟩

theorem decimate_inplace_eq_separate_witness :
    (DecimateBy2float 4 0 0 rampBuf).2 = 4 / 2 ∧
    (DecimateBy2float 4 0 100 rampBuf).2 = 4 / 2 ∧
    (∀ o, o < 4 / 2 →
      (DecimateBy2float 4 0 0 rampBuf).1 (0 + o) = (DecimateBy2float 4 0 100 rampBuf).1 (100 + o)) ∧
    (∀ o, o < 4 / 2 →
      (DecimateBy2float 4 0 0 rampBuf).1 (0 + o) = fullFir (zeroPadded rampBuf 0 4) (2 * o)) ∧
    NoClobber 4 0 0 ∧
    (∀ o, o ≤ 2 * o ∧ ∀ k, 2 * o + 2 ≤ k → 0 + o ≠ 0 + k) :=
  decimate_inplace_eq_separate 4 0 100 rampBuf (by decide) (by decide)

/-! ## Theorems: code-table construction -/

theorem searchInit_decimate_count (D N F : Nat) (fwd : Buf) (d : Buf × Nat)
    (h : SearchInit_decimate D N F fwd = some d) : d.2 = F := by
  unfold SearchInit_decimate at h
  dsimp only at h
  split_ifs at h with h1 h2 h3 h4
  · rw [← Option.some.inj h]; exact h3.2
  · rw [← Option.some.inj h]; exact h4.2

/-- Rows of the code table do not overlap. -/
theorem codeRow_disjoint (F k s : Nat) (j : Int) (h : k ≠ s) (hj0 : 0 ≤ j)
    (hj : j < 2 * (F : Int)) :
    ¬ (codeRow F s ≤ codeRow F k + j ∧ codeRow F k + j < codeRow F s + 2 * (F : Int)) := by
  unfold codeRow
  intro ⟨h1, h2⟩
  have hF : (0 : Int) ≤ 2 * (F : Int) := by omega
  rcases Nat.lt_or_gt_of_ne h with hlt | hgt
  · have hk : (k : Int) + 1 ≤ s := by exact_mod_cast hlt
    have := Int.mul_le_mul_of_nonneg_right hk hF
    have e : ((k : Int) + 1) * (2 * (F : Int)) = (k : Int) * (2 * (F : Int)) + 2 * (F : Int) := by
      ring
    omega
  · have hk : (s : Int) + 1 ≤ k := by exact_mod_cast hgt
    have := Int.mul_le_mul_of_nonneg_right hk hF
    have e : ((s : Int) + 1) * (2 * (F : Int)) = (s : Int) * (2 * (F : Int)) + 2 * (F : Int) := by
      ring
    omega

/-- What the loop body of `SearchInit` does for one satellite: row `sp->sat` ends up
duplicated, with the spectrum of the decimated replica in its first half, and nothing
outside that row changes. -/
theorem searchInit_sat_spec (cfg : Config) (chipAt : Nat → Int) (rate : ℚ) (sp : SATELLITE)
    (st st2 : InitState) (h : SearchInit_sat cfg chipAt rate sp st = some st2) :
    Duplicated cfg.FFT_LEN st2.code sp.sat ∧
    (∀ a, ¬ (codeRow cfg.FFT_LEN sp.sat ≤ a ∧
        a < codeRow cfg.FFT_LEN sp.sat + 2 * (cfg.FFT_LEN : Int)) → st2.code a = st.code a) ∧
    ∃ d, SearchInit_decimate cfg.DECIM cfg.NSAMPLES cfg.FFT_LEN
        (replicaLoop chipAt rate cfg.NSAMPLES cfg.NSAMPLES 0 ⟨st.phase, 0, st.fwd_buf⟩).fwd_buf =
          some d ∧
      ∀ i : Nat, i < cfg.FFT_LEN →
        st2.code (codeRow cfg.FFT_LEN sp.sat + (i : Int)) =
          fftwf_execute cfg.FFT_LEN cfg.fwd_plan d.1 i := by
  unfold SearchInit_sat at h
  dsimp only at h
  cases hd : SearchInit_decimate cfg.DECIM cfg.NSAMPLES cfg.FFT_LEN
      (replicaLoop chipAt rate cfg.NSAMPLES cfg.NSAMPLES 0 ⟨st.phase, 0, st.fwd_buf⟩).fwd_buf with
  | none => rw [hd] at h; exact absurd h (by simp)
  | some d =>
    rw [hd] at h
    dsimp only at h
    have hF := searchInit_decimate_count _ _ _ _ _ hd
    rw [hF] at h
    have hst := (Option.some.inj h).symm
    have hcode : ∀ a, st2.code a =
        memcpyCode (memcpyCode st.code (codeRow cfg.FFT_LEN sp.sat)
          (fftwf_execute cfg.FFT_LEN cfg.fwd_plan d.1) cfg.FFT_LEN)
          (codeRow cfg.FFT_LEN sp.sat + (cfg.FFT_LEN : Int))
          (fftwf_execute cfg.FFT_LEN cfg.fwd_plan d.1) cfg.FFT_LEN a := by
      intro a; rw [hst]
    have hfirst : ∀ i : Nat, i < cfg.FFT_LEN →
        st2.code (codeRow cfg.FFT_LEN sp.sat + (i : Int)) =
          fftwf_execute cfg.FFT_LEN cfg.fwd_plan d.1 i := by
      intro i hi
      rw [hcode]
      unfold memcpyCode
      rw [if_neg (by omega), if_pos (by omega)]
      congr 1
      omega
    have hsecond : ∀ i : Nat, i < cfg.FFT_LEN →
        st2.code (codeRow cfg.FFT_LEN sp.sat + (cfg.FFT_LEN : Int) + (i : Int)) =
          fftwf_execute cfg.FFT_LEN cfg.fwd_plan d.1 i := by
      intro i hi
      rw [hcode]
      unfold memcpyCode
      rw [if_pos (by omega)]
      congr 1
      omega
    refine ⟨?_, ?_, d, rfl, hfirst⟩
    · intro i hi
      rw [hsecond i hi, hfirst i hi]
    · intro a ha
      rw [hcode]
      unfold memcpyCode
      rw [if_neg (by omega), if_neg (by omega)]

/-- A loop body for a satellite other than `k` leaves row `k` as it was. -/
theorem searchInit_sat_other (cfg : Config) (gens : CodeGens) (chipAt : Nat → Int) (rate : ℚ)
    (sp spk : SATELLITE) (st st2 : InitState) (k : Nat) (hk : sp.sat ≠ k)
    (h : SearchInit_sat cfg chipAt rate sp st = some st2) :
    (Duplicated cfg.FFT_LEN st.code k → Duplicated cfg.FFT_LEN st2.code k) ∧
    (HoldsSpectrum cfg gens rate spk st.code k → HoldsSpectrum cfg gens rate spk st2.code k) := by
  obtain ⟨_, hout, _⟩ := searchInit_sat_spec cfg chipAt rate sp st st2 h
  have hrow : ∀ j : Int, 0 ≤ j → j < 2 * (cfg.FFT_LEN : Int) →
      st2.code (codeRow cfg.FFT_LEN k + j) = st.code (codeRow cfg.FFT_LEN k + j) := by
    intro j hj0 hj
    exact hout _ (codeRow_disjoint cfg.FFT_LEN k sp.sat j (Ne.symm hk) hj0 hj)
  constructor
  · intro hdup i hi
    have h1 := hrow ((cfg.FFT_LEN : Int) + (i : Int)) (by omega) (by omega)
    have h2 := hrow (i : Int) (by omega) (by omega)
    rw [← Int.add_assoc] at h1
    rw [h1, h2]
    exact hdup i hi
  · rintro ⟨phase, fwd, d, hd, hval⟩
    refine ⟨phase, fwd, d, hd, ?_⟩
    intro i hi
    rw [hrow (i : Int) (by omega) (by omega)]
    exact hval i hi

/-- Invariant of a satellite loop of `SearchInit` for row `k`, whose table entry is `spk`:
the row is duplicated and holds the spectrum of `spk` once the loop has passed an entry
numbered `k`, and stays so. -/
theorem searchInit_loop_spec (cfg : Config) (gens : CodeGens) (rate : ℚ)
    (sel : SATELLITE → Bool) (gen : SATELLITE → Nat → Int) (k : Nat) (spk : SATELLITE) :
    ∀ (l : List SATELLITE) (st st2 : InitState),
      (∀ sp, sp ∈ l → sel sp = true → sp.sat = k → gen sp = genOf gens spk) →
      SearchInit_loop cfg sel gen rate l st = some st2 →
      ((Duplicated cfg.FFT_LEN st.code k ∧ HoldsSpectrum cfg gens rate spk st.code k) ∨
        ∃ sp, sp ∈ l ∧ sel sp = true ∧ sp.sat = k) →
      Duplicated cfg.FFT_LEN st2.code k ∧ HoldsSpectrum cfg gens rate spk st2.code k := by
  intro l
  induction l with
  | nil =>
    intro st st2 _ h hinv
    rw [SearchInit_loop] at h
    rw [← Option.some.inj h]
    rcases hinv with hi | ⟨sp, hsp, _⟩
    · exact hi
    · exact absurd hsp (List.not_mem_nil sp)
  | cons sp rest ih =>
    intro st st2 hcompat h hinv
    have hcompat2 : ∀ q, q ∈ rest → sel q = true → q.sat = k → gen q = genOf gens spk :=
      fun q hq => hcompat q (List.mem_cons_of_mem sp hq)
    rw [SearchInit_loop] at h
    by_cases hsel : sel sp = true
    · rw [if_pos hsel] at h
      cases hs : SearchInit_sat cfg (gen sp) rate sp st with
      | none => rw [hs] at h; exact absurd h (by simp)
      | some st1 =>
        rw [hs] at h
        dsimp only at h
        by_cases hk : sp.sat = k
        · obtain ⟨hdup, _, d, hd, hval⟩ := searchInit_sat_spec cfg (gen sp) rate sp st st1 hs
          rw [hcompat sp (List.mem_cons_self sp rest) hsel hk] at hd
          rw [hk] at hdup hval
          exact ih st1 st2 hcompat2 h (Or.inl ⟨hdup, st.phase, st.fwd_buf, d, hd, hval⟩)
        · obtain ⟨p1, p2⟩ := searchInit_sat_other cfg gens (gen sp) rate sp spk st st1 k hk hs
          rcases hinv with hi | ⟨q, hq, hqs, hqk⟩
          · exact ih st1 st2 hcompat2 h (Or.inl ⟨p1 hi.1, p2 hi.2⟩)
          · rcases List.mem_cons.mp hq with rfl | hq2
            · exact absurd hqk hk
            · exact ih st1 st2 hcompat2 h (Or.inr ⟨q, hq2, hqs, hqk⟩)
    · rw [if_neg hsel] at h
      rcases hinv with hi | ⟨q, hq, hqs, hqk⟩
      · exact ih st st2 hcompat2 h (Or.inl hi)
      · rcases List.mem_cons.mp hq with rfl | hq2
        · exact absurd hqs hsel
        · exact ih st st2 hcompat2 h (Or.inr ⟨q, hq2, hqs, hqk⟩)

/-- A satellite loop of `SearchInit` keeps every duplicated row duplicated. -/
theorem searchInit_loop_dup (cfg : Config) (rate : ℚ) (sel : SATELLITE → Bool)
    (gen : SATELLITE → Nat → Int) (k : Nat) :
    ∀ (l : List SATELLITE) (st st2 : InitState),
      SearchInit_loop cfg sel gen rate l st = some st2 →
      Duplicated cfg.FFT_LEN st.code k → Duplicated cfg.FFT_LEN st2.code k := by
  intro l
  induction l with
  | nil =>
    intro st st2 h hdup
    rw [SearchInit_loop] at h
    rw [← Option.some.inj h]; exact hdup
  | cons sp rest ih =>
    intro st st2 h hdup
    rw [SearchInit_loop] at h
    by_cases hsel : sel sp = true
    · rw [if_pos hsel] at h
      cases hs : SearchInit_sat cfg (gen sp) rate sp st with
      | none => rw [hs] at h; exact absurd h (by simp)
      | some st1 =>
        rw [hs] at h
        dsimp only at h
        by_cases hk : sp.sat = k
        · have := (searchInit_sat_spec cfg (gen sp) rate sp st st1 hs).1
          rw [hk] at this
          exact ih st1 st2 h this
        · exact ih st1 st2 h
            ((searchInit_sat_other cfg ⟨fun _ _ _ => 0, fun _ _ => 0⟩ (gen sp) rate sp sp st st1 k
              hk hs).1 hdup)
    · rw [if_neg hsel] at h
      exact ih st st2 h hdup

/-- The numbering loop gives entry `j` the number `n + j` and changes nothing else. -/
theorem numberFrom_get (l : List SATELLITE) : ∀ (n j : Nat),
    (numberFrom n l).get? j = (l.get? j).map (fun sp => { sp with sat := n + j }) := by
  induction l with
  | nil => intro n j; simp [numberFrom]
  | cons sp rest ih =>
    intro n j
    cases j with
    | zero => simp [numberFrom]
    | succ j =>
      simp only [numberFrom, List.get?_cons_succ]
      rw [ih (n + 1) j]
      congr 1
      funext q
      congr 1
      omega

theorem numberFrom_length (l : List SATELLITE) : ∀ n, (numberFrom n l).length = l.length := by
  induction l with
  | nil => intro n; rfl
  | cons sp rest ih => intro n; simp [numberFrom, ih]

/-- In the numbered table an entry is found at the position of its number. -/
theorem numberFrom_mem (l : List SATELLITE) (sp : SATELLITE) (h : sp ∈ numberFrom 0 l) :
    (numberFrom 0 l).get? sp.sat = some sp := by
  obtain ⟨j, hj⟩ := List.get?_of_mem h
  have h2 := numberFrom_get l 0 j
  rw [hj] at h2
  cases hl : l.get? j with
  | none => rw [hl] at h2; exact absurd h2 (by simp)
  | some q =>
    rw [hl] at h2
    have : sp = { q with sat := 0 + j } := Option.some.inj h2
    have hs : sp.sat = j := by rw [this]; simp
    rw [hs]; exact hj


theorem searchInit_decimate_returns (cfg : Config) (hc : Consistent cfg) (fwd : Buf) :
    ∃ d, SearchInit_decimate cfg.DECIM cfg.NSAMPLES cfg.FFT_LEN fwd = some d := by
  rcases hc.2 with ⟨h1, h2⟩ | ⟨k, hk, h1, h2⟩
  · unfold SearchInit_decimate
    dsimp only
    rw [if_neg (by rw [h1]; simp), if_pos ⟨by rw [h1, Nat.div_one], h2⟩]
    exact ⟨_, rfl⟩
  · obtain ⟨d, hd, _⟩ := searchInit_decimate_pow k cfg.FFT_LEN hk fwd
    rw [h1, h2]
    exact ⟨d, hd⟩

theorem searchInit_loop_returns (cfg : Config) (hc : Consistent cfg) (rate : ℚ)
    (sel : SATELLITE → Bool) (gen : SATELLITE → Nat → Int) :
    ∀ (l : List SATELLITE) (st : InitState),
      ∃ st2, SearchInit_loop cfg sel gen rate l st = some st2 := by
  intro l
  induction l with
  | nil => intro st; exact ⟨st, rfl⟩
  | cons sp rest ih =>
    intro st
    rw [SearchInit_loop]
    by_cases hsel : sel sp = true
    · rw [if_pos hsel]
      obtain ⟨d, hd⟩ := searchInit_decimate_returns cfg hc
        (replicaLoop (gen sp) rate cfg.NSAMPLES cfg.NSAMPLES 0 ⟨st.phase, 0, st.fwd_buf⟩).fwd_buf
      have : ∃ st1, SearchInit_sat cfg (gen sp) rate sp st = some st1 := by
        unfold SearchInit_sat
        dsimp only
        rw [hd]
        exact ⟨_, rfl⟩
      obtain ⟨st1, hs⟩ := this
      rw [hs]
      exact ih st1
    · rw [if_neg hsel]
      exact ih st

/-- In a consistent build with room for the table, `SearchInit` completes. -/
theorem searchInit_returns (cfg : Config) (hc : Consistent cfg) (gens : CodeGens) (CPS : ℚ)
    (MAX_SATS : Nat) (Sats : List SATELLITE) (code : Int → Cplx) (fwd_buf : Buf)
    (hcap : Sats.length < MAX_SATS) :
    (SearchInit cfg gens CPS MAX_SATS Sats code fwd_buf).isSome = true := by
  unfold SearchInit
  dsimp only
  rw [if_neg (by omega)]
  obtain ⟨st1, h1⟩ := searchInit_loop_returns cfg hc (CPS / cfg.FS)
    (fun sp => decide (¬ (sp.type ≠ SatType.Navstar ∧ sp.type ≠ SatType.QZSS)))
    (fun sp => gens.caChip sp.T1 sp.T2) (numberFrom 0 Sats) ⟨code, fwd_buf, 0⟩
  rw [h1]
  dsimp only
  obtain ⟨st2, h2⟩ := searchInit_loop_returns cfg hc (CPS / cfg.FS)
    (fun sp => decide (¬ (sp.type ≠ SatType.E1B)))
    (fun sp => gens.e1bChip sp.prn) (numberFrom 0 Sats) { st1 with phase := 0 }
  rw [h2]
  rfl

/-- After `SearchInit`, the row of every satellite of the table is duplicated and holds the
spectrum of that satellite, and every row that was duplicated before still is. -/
theorem searchInit_rows (cfg : Config) (gens : CodeGens) (CPS : ℚ) (MAX_SATS : Nat)
    (Sats : List SATELLITE) (code : Int → Cplx) (fwd_buf : Buf)
    (hret : (SearchInit cfg gens CPS MAX_SATS Sats code fwd_buf).isSome = true) :
    ∃ st, SearchInit cfg gens CPS MAX_SATS Sats code fwd_buf = some (numberFrom 0 Sats, st) ∧
      (∀ sat, sat < Sats.length →
        Duplicated cfg.FFT_LEN st.code sat ∧
        ∃ sp, (numberFrom 0 Sats).get? sat = some sp ∧ sp.sat = sat ∧
          HoldsSpectrum cfg gens (CPS / cfg.FS) sp st.code sat) ∧
      (∀ sat, Duplicated cfg.FFT_LEN code sat → Duplicated cfg.FFT_LEN st.code sat) := by
  unfold SearchInit at hret ⊢
  dsimp only at hret ⊢
  by_cases hcap : Sats.length ≥ MAX_SATS
  · rw [if_pos hcap] at hret; exact absurd hret (by simp)
  rw [if_neg hcap] at hret ⊢
  cases h1 : SearchInit_loop cfg
      (fun sp => decide (¬ (sp.type ≠ SatType.Navstar ∧ sp.type ≠ SatType.QZSS)))
      (fun sp => gens.caChip sp.T1 sp.T2) (CPS / cfg.FS) (numberFrom 0 Sats)
      ⟨code, fwd_buf, 0⟩ with
  | none => rw [h1] at hret; exact absurd hret (by simp)
  | some st1 =>
    rw [h1] at hret
    dsimp only at hret ⊢
    cases h2 : SearchInit_loop cfg (fun sp => decide (¬ (sp.type ≠ SatType.E1B)))
        (fun sp => gens.e1bChip sp.prn) (CPS / cfg.FS) (numberFrom 0 Sats)
        { st1 with phase := 0 } with
    | none => rw [h2] at hret; exact absurd hret (by simp)
    | some st2 =>
      refine ⟨st2, rfl, ?_, ?_⟩
      · intro sat hsat
        have hlen : sat < (numberFrom 0 Sats).length := by rw [numberFrom_length]; exact hsat
        obtain ⟨spk, hspk⟩ : ∃ spk, (numberFrom 0 Sats).get? sat = some spk :=
          ⟨_, List.get?_eq_get hlen⟩
        have hmem : spk ∈ numberFrom 0 Sats := List.get?_mem hspk
        have hnum : spk.sat = sat := by
          have := numberFrom_mem Sats spk hmem
          have h3 := numberFrom_get Sats 0 sat
          rw [hspk] at h3
          cases hl : Sats.get? sat with
          | none => rw [hl] at h3; exact absurd h3 (by simp)
          | some q =>
            rw [hl] at h3
            have : spk = { q with sat := 0 + sat } := Option.some.inj h3
            rw [this]; simp
        have huniq : ∀ sp, sp ∈ numberFrom 0 Sats → sp.sat = sat → sp = spk := by
          intro sp hsp hs
          have := numberFrom_mem Sats sp hsp
          rw [hs, hspk] at this
          exact (Option.some.inj this).symm
        have hc1 : ∀ sp, sp ∈ numberFrom 0 Sats →
            decide (¬ (sp.type ≠ SatType.Navstar ∧ sp.type ≠ SatType.QZSS)) = true →
            sp.sat = sat → (fun sp => gens.caChip sp.T1 sp.T2) sp = genOf gens spk := by
          intro sp hsp hsel hs
          rw [huniq sp hsp hs] at hsel ⊢
          unfold genOf
          cases ht : spk.type <;> simp [ht] at hsel ⊢
        have hc2 : ∀ sp, sp ∈ numberFrom 0 Sats →
            decide (¬ (sp.type ≠ SatType.E1B)) = true →
            sp.sat = sat → (fun sp => gens.e1bChip sp.prn) sp = genOf gens spk := by
          intro sp hsp hsel hs
          rw [huniq sp hsp hs] at hsel ⊢
          unfold genOf
          cases ht : spk.type <;> simp [ht] at hsel ⊢
        have hinv : Duplicated cfg.FFT_LEN st2.code sat ∧
            HoldsSpectrum cfg gens (CPS / cfg.FS) spk st2.code sat := by
          by_cases hE : spk.type = SatType.E1B
          · exact searchInit_loop_spec cfg gens (CPS / cfg.FS) _ _ sat spk _ _ _ hc2 h2
              (Or.inr ⟨spk, hmem, by simp [hE], hnum⟩)
          · have hsel1 : decide (¬ (spk.type ≠ SatType.Navstar ∧ spk.type ≠ SatType.QZSS)) =
                true := by
              cases ht : spk.type <;> simp [ht] at hE ⊢
            have i1 := searchInit_loop_spec cfg gens (CPS / cfg.FS) _ _ sat spk _ _ _ hc1 h1
              (Or.inr ⟨spk, hmem, hsel1, hnum⟩)
            exact searchInit_loop_spec cfg gens (CPS / cfg.FS) _ _ sat spk _ _ _ hc2 h2
              (Or.inl i1)
        exact ⟨hinv.1, spk, hspk, hnum, hinv.2⟩
      · intro sat hdup
        have d1 := searchInit_loop_dup cfg (CPS / cfg.FS) _ _ sat _ _ _ h1 hdup
        exact searchInit_loop_dup cfg (CPS / cfg.FS) _ _ sat _ _ _ h2 d1

theorem zeroCode_duplicated (F sat : Nat) : Duplicated F zeroCode sat := fun _ _ => rfl

/-- C11: whenever `SearchInit` completes (no assertion fails), whatever the transform
function is, the row of every satellite of the table satisfies
`code[sat][i + FFT_LEN] = code[sat][i]` for every `i < FFT_LEN`, its first half being the
forward transform of that satellite's decimated replica; every other row is left duplicated
if it was, so that from zero-initialised static storage every slot of the code table is
duplicated. -/
theorem searchInit_code_duplicated (cfg : Config) (gens : CodeGens) (CPS : ℚ) (MAX_SATS : Nat)
    (Sats : List SATELLITE) (code : Int → Cplx) (fwd_buf : Buf)
    (hret : (SearchInit cfg gens CPS MAX_SATS Sats code fwd_buf).isSome = true) :
    ∃ st, SearchInit cfg gens CPS MAX_SATS Sats code fwd_buf = some (numberFrom 0 Sats, st) ∧
      (∀ sat, sat < Sats.length →
        (∀ i : Nat, i < cfg.FFT_LEN →
          st.code (codeRow cfg.FFT_LEN sat + (cfg.FFT_LEN : Int) + (i : Int)) =
            st.code (codeRow cfg.FFT_LEN sat + (i : Int))) ∧
        ∃ sp, (numberFrom 0 Sats).get? sat = some sp ∧ sp.sat = sat ∧
          HoldsSpectrum cfg gens (CPS / cfg.FS) sp st.code sat) ∧
      (∀ sat, Duplicated cfg.FFT_LEN code sat → Duplicated cfg.FFT_LEN st.code sat) ∧
      ((∀ a, code a = (0, 0)) → ∀ sat, Duplicated cfg.FFT_LEN st.code sat) := by
  obtain ⟨st, hst, hrows, hkeep⟩ := searchInit_rows cfg gens CPS MAX_SATS Sats code fwd_buf hret
  refine ⟨st, hst, ?_, hkeep, ?_⟩
  · intro sat hsat
    obtain ⟨hdup, hsp⟩ := hrows sat hsat
    exact ⟨hdup, hsp⟩
  · intro hzero sat
    apply hkeep
    intro i _
    rw [hzero, hzero]

theorem searchInit_code_duplicated_witness :
    ∃ st, SearchInit exampleCfg exampleGens 1 8 exampleTable zeroCode rampBuf =
        some (numberFrom 0 exampleTable, st) ∧
      (∀ sat, sat < exampleTable.length →
        (∀ i : Nat, i < exampleCfg.FFT_LEN →
          st.code (codeRow exampleCfg.FFT_LEN sat + (exampleCfg.FFT_LEN : Int) + (i : Int)) =
            st.code (codeRow exampleCfg.FFT_LEN sat + (i : Int))) ∧
        ∃ sp, (numberFrom 0 exampleTable).get? sat = some sp ∧ sp.sat = sat ∧
          HoldsSpectrum exampleCfg exampleGens (1 / exampleCfg.FS) sp st.code sat) ∧
      (∀ sat, Duplicated exampleCfg.FFT_LEN zeroCode sat →
        Duplicated exampleCfg.FFT_LEN st.code sat) ∧
      ((∀ a, zeroCode a = (0, 0)) → ∀ sat, Duplicated exampleCfg.FFT_LEN st.code sat) :=
  searchInit_code_duplicated exampleCfg exampleGens 1 8 exampleTable zeroCode rampBuf
    (searchInit_returns exampleCfg exampleCfg_consistent exampleGens 1 8 exampleTable zeroCode
      rampBuf (by decide))

/-! ## Theorems: which satellites a pass acts on -/

/-- A pass that gets as far as the channel request acts on an entry that is not busy; and
unless a restart is pending that entry is E1B, provided a pending resume point is. -/
theorem searchTask_selected (cfg : Config) (min_sig : Int) (code : Int → Cplx) (env : IterEnv)
    (s s2 : SchedState) (evs : List Event) (out : Outcome)
    (h : SearchTask_body cfg min_sig code env s = some (s2, evs, out))
    (h1 : out ≠ Outcome.skipType) (h2 : out ≠ Outcome.skipBusy) :
    ((redirect s).1.Sats (redirect s).1.sp).busy = false ∧
    (s.searchRestart = 0 →
      (s.searchResume ≠ 0 → (s.Sats (s.searchResume - 1)).type = SatType.E1B) →
      ((redirect s).1.Sats (redirect s).1.sp).type = SatType.E1B) := by
  unfold SearchTask_body at h
  by_cases ht : (s.Sats s.sp).type ≠ SatType.E1B
  · rw [if_pos ht] at h
    exact absurd (Prod.mk.inj (Prod.mk.inj (Option.some.inj h)).2).2.symm h1
  · rw [if_neg ht] at h
    dsimp only at h
    by_cases hb : ((redirect s).1.Sats (redirect s).1.sp).busy = true
    · rw [if_pos hb] at h
      exact absurd (Prod.mk.inj (Prod.mk.inj (Option.some.inj h)).2).2.symm h2
    · refine ⟨by simpa using hb, ?_⟩
      intro hr hres
      unfold redirect
      dsimp only
      rw [if_neg (by simp [hr])]
      by_cases hq : s.searchResume ≠ 0
      · rw [if_pos hq]
        exact hres hq
      · rw [if_neg hq]
        simpa using ht

/-- Why it matters which satellites `SearchEnable` is called for: on a table whose entry 0 is
a GPS (Navstar) satellite, were `SearchEnable(0, 0, true)` called (for a satellite the
scheduler never handed to tracking), a pass entered at the E1B iteration point 2 would
examine satellite 0: in the one-sample build with `min_sig = 1` it is granted channel 0,
correlation gives SNR 1, satellite 0 is marked busy and
`ChanStart(0, 0, t_sample, (T1<<4)+T2, -1, 0, 1)` is called.  The constellation test is
made on the iteration point only, before the redirection. -/
theorem restart_for_untracked_satellite :
    (mixedSats 0).type = SatType.Navstar ∧
    (SearchEnable 0 0 true (mixedSched 2 0)).searchRestart = 1 ∧
    examined (SearchEnable 0 0 true (mixedSched 2 0)) = some 0 ∧
    (SearchTask_body unitCfg 1 onesCode exampleEnv (SearchEnable 0 0 true (mixedSched 2 0))).map
      (fun r => (chanStarts r.2.1, (r.1.Sats 0).busy, (r.1.Sats 0).type)) =
    some ([Event.chanStart 0 0 1000 25 (-1) 0 1], true, SatType.Navstar) := by
  refine ⟨rfl, rfl, rfl, ?_⟩
  have hc := acqCycle_unit 0 0 0
  cases hcyc : acqCycle unitCfg onesCode rx55 0 (cycleStart 0 0) with
  | none => rw [hcyc] at hc; exact absurd hc (by simp)
  | some r =>
    rw [hcyc] at hc
    have hr := Option.some.inj hc
    have h1 : r.2 = 1 := (Prod.mk.inj hr).1
    have h2 : r.1.lo_shift = -1 := (Prod.mk.inj (Prod.mk.inj hr).2).1
    have h3 : r.1.ca_shift = 0 := (Prod.mk.inj (Prod.mk.inj hr).2).2
    have hcyc2 : acqCycle unitCfg onesCode exampleEnv.rx 0
        (redirect (SearchEnable 0 0 true (mixedSched 2 0))).1.cyc = some (r.1, r.2) := hcyc
    have hb : SearchTask_body unitCfg 1 onesCode exampleEnv (SearchEnable 0 0 true (mixedSched 2 0)) =
        acquireOn unitCfg 1 onesCode exampleEnv
          (redirect (SearchEnable 0 0 true (mixedSched 2 0))).1 0 0 := rfl
    rw [hb]
    unfold acquireOn
    rw [hcyc2]
    have ht : cTrunc 1 = 1 := by unfold cTrunc; norm_num
    simp [h1, h2, h3, chanStarts, redirect, SearchEnable, mixedSched, mixedSats, exampleEnv,
      chanInit, ht]
    decide

/-! ## Theorems: restart and resume -/

/-- What `SearchEnable` changes. -/
theorem searchEnable_spec (ch : Int) (r : Nat) (restart : Bool) (s : SchedState) :
    ((SearchEnable ch r restart s).Sats r).busy = false ∧
    (∀ k, k ≠ r → (SearchEnable ch r restart s).Sats k = s.Sats k) ∧
    (restart = true → (SearchEnable ch r restart s).searchRestart = r + 1) ∧
    (restart = false → (SearchEnable ch r restart s).searchRestart = s.searchRestart) ∧
    (SearchEnable ch r restart s).searchResume = s.searchResume ∧
    (SearchEnable ch r restart s).sp = s.sp := by
  unfold SearchEnable
  refine ⟨?_, ?_, ?_, ?_, rfl, rfl⟩
  · simp
  · intro k hk
    exact Function.update_noteq hk _ _
  · intro h; simp [h]
  · intro h; simp [h]

/-- The statics a table entry never changes: everything but `busy`. -/
theorem acquireOn_ctl (cfg : Config) (min_sig : Int) (code : Int → Cplx) (env : IterEnv)
    (s s2 : SchedState) (sat : Nat) (ch : Int) (evs : List Event) (out : Outcome)
    (h : acquireOn cfg min_sig code env s sat ch = some (s2, evs, out)) :
    (∀ k, (s2.Sats k).prn = (s.Sats k).prn ∧ (s2.Sats k).type = (s.Sats k).type ∧
      (s2.Sats k).sat = (s.Sats k).sat) ∧
    s2.sp = s.sp ∧ s2.searchRestart = s.searchRestart ∧ s2.searchResume = s.searchResume := by
  unfold acquireOn at h
  dsimp only at h
  cases hc : acqCycle cfg code env.rx sat s.cyc with
  | none => rw [hc] at h; exact absurd h (by simp)
  | some r =>
    rw [hc] at h
    dsimp only at h
    by_cases hlow : r.2 < (min_sig : ℚ)
    · rw [if_pos hlow] at h
      have := (Prod.mk.inj (Option.some.inj h)).1
      rw [← this]
      exact ⟨fun k => ⟨rfl, rfl, rfl⟩, rfl, rfl, rfl⟩
    · rw [if_neg hlow] at h
      have := (Prod.mk.inj (Option.some.inj h)).1
      rw [← this]
      refine ⟨?_, rfl, rfl, rfl⟩
      intro k
      dsimp only
      by_cases hk : k = s.sp
      · subst hk
        rw [Function.update_same]
        exact ⟨rfl, rfl, rfl⟩
      · rw [Function.update_noteq hk]
        exact ⟨rfl, rfl, rfl⟩

theorem redirect_Sats (s : SchedState) : (redirect s).1.Sats = s.Sats := by
  unfold redirect
  dsimp only
  split_ifs <;> rfl

/-- A pass of the loop body changes the scheduling statics only through the redirection,
and changes no table field other than `busy`; at an iteration point that fails the
constellation test it changes nothing at all. -/
theorem searchTask_body_ctl (cfg : Config) (min_sig : Int) (code : Int → Cplx) (env : IterEnv)
    (s s2 : SchedState) (evs : List Event) (out : Outcome)
    (h : SearchTask_body cfg min_sig code env s = some (s2, evs, out)) :
    (∀ k, (s2.Sats k).prn = (s.Sats k).prn ∧ (s2.Sats k).type = (s.Sats k).type ∧
      (s2.Sats k).sat = (s.Sats k).sat) ∧
    ((s.Sats s.sp).type ≠ SatType.E1B → s2 = s ∧ evs = [] ∧ out = Outcome.skipType) ∧
    ((s.Sats s.sp).type = SatType.E1B →
      s2.sp = (redirect s).1.sp ∧ s2.searchRestart = (redirect s).1.searchRestart ∧
      s2.searchResume = (redirect s).1.searchResume) := by
  unfold SearchTask_body at h
  by_cases ht : (s.Sats s.sp).type ≠ SatType.E1B
  · rw [if_pos ht] at h
    have e := Option.some.inj h
    have e1 : s = s2 := (Prod.mk.inj e).1
    have e2 : [] = evs := (Prod.mk.inj (Prod.mk.inj e).2).1
    have e3 : Outcome.skipType = out := (Prod.mk.inj (Prod.mk.inj e).2).2
    subst e1
    exact ⟨fun k => ⟨rfl, rfl, rfl⟩, fun _ => ⟨rfl, e2.symm, e3.symm⟩, fun h2 => absurd h2 ht⟩
  · rw [if_neg ht] at h
    dsimp only at h
    have hS := redirect_Sats s
    refine ⟨?_, fun h2 => absurd h2 ht, fun _ => ?_⟩
    · by_cases hb : ((redirect s).1.Sats (redirect s).1.sp).busy = true
      · rw [if_pos hb] at h
        rw [← (Prod.mk.inj (Option.some.inj h)).1, hS]
        exact fun k => ⟨rfl, rfl, rfl⟩
      · rw [if_neg hb] at h
        cases hr : requestChannel cfg env.chanReset with
        | none => rw [hr] at h; exact absurd h (by simp)
        | some ch =>
          rw [hr] at h
          dsimp only at h
          by_cases hneg : ch < 0
          · rw [if_pos hneg] at h
            rw [← (Prod.mk.inj (Option.some.inj h)).1, hS]
            exact fun k => ⟨rfl, rfl, rfl⟩
          · rw [if_neg hneg] at h
            have := (acquireOn_ctl cfg min_sig code env _ _ _ _ _ _ h).1
            rw [hS] at this
            exact this
    · by_cases hb : ((redirect s).1.Sats (redirect s).1.sp).busy = true
      · rw [if_pos hb] at h
        rw [← (Prod.mk.inj (Option.some.inj h)).1]
        exact ⟨rfl, rfl, rfl⟩
      · rw [if_neg hb] at h
        cases hr : requestChannel cfg env.chanReset with
        | none => rw [hr] at h; exact absurd h (by simp)
        | some ch =>
          rw [hr] at h
          dsimp only at h
          by_cases hneg : ch < 0
          · rw [if_pos hneg] at h
            rw [← (Prod.mk.inj (Option.some.inj h)).1]
            exact ⟨rfl, rfl, rfl⟩
          · rw [if_neg hneg] at h
            exact (acquireOn_ctl cfg min_sig code env _ _ _ _ _ _ h).2

theorem advance_congr (S S2 : Nat → SATELLITE) (h : ∀ k, (S2 k).prn = (S k).prn) (sp : Nat) :
    advance S2 sp = advance S sp := by
  unfold advance
  rw [h]


/-- What a pass does to the scheduling statics, with the move to the next iteration
point. -/
theorem searchTask_pass_ctl (cfg : Config) (min_sig : Int) (code : Int → Cplx) (env : IterEnv)
    (s : SchedState) (r : SchedState × List Event × Outcome)
    (h : SearchTask_pass cfg min_sig code env s = some r) :
    SameTable s.Sats r.1.Sats ∧
    ((s.Sats s.sp).type ≠ SatType.E1B →
      r.1.sp = advance s.Sats s.sp ∧ r.1.searchRestart = s.searchRestart ∧
      r.1.searchResume = s.searchResume) ∧
    ((s.Sats s.sp).type = SatType.E1B →
      r.1.sp = advance s.Sats (redirect s).1.sp ∧
      r.1.searchRestart = (redirect s).1.searchRestart ∧
      r.1.searchResume = (redirect s).1.searchResume) := by
  unfold SearchTask_pass at h
  cases hb : SearchTask_body cfg min_sig code env s with
  | none => rw [hb] at h; exact absurd h (by simp)
  | some b =>
    rw [hb] at h
    have hr : r = ({ b.1 with sp := advance b.1.Sats b.1.sp }, b.2) :=
      (Option.some.inj h).symm
    obtain ⟨hT, h1, h2⟩ := searchTask_body_ctl cfg min_sig code env s b.1 b.2.1 b.2.2 hb
    have hadv : ∀ q, advance b.1.Sats q = advance s.Sats q :=
      fun q => advance_congr s.Sats b.1.Sats (fun k => (hT k).1) q
    rw [hr]
    refine ⟨hT, ?_, ?_⟩
    · intro ht
      obtain ⟨e, _, _⟩ := h1 ht
      dsimp only
      rw [hadv, e]
      exact ⟨rfl, rfl, rfl⟩
    · intro ht
      obtain ⟨e1, e2, e3⟩ := h2 ht
      dsimp only
      rw [hadv, e1]
      exact ⟨rfl, e2, e3⟩

theorem sameTable_trans (S S2 S3 : Nat → SATELLITE) (h1 : SameTable S S2)
    (h2 : SameTable S2 S3) : SameTable S S3 := by
  intro k
  obtain ⟨a, b, c⟩ := h1 k
  obtain ⟨a2, b2, c2⟩ := h2 k
  exact ⟨by rw [a2, a], by rw [b2, b], by rw [c2, c]⟩

/-- With no restart pending and the resume point `p` saved, the first later pass that
passes the constellation test examines `p`, leaves nothing pending and moves on to the
entry after `p`. -/
theorem resume_run (cfg : Config) (min_sig : Int) (code : Int → Cplx) (S : Nat → SATELLITE)
    (p : Nat) :
    ∀ (envs : List IterEnv) (s : SchedState) (tr : List (Option Nat × SchedState)),
      SameTable S s.Sats → s.searchRestart = 0 → s.searchResume = p + 1 →
      SearchTask_run cfg min_sig code envs s = some tr →
      ∀ e, tr.find? (fun e => e.1.isSome) = some e →
        e.1 = some p ∧ e.2.searchRestart = 0 ∧ e.2.searchResume = 0 ∧ e.2.sp = advance S p := by
  intro envs
  induction envs with
  | nil =>
    intro s tr _ _ _ hrun e he
    rw [SearchTask_run] at hrun
    rw [← Option.some.inj hrun] at he
    simp at he
  | cons env rest ih =>
    intro s tr hT hr0 hres hrun e he
    rw [SearchTask_run] at hrun
    cases hp : SearchTask_pass cfg min_sig code env s with
    | none => rw [hp] at hrun; exact absurd hrun (by simp)
    | some r =>
      rw [hp] at hrun
      dsimp only at hrun
      cases hrest : SearchTask_run cfg min_sig code rest r.1 with
      | none => rw [hrest] at hrun; exact absurd hrun (by simp)
      | some tr2 =>
        rw [hrest] at hrun
        have htr : tr = (examined s, r.1) :: tr2 := (Option.some.inj hrun).symm
        obtain ⟨hT2, c1, c2⟩ := searchTask_pass_ctl cfg min_sig code env s r hp
        have hadv : ∀ q, advance s.Sats q = advance S q :=
          fun q => advance_congr S s.Sats (fun k => (hT k).1) q
        rw [htr] at he
        by_cases ht : (s.Sats s.sp).type ≠ SatType.E1B
        · have hex : examined s = none := by unfold examined; rw [if_pos ht]
          rw [hex] at he
          simp only [List.find?_cons, Option.isSome_none] at he
          obtain ⟨_, e2, e3⟩ := c1 ht
          exact ih r.1 tr2 (sameTable_trans S s.Sats r.1.Sats hT hT2) (by rw [e2, hr0])
            (by rw [e3, hres]) hrest e he
        · have ht2 : (s.Sats s.sp).type = SatType.E1B := not_not.mp ht
          have hred : redirect s = ({ s with sp := p, searchResume := 0 }, p) := by
            unfold redirect
            dsimp only
            rw [if_neg (by simp [hr0]), if_pos (by rw [hres]; omega), hres]
            simp
          have hex : examined s = some p := by
            unfold examined; rw [if_neg ht, hred]
          rw [hex] at he
          simp only [List.find?_cons, Option.isSome_some] at he
          rw [← Option.some.inj he]
          obtain ⟨e1, e2, e3⟩ := c2 ht2
          rw [hred] at e1 e2 e3
          dsimp only at e1 e2 e3
          exact ⟨rfl, by rw [e2, hr0], e3, by rw [e1, hadv]⟩


/-- In a consistent build a pass of the loop body ends whenever the channel request
does. -/
theorem searchTask_body_returns (cfg : Config) (min_sig : Int) (code : Int → Cplx)
    (env : IterEnv) (s : SchedState) (hc : Consistent cfg)
    (hg : (requestChannel cfg env.chanReset).isSome = true) :
    (SearchTask_body cfg min_sig code env s).isSome = true := by
  unfold SearchTask_body
  by_cases ht : (s.Sats s.sp).type ≠ SatType.E1B
  · rw [if_pos ht]; rfl
  · rw [if_neg ht]
    dsimp only
    by_cases hb : ((redirect s).1.Sats (redirect s).1.sp).busy = true
    · rw [if_pos hb]; rfl
    · rw [if_neg hb]
      obtain ⟨ch, hch⟩ := Option.isSome_iff_exists.mp hg
      rw [hch]
      dsimp only
      by_cases hneg : ch < 0
      · rw [if_pos hneg]; rfl
      · rw [if_neg hneg]
        obtain ⟨r, hr⟩ := Option.isSome_iff_exists.mp
          (acqCycle_returns cfg code env.rx (redirect s).2 (redirect s).1.cyc hc)
        unfold acquireOn
        rw [hr]
        dsimp only
        split_ifs <;> rfl

theorem searchTask_run_returns (cfg : Config) (min_sig : Int) (code : Int → Cplx)
    (hc : Consistent cfg) :
    ∀ (envs : List IterEnv) (s : SchedState),
      (∀ env, env ∈ envs → (requestChannel cfg env.chanReset).isSome = true) →
      (SearchTask_run cfg min_sig code envs s).isSome = true := by
  intro envs
  induction envs with
  | nil => intro s _; rfl
  | cons env rest ih =>
    intro s hg
    rw [SearchTask_run]
    obtain ⟨b, hb⟩ := Option.isSome_iff_exists.mp
      (searchTask_body_returns cfg min_sig code env s hc (hg env (List.mem_cons_self env rest)))
    have hp : SearchTask_pass cfg min_sig code env s =
        some ({ b.1 with sp := advance b.1.Sats b.1.sp }, b.2) := by
      unfold SearchTask_pass; rw [hb]; rfl
    rw [hp]
    dsimp only
    obtain ⟨tr, htr⟩ := Option.isSome_iff_exists.mp
      (ih { b.1 with sp := advance b.1.Sats b.1.sp }
        (fun e he => hg e (List.mem_cons_of_mem env he)))
    rw [htr]
    rfl

/-- The move to the next iteration point on a table that ends at entry `n`: the next
entry, or entry 0 after the last one. -/
theorem advance_sentinel (S : Nat → SATELLITE) (n j : Nat) (hs : SentinelAt S n) (hj : j < n) :
    advance S j = if j + 1 < n then j + 1 else 0 := by
  unfold advance
  by_cases h : j + 1 < n
  · rw [if_pos (hs.1 (j + 1) h), if_pos h]
  · have e : j + 1 = n := by omega
    rw [if_neg h, e, if_neg (by rw [hs.2]; simp)]

/-- On a table that ends at entry `n` and has an E1B satellite in entry `p`, a run of more
passes than the distance from the iteration point round to `p` has a pass that passes the
constellation test. -/
theorem run_finds (cfg : Config) (min_sig : Int) (code : Int → Cplx) (S : Nat → SATELLITE)
    (n p : Nat) (hs : SentinelAt S n) (hp : p < n) (hpt : (S p).type = SatType.E1B) :
    ∀ (envs : List IterEnv) (s : SchedState) (tr : List (Option Nat × SchedState)),
      SameTable S s.Sats → s.sp < n →
      (if s.sp ≤ p then p - s.sp else p + n - s.sp) < envs.length →
      SearchTask_run cfg min_sig code envs s = some tr →
      (tr.find? (fun e => e.1.isSome)).isSome = true := by
  intro envs
  induction envs with
  | nil =>
    intro s tr _ _ hd _
    simp at hd
  | cons env rest ih =>
    intro s tr hT hsp hd hrun
    rw [SearchTask_run] at hrun
    cases hpass : SearchTask_pass cfg min_sig code env s with
    | none => rw [hpass] at hrun; exact absurd hrun (by simp)
    | some r =>
      rw [hpass] at hrun
      dsimp only at hrun
      cases hrest : SearchTask_run cfg min_sig code rest r.1 with
      | none => rw [hrest] at hrun; exact absurd hrun (by simp)
      | some tr2 =>
        rw [hrest] at hrun
        have htr : tr = (examined s, r.1) :: tr2 := (Option.some.inj hrun).symm
        obtain ⟨hT2, c1, _⟩ := searchTask_pass_ctl cfg min_sig code env s r hpass
        rw [htr]
        by_cases ht : (s.Sats s.sp).type ≠ SatType.E1B
        · have hex : examined s = none := by unfold examined; rw [if_pos ht]
          rw [hex]
          simp only [List.find?_cons, Option.isSome_none]
          obtain ⟨e1, _, _⟩ := c1 ht
          have hne : s.sp ≠ p := by
            intro e
            rw [e, (hT p).2.1] at ht
            exact ht hpt
          have hadv : advance s.Sats s.sp = advance S s.sp :=
            advance_congr S s.Sats (fun k => (hT k).1) s.sp
          rw [hadv, advance_sentinel S n s.sp hs hsp] at e1
          simp only [List.length_cons] at hd
          refine ih r.1 tr2 (sameTable_trans S s.Sats r.1.Sats hT hT2) ?_ ?_ hrest
          · rw [e1]; split_ifs <;> omega
          · rw [e1]; split_ifs at hd ⊢ <;> omega
        · have hex : (examined s).isSome = true := by
            unfold examined; rw [if_neg ht]; rfl
          simp only [List.find?_cons, hex]
          rfl

/-- A restart pending at an iteration point that passes the constellation test: the pass
examines the requested satellite, saves the iteration point and clears the request; the
first later pass that passes the test examines the saved point and leaves nothing
pending. -/
theorem restart_run (cfg : Config) (min_sig : Int) (code : Int → Cplx) (env : IterEnv)
    (envs : List IterEnv) (s : SchedState) (r : Nat) (hnum : Numbered s.Sats)
    (htype : (s.Sats s.sp).type = SatType.E1B) (hrestart : s.searchRestart = r + 1)
    (hret : (SearchTask_run cfg min_sig code (env :: envs) s).isSome = true) :
    ∃ s1 rest, SearchTask_run cfg min_sig code (env :: envs) s = some ((some r, s1) :: rest) ∧
      s1.searchRestart = 0 ∧ s1.searchResume = s.sp + 1 ∧ s1.sp = advance s.Sats r ∧
      (∀ e, rest.find? (fun e => e.1.isSome) = some e →
        e.1 = some s.sp ∧ e.2.searchRestart = 0 ∧ e.2.searchResume = 0 ∧
        e.2.sp = advance s.Sats s.sp) ∧
      (∀ n, SentinelAt s.Sats n → s.sp < n → r < n → n ≤ envs.length →
        (rest.find? (fun e => e.1.isSome)).isSome = true) := by
  obtain ⟨tr, htr⟩ := Option.isSome_iff_exists.mp hret
  have hrun := htr
  rw [SearchTask_run] at hrun
  cases hp : SearchTask_pass cfg min_sig code env s with
  | none => rw [hp] at hrun; exact absurd hrun (by simp)
  | some p =>
    rw [hp] at hrun
    dsimp only at hrun
    cases hrest : SearchTask_run cfg min_sig code envs p.1 with
    | none => rw [hrest] at hrun; exact absurd hrun (by simp)
    | some tr2 =>
      rw [hrest] at hrun
      have htr2 : tr = (examined s, p.1) :: tr2 := (Option.some.inj hrun).symm
      obtain ⟨hT, _, c2⟩ := searchTask_pass_ctl cfg min_sig code env s p hp
      have hred : redirect s =
          ({ s with searchResume := s.sp + 1, sp := r, searchRestart := 0 }, r) := by
        unfold redirect
        dsimp only
        rw [if_pos (by rw [hrestart]; omega), hrestart, hnum s.sp]
        simp
      have hex : examined s = some r := by
        unfold examined; rw [if_neg (by rw [htype]; simp), hred]
      obtain ⟨e1, e2, e3⟩ := c2 htype
      rw [hred] at e1 e2 e3
      dsimp only at e1 e2 e3
      refine ⟨p.1, tr2, by rw [htr, htr2, hex], e2, e3, e1,
        resume_run cfg min_sig code s.Sats s.sp envs p.1 tr2 hT e2 e3 hrest, ?_⟩
      intro n hs hsp hr hlen
      have hlt : advance s.Sats r < n := by
        rw [advance_sentinel s.Sats n r hs hr]; split_ifs <;> omega
      refine run_finds cfg min_sig code s.Sats n s.sp hs hsp htype envs p.1 tr2 hT
        (by rw [e1]; exact hlt) ?_ hrest
      rw [e1]
      split_ifs <;> omega

theorem mixedSats_numbered : Numbered mixedSats := by
  intro k
  unfold mixedSats
  split_ifs with h1 h2
  · exact h1.symm
  · rfl
  · rfl

/-- A pass entered at an iteration point that fails the constellation test: nothing is
examined, nothing is called, and only the iteration point moves. -/
theorem searchTask_pass_filtered (cfg : Config) (min_sig : Int) (code : Int → Cplx)
    (env : IterEnv) (s : SchedState) (ht : (s.Sats s.sp).type ≠ SatType.E1B) :
    examined s = none ∧
    SearchTask_pass cfg min_sig code env s =
      some ({ s with sp := advance s.Sats s.sp }, [], Outcome.skipType) := by
  refine ⟨by unfold examined; rw [if_pos ht], ?_⟩
  unfold SearchTask_pass SearchTask_body
  rw [if_pos ht]
  rfl

/-- The example table ends at entry 6. -/
theorem mixedSats_sentinel : SentinelAt mixedSats 6 := by
  refine ⟨fun k hk => ?_, by simp [mixedSats]⟩
  unfold mixedSats
  split_ifs
  · simp
  · simp only [ne_eq]
    omega

/-- C12 (counterexample): on a table whose entry 0 is a GPS (Navstar) satellite, with a
restart pending for satellite 2 and the iteration point on entry 0, the pass examines no
satellite at all: it ends at the constellation test, makes no call, and leaves the restart
pending for the next iteration point. -/
theorem restart_waits_at_filtered_point :
    (mixedSched 0 3).searchRestart = 2 + 1 ∧
    examined (mixedSched 0 3) = none ∧
    (SearchTask_pass unitCfg 1 onesCode exampleEnv (mixedSched 0 3)).map
      (fun p => (p.1.searchRestart, p.1.searchResume, p.1.sp, p.2.1.length)) =
    some (3, 0, 1, 0) := by
  refine ⟨rfl, rfl, rfl⟩

/-- C12 (amended): `SearchEnable(ch, r, restart)` clears the busy flag of satellite `r` only
and sets a pending restart for `r` exactly when `restart` is true (otherwise the pending
request is left as it was).  If a restart for `r` is pending when the iteration point is a
satellite `s` that passes the constellation test, the pass examines `r` instead of `s`,
and, absent a further restart request, the next pass that passes the constellation test
examines `s`, after which no restart or resume request is pending and the iteration goes
on with the entry after `s`; on a table of `n` entries that holds `r` and `s`, such a pass
comes within the next `n` passes.  A pass entered at an iteration point that fails the
constellation test ends at once: it examines no satellite, makes no call and leaves
everything but the iteration point as it was, a pending restart included. -/
theorem searchTask_restart_resume (cfg : Config) (min_sig : Int) (code : Int → Cplx)
    (env : IterEnv) (envs : List IterEnv) (s : SchedState) (r : Nat) (hnum : Numbered s.Sats)
    (htype : (s.Sats s.sp).type = SatType.E1B) (hrestart : s.searchRestart = r + 1)
    (hret : (SearchTask_run cfg min_sig code (env :: envs) s).isSome = true) :
    (∀ (ch : Int) (q : Nat) (restart : Bool) (t : SchedState),
      ((SearchEnable ch q restart t).Sats q).busy = false ∧
      (∀ k, k ≠ q → (SearchEnable ch q restart t).Sats k = t.Sats k) ∧
      (restart = true → (SearchEnable ch q restart t).searchRestart = q + 1) ∧
      (restart = false → (SearchEnable ch q restart t).searchRestart = t.searchRestart) ∧
      (SearchEnable ch q restart t).searchResume = t.searchResume ∧
      (SearchEnable ch q restart t).sp = t.sp) ∧
    (∃ s1 rest, SearchTask_run cfg min_sig code (env :: envs) s = some ((some r, s1) :: rest) ∧
      s1.searchRestart = 0 ∧ s1.searchResume = s.sp + 1 ∧ s1.sp = advance s.Sats r ∧
      (∀ e, rest.find? (fun e => e.1.isSome) = some e →
        e.1 = some s.sp ∧ e.2.searchRestart = 0 ∧ e.2.searchResume = 0 ∧
        e.2.sp = advance s.Sats s.sp) ∧
      (∀ n, SentinelAt s.Sats n → s.sp < n → r < n → n ≤ envs.length →
        (rest.find? (fun e => e.1.isSome)).isSome = true)) ∧
    (∀ (t : SchedState) (e : IterEnv), (t.Sats t.sp).type ≠ SatType.E1B →
      examined t = none ∧
      SearchTask_pass cfg min_sig code e t =
        some ({ t with sp := advance t.Sats t.sp }, [], Outcome.skipType)) :=
  ⟨fun ch q restart t => searchEnable_spec ch q restart t,
    restart_run cfg min_sig code env envs s r hnum htype hrestart hret,
    fun t e ht => searchTask_pass_filtered cfg min_sig code e t ht⟩

theorem searchTask_restart_resume_witness :
    (∀ (ch : Int) (q : Nat) (restart : Bool) (t : SchedState),
      ((SearchEnable ch q restart t).Sats q).busy = false ∧
      (∀ k, k ≠ q → (SearchEnable ch q restart t).Sats k = t.Sats k) ∧
      (restart = true → (SearchEnable ch q restart t).searchRestart = q + 1) ∧
      (restart = false → (SearchEnable ch q restart t).searchRestart = t.searchRestart) ∧
      (SearchEnable ch q restart t).searchResume = t.searchResume ∧
      (SearchEnable ch q restart t).sp = t.sp) ∧
    (∃ s1 rest, SearchTask_run unitCfg 1 onesCode (exampleEnv :: List.replicate 6 exampleEnv)
        (mixedSched 2 5) = some ((some 4, s1) :: rest) ∧
      s1.searchRestart = 0 ∧ s1.searchResume = (mixedSched 2 5).sp + 1 ∧
      s1.sp = advance (mixedSched 2 5).Sats 4 ∧
      (∀ e, rest.find? (fun e => e.1.isSome) = some e →
        e.1 = some (mixedSched 2 5).sp ∧ e.2.searchRestart = 0 ∧ e.2.searchResume = 0 ∧
        e.2.sp = advance (mixedSched 2 5).Sats (mixedSched 2 5).sp) ∧
      (∀ n, SentinelAt (mixedSched 2 5).Sats n → (mixedSched 2 5).sp < n → 4 < n →
        n ≤ (List.replicate 6 exampleEnv).length →
        (rest.find? (fun e => e.1.isSome)).isSome = true)) ∧
    (∀ (t : SchedState) (e : IterEnv), (t.Sats t.sp).type ≠ SatType.E1B →
      examined t = none ∧
      SearchTask_pass unitCfg 1 onesCode e t =
        some ({ t with sp := advance t.Sats t.sp }, [], Outcome.skipType)) :=
  searchTask_restart_resume unitCfg 1 onesCode exampleEnv (List.replicate 6 exampleEnv)
    (mixedSched 2 5) 4 mixedSats_numbered
    rfl rfl
    (searchTask_run_returns unitCfg 1 onesCode unitCfg_consistent _ _
      (fun env he => by
        have : env = exampleEnv := by
          rcases List.mem_cons.mp he with h | h
          · exact h
          · exact List.eq_of_mem_replicate h
        rw [this]; rfl))

/-! ## Theorems: reachable scheduler states -/

theorem searchTask_body_yield_nil (cfg : Config) (min_sig : Int) (code : Int → Cplx)
    (env : IterEnv) (s : SchedState) :
    SearchTask_body_yield cfg min_sig code env [] [] s = SearchTask_body cfg min_sig code env s :=
  rfl

theorem sameTable_refl (S : Nat → SATELLITE) : SameTable S S := fun _ => ⟨rfl, rfl, rfl⟩

theorem searchEnable_sameTable (ch : Int) (q : Nat) (restart : Bool) (s : SchedState) :
    SameTable s.Sats (SearchEnable ch q restart s).Sats := by
  intro k
  unfold SearchEnable
  dsimp only
  by_cases hk : k = q
  · subst hk
    rw [Function.update_same]
    exact ⟨rfl, rfl, rfl⟩
  · rw [Function.update_noteq hk]
    exact ⟨rfl, rfl, rfl⟩

/-- What calls of `SearchEnable` change: `busy` flags, and the pending restart, which is
then for one of the satellites named. -/
theorem enables_spec : ∀ (cs : List EnableCall) (s : SchedState),
    SameTable s.Sats (enables cs s).Sats ∧ (enables cs s).sp = s.sp ∧
    (enables cs s).searchResume = s.searchResume ∧
    ((enables cs s).searchRestart = s.searchRestart ∨
      ∃ c, c ∈ cs ∧ (enables cs s).searchRestart = c.sat + 1) := by
  intro cs
  induction cs with
  | nil => intro s; exact ⟨sameTable_refl _, rfl, rfl, Or.inl rfl⟩
  | cons c rest ih =>
    intro s
    obtain ⟨h1, h2, h3, h4⟩ := ih (SearchEnable c.ch c.sat c.restart s)
    obtain ⟨_, _, e3, e4, e5, e6⟩ := searchEnable_spec c.ch c.sat c.restart s
    refine ⟨sameTable_trans _ _ _ (searchEnable_sameTable c.ch c.sat c.restart s) h1,
      by rw [enables, h2, e6], by rw [enables, h3, e5], ?_⟩
    rw [enables]
    rcases h4 with h4 | ⟨c2, hc2, h4⟩
    · rw [h4]
      by_cases hr : c.restart = true
      · exact Or.inr ⟨c, List.mem_cons_self _ _, e3 hr⟩
      · exact Or.inl (e4 (by simpa using hr))
    · exact Or.inr ⟨c2, List.mem_cons_of_mem _ hc2, h4⟩

theorem allTracked_mem (tracked : List Nat) (calls : List EnableCall)
    (h : allTracked tracked calls = true) (c : EnableCall) (hc : c ∈ calls) : c.sat ∈ tracked := by
  unfold allTracked at h
  rw [List.all_eq_true] at h
  exact of_decide_eq_true (h c hc)

/-- The satellite of the outcome and of the `ChanStart` call of a pass that reached
correlation is the one it was entered for. -/
theorem acquireOn_started (cfg : Config) (min_sig : Int) (code : Int → Cplx) (env : IterEnv)
    (s s2 : SchedState) (sat : Nat) (ch : Int) (evs : List Event) (out : Outcome)
    (h : acquireOn cfg min_sig code env s sat ch = some (s2, evs, out)) :
    (∀ q, q ∈ startedSats evs → q = sat) ∧
    (∀ q c snr, out = Outcome.lowSnr q c snr ∨ out = Outcome.started q c snr → q = sat) ∧
    out ≠ Outcome.skipType ∧ out ≠ Outcome.skipBusy ∧ out ≠ Outcome.noChannel := by
  unfold acquireOn at h
  dsimp only at h
  have hev1 : ∀ q, q ∈ startedSats (if s.last_ch ≠ ch ∧ s.snr < (min_sig : ℚ) then
      [Event.statSat 0 s.last_ch (-1) false 0] else []) → False := by
    intro q hq
    split_ifs at hq <;> simp [startedSats] at hq
  have happ : ∀ (a b : List Event) q, q ∈ startedSats (a ++ b) →
      q ∈ startedSats a ∨ q ∈ startedSats b := by
    intro a
    induction a with
    | nil => intro b q hq; exact Or.inr hq
    | cons e rest ih =>
      intro b q hq
      cases e with
      | chanStart c1 s1 t1 i1 l1 a1 n1 =>
        simp only [List.cons_append, startedSats, List.mem_cons] at hq ⊢
        rcases hq with hq | hq
        · exact Or.inl (Or.inl hq)
        · rcases ih b q hq with h | h
          · exact Or.inl (Or.inr h)
          · exact Or.inr h
      | statSat a1 a2 a3 a4 a5 =>
        simp only [List.cons_append, startedSats] at hq ⊢
        exact ih b q hq
      | statDop a1 a2 a3 =>
        simp only [List.cons_append, startedSats] at hq ⊢
        exact ih b q hq
  cases hc : acqCycle cfg code env.rx sat s.cyc with
  | none => rw [hc] at h; exact absurd h (by simp)
  | some r =>
    rw [hc] at h
    dsimp only at h
    by_cases hlow : r.2 < (min_sig : ℚ)
    · rw [if_pos hlow] at h
      have e := Option.some.inj h
      have e2 : _ = evs := (Prod.mk.inj (Prod.mk.inj e).2).1
      have e3 : _ = out := (Prod.mk.inj (Prod.mk.inj e).2).2
      rw [← e2, ← e3]
      refine ⟨?_, ?_, by simp, by simp, by simp⟩
      · intro q hq
        rcases happ _ _ q hq with h | h
        · exact absurd h (hev1 q)
        · simp [startedSats] at h
      · intro q c snr hq
        rcases hq with hq | hq
        · exact (Outcome.lowSnr.inj hq).1.symm
        · exact absurd hq (by simp)
    · rw [if_neg hlow] at h
      have e := Option.some.inj h
      have e2 : _ = evs := (Prod.mk.inj (Prod.mk.inj e).2).1
      have e3 : _ = out := (Prod.mk.inj (Prod.mk.inj e).2).2
      rw [← e2, ← e3]
      refine ⟨?_, ?_, by simp, by simp, by simp⟩
      · intro q hq
        rcases happ _ _ q hq with h | h
        · rcases happ _ _ q h with h | h
          · rcases happ _ _ q h with h | h
            · exact absurd h (hev1 q)
            · simp [startedSats] at h
          · simp [startedSats] at h
        · simpa [startedSats] using h
      · intro q c snr hq
        rcases hq with hq | hq
        · exact absurd hq (by simp)
        · exact (Outcome.started.inj hq).1.symm

theorem redirect_cases (s : SchedState) :
    (s.searchRestart ≠ 0 ∧ redirect s =
      ({ s with searchResume := (s.Sats s.sp).sat + 1, sp := s.searchRestart - 1,
                searchRestart := 0 }, s.searchRestart - 1)) ∨
    (s.searchRestart = 0 ∧ s.searchResume ≠ 0 ∧ redirect s =
      ({ s with sp := s.searchResume - 1, searchResume := 0 }, s.searchResume - 1)) ∨
    (s.searchRestart = 0 ∧ s.searchResume = 0 ∧ redirect s = (s, (s.Sats s.sp).sat)) := by
  unfold redirect
  dsimp only
  by_cases h1 : s.searchRestart ≠ 0
  · rw [if_pos h1]; exact Or.inl ⟨h1, rfl⟩
  · rw [if_neg h1]
    by_cases h2 : s.searchResume ≠ 0
    · rw [if_pos h2]; exact Or.inr (Or.inl ⟨not_not.mp h1, h2, rfl⟩)
    · rw [if_neg h2]; exact Or.inr (Or.inr ⟨not_not.mp h1, not_not.mp h2, rfl⟩)

/-- The invariant depends on the table up to `busy` flags and on the two requests only. -/
theorem pendingE1B_of_ctl (S0 : Nat → SATELLITE) (s s2 : SchedState) (tracked : List Nat)
    (h : PendingE1B S0 s tracked) (hT : SameTable s.Sats s2.Sats)
    (h1 : s2.searchRestart = s.searchRestart) (h2 : s2.searchResume = s.searchResume) :
    PendingE1B S0 s2 tracked := by
  obtain ⟨a, b, c, d⟩ := h
  exact ⟨sameTable_trans _ _ _ a hT, b, by rw [h1]; exact c, by rw [h2]; exact d⟩

/-- Calls of `SearchEnable` for satellites handed to tracking keep the invariant. -/
theorem enables_inv (S0 : Nat → SATELLITE) (s : SchedState) (tracked : List Nat)
    (cs : List EnableCall) (h : PendingE1B S0 s tracked)
    (hcs : ∀ c, c ∈ cs → c.sat ∈ tracked) : PendingE1B S0 (enables cs s) tracked := by
  obtain ⟨hT, _, hres, hrst⟩ := enables_spec cs s
  obtain ⟨a, b, c, d⟩ := h
  refine ⟨sameTable_trans _ _ _ a hT, b, ?_, by rw [hres]; exact d⟩
  rcases hrst with e | ⟨c2, hc2, e⟩
  · rw [e]; exact c
  · intro _
    rw [e, Nat.add_sub_cancel]
    exact b _ (hcs c2 hc2)

/-- At an iteration point that passes the constellation test, the satellite the
redirection selects is E1B and is the entry `sp` points at; the invariant is kept. -/
theorem redirect_inv (S0 : Nat → SATELLITE) (s : SchedState) (tracked : List Nat)
    (hnum : Numbered S0) (h : PendingE1B S0 s tracked)
    (ht : (s.Sats s.sp).type = SatType.E1B) :
    (S0 (redirect s).2).type = SatType.E1B ∧ (redirect s).1.sp = (redirect s).2 ∧
    PendingE1B S0 (redirect s).1 tracked := by
  obtain ⟨a, b, c, d⟩ := h
  have hsat : (s.Sats s.sp).sat = s.sp := by rw [(a s.sp).2.2]; exact hnum s.sp
  have ht0 : (S0 s.sp).type = SatType.E1B := by rw [← (a s.sp).2.1]; exact ht
  rcases redirect_cases s with ⟨h1, e⟩ | ⟨h1, h2, e⟩ | ⟨h1, h2, e⟩
  · rw [e]
    refine ⟨c h1, rfl, a, b, fun h0 => absurd rfl h0, fun _ => ?_⟩
    show (S0 ((s.Sats s.sp).sat + 1 - 1)).type = SatType.E1B
    rw [Nat.add_sub_cancel, hsat]
    exact ht0
  · rw [e]
    exact ⟨d h2, rfl, a, b, fun h0 => absurd h1 h0, fun h0 => absurd rfl h0⟩
  · rw [e]
    refine ⟨?_, hsat.symm, a, b, c, d⟩
    show (S0 (s.Sats s.sp).sat).type = SatType.E1B
    rw [hsat]
    exact ht0

/-- A pass of the loop body, with the calls made during its suspensions, keeps the
invariant; the satellite of its outcome and of its `ChanStart` call is the one it
requested a channel for; it requests none exactly when it ends at the constellation test
or at the `busy` test, and then it makes no call. -/
theorem searchTask_body_yield_inv (cfg : Config) (min_sig : Int) (code : Int → Cplx)
    (env : IterEnv) (pre mid : List EnableCall) (S0 : Nat → SATELLITE) (s s2 : SchedState)
    (tracked : List Nat) (evs : List Event) (out : Outcome) (hnum : Numbered S0)
    (hinv : PendingE1B S0 s tracked) (hcalls : allTracked tracked (pre ++ mid) = true)
    (h : SearchTask_body_yield cfg min_sig code env pre mid s = some (s2, evs, out)) :
    PendingE1B S0 s2 (startedSats evs ++ tracked) ∧
    (∀ q, q ∈ startedSats evs → requested pre s = some q) ∧
    (∀ q c snr, out = Outcome.lowSnr q c snr ∨ out = Outcome.started q c snr →
      requested pre s = some q) ∧
    (out = Outcome.noChannel → (requested pre s).isSome = true) ∧
    (requested pre s = none ↔ (out = Outcome.skipType ∨ out = Outcome.skipBusy)) ∧
    (requested pre s = none → evs = []) := by
  have hpre : ∀ c, c ∈ pre → c.sat ∈ tracked := fun c hc =>
    allTracked_mem tracked _ hcalls c (List.mem_append_left _ hc)
  have hmid : ∀ c, c ∈ mid → c.sat ∈ tracked := fun c hc =>
    allTracked_mem tracked _ hcalls c (List.mem_append_right _ hc)
  unfold SearchTask_body_yield at h
  unfold requested
  by_cases ht : (s.Sats s.sp).type ≠ SatType.E1B
  · rw [if_pos ht] at h
    rw [if_pos ht]
    have e := Option.some.inj h
    have e1 : s = s2 := (Prod.mk.inj e).1
    have e2 : [] = evs := (Prod.mk.inj (Prod.mk.inj e).2).1
    have e3 : Outcome.skipType = out := (Prod.mk.inj (Prod.mk.inj e).2).2
    subst e1 e2 e3
    refine ⟨hinv, ?_, ?_, ?_, ⟨fun _ => Or.inl rfl, fun _ => rfl⟩, fun _ => rfl⟩
    · intro q hq; simp [startedSats] at hq
    · intro q c snr hq; rcases hq with hq | hq <;> exact absurd hq (by simp)
    · intro hq; exact absurd hq (by simp)
  · rw [if_neg ht] at h
    rw [if_neg ht]
    dsimp only at h
    obtain ⟨hE, hsp, hinv1⟩ := redirect_inv S0 s tracked hnum hinv (not_not.mp ht)
    have hinv2 := enables_inv S0 _ tracked pre hinv1 hpre
    by_cases hb : ((enables pre (redirect s).1).Sats (enables pre (redirect s).1).sp).busy = true
    · rw [if_pos hb] at h
      rw [if_pos hb]
      have e := Option.some.inj h
      have e1 : _ = s2 := (Prod.mk.inj e).1
      have e2 : [] = evs := (Prod.mk.inj (Prod.mk.inj e).2).1
      have e3 : Outcome.skipBusy = out := (Prod.mk.inj (Prod.mk.inj e).2).2
      subst e1 e2 e3
      refine ⟨hinv2, ?_, ?_, ?_, ⟨fun _ => Or.inr rfl, fun _ => rfl⟩, fun _ => rfl⟩
      · intro q hq; simp [startedSats] at hq
      · intro q c snr hq; rcases hq with hq | hq <;> exact absurd hq (by simp)
      · intro hq; exact absurd hq (by simp)
    · rw [if_neg hb] at h
      rw [if_neg hb]
      cases hr : requestChannel cfg env.chanReset with
      | none => rw [hr] at h; exact absurd h (by simp)
      | some ch =>
        rw [hr] at h
        dsimp only at h
        by_cases hneg : ch < 0
        · rw [if_pos hneg] at h
          have e := Option.some.inj h
          have e1 : _ = s2 := (Prod.mk.inj e).1
          have e2 : [] = evs := (Prod.mk.inj (Prod.mk.inj e).2).1
          have e3 : Outcome.noChannel = out := (Prod.mk.inj (Prod.mk.inj e).2).2
          subst e1 e2 e3
          refine ⟨hinv2, ?_, ?_, fun _ => rfl,
            ⟨fun hq => absurd hq (by simp), fun hq => by rcases hq with hq | hq <;> simp at hq⟩,
            fun hq => absurd hq (by simp)⟩
          · intro q hq; simp [startedSats] at hq
          · intro q c snr hq; rcases hq with hq | hq <;> exact absurd hq (by simp)
        · rw [if_neg hneg] at h
          have hinv3 := enables_inv S0 _ tracked mid hinv2 hmid
          obtain ⟨hf, h3, h4, h5⟩ := acquireOn_ctl cfg min_sig code env _ _ _ _ _ _ h
          obtain ⟨g1, g2, g3, g4, _⟩ := acquireOn_started cfg min_sig code env _ _ _ _ _ _ h
          have hinv4 : PendingE1B S0 s2 tracked :=
            pendingE1B_of_ctl S0 _ s2 tracked hinv3 hf h4 h5
          refine ⟨?_, ?_, ?_, fun _ => rfl,
            ⟨fun hq => absurd hq (by simp),
              fun hq => by rcases hq with hq | hq
                           · exact absurd hq g3
                           · exact absurd hq g4⟩,
            fun hq => absurd hq (by simp)⟩
          · obtain ⟨a, b, c, d⟩ := hinv4
            refine ⟨a, ?_, c, d⟩
            intro q hq
            rcases List.mem_append.mp hq with hq | hq
            · rw [g1 q hq]; exact hE
            · exact b q hq
          · intro q hq; rw [g1 q hq]
          · intro q c snr hq; rw [g2 q c snr hq]

theorem pendingE1B_start (S0 : Nat → SATELLITE) (bits : Nat → Int × Int) (fwd_buf rev_buf : Buf) :
    PendingE1B S0 (schedStart S0 bits fwd_buf rev_buf) [] :=
  ⟨sameTable_refl S0, fun _ hq => absurd hq (List.not_mem_nil _), fun h => absurd rfl h,
    fun h => absurd rfl h⟩

/-- Every history keeps the invariant. -/
theorem schedRun_inv (cfg : Config) (min_sig : Int) (code : Int → Cplx) (S0 : Nat → SATELLITE)
    (hnum : Numbered S0) :
    ∀ (acts : List SchedStep) (st st2 : SchedState × List Nat),
      PendingE1B S0 st.1 st.2 → schedRun cfg min_sig code acts st = some st2 →
      PendingE1B S0 st2.1 st2.2 := by
  intro acts
  induction acts with
  | nil =>
    intro st st2 hinv h
    rw [schedRun] at h
    rw [← Option.some.inj h]
    exact hinv
  | cons a rest ih =>
    intro st st2 hinv h
    cases a with
    | pass env pre mid =>
      rw [schedRun] at h
      by_cases hc : allTracked st.2 (pre ++ mid) = true
      · rw [if_pos hc] at h
        cases hb : SearchTask_body_yield cfg min_sig code env pre mid st.1 with
        | none => rw [hb] at h; exact absurd h (by simp)
        | some r =>
          rw [hb] at h
          dsimp only at h
          have hinv2 := (searchTask_body_yield_inv cfg min_sig code env pre mid S0 st.1 r.1 st.2
            r.2.1 r.2.2 hnum hinv hc hb).1
          exact ih _ st2
            (pendingE1B_of_ctl S0 r.1 _ _ hinv2 (sameTable_refl _) rfl rfl) h
      · rw [if_neg hc] at h
        exact absurd h (by simp)
    | enable c =>
      rw [schedRun] at h
      by_cases hc : c.sat ∈ st.2
      · rw [if_pos hc] at h
        refine ih _ st2 ?_ h
        exact enables_inv S0 st.1 st.2 [c] hinv
          (fun c2 hc2 => by rw [List.mem_singleton.mp hc2]; exact hc)
      · rw [if_neg hc] at h
        exact absurd h (by simp)

theorem schedRun_stateAfter (cfg : Config) (min_sig : Int) (code : Int → Cplx)
    (acts : List SchedStep) (st : SchedState × List Nat)
    (h : (schedRun cfg min_sig code acts st).isSome = true) :
    schedRun cfg min_sig code acts st =
      some ((stateAfter cfg min_sig code acts st).1, (stateAfter cfg min_sig code acts st).2) := by
  obtain ⟨x, hx⟩ := Option.isSome_iff_exists.mp h
  unfold stateAfter
  rw [hx]
  rfl

/-- What a reachable pass acts on: the satellite it requests a channel for is E1B and is
not marked busy when the `busy` test is made. -/
theorem requested_spec (S0 : Nat → SATELLITE) (s : SchedState) (tracked : List Nat)
    (pre : List EnableCall) (hnum : Numbered S0) (hinv : PendingE1B S0 s tracked)
    (sat : Nat) (h : requested pre s = some sat) :
    (s.Sats sat).type = SatType.E1B ∧
    ((enables pre (redirect s).1).Sats sat).busy = false ∧
    (redirect s).2 = sat ∧ (enables pre (redirect s).1).sp = sat := by
  unfold requested at h
  by_cases ht : (s.Sats s.sp).type ≠ SatType.E1B
  · rw [if_pos ht] at h; exact absurd h (by simp)
  · rw [if_neg ht] at h
    by_cases hb : ((enables pre (redirect s).1).Sats (enables pre (redirect s).1).sp).busy = true
    · rw [if_pos hb] at h; exact absurd h (by simp)
    · rw [if_neg hb] at h
      have e : (redirect s).2 = sat := Option.some.inj h
      obtain ⟨hE, hsp, _⟩ := redirect_inv S0 s tracked hnum hinv (not_not.mp ht)
      have hsp2 : (enables pre (redirect s).1).sp = sat := by
        rw [(enables_spec pre (redirect s).1).2.1, hsp, e]
      refine ⟨?_, ?_, e, hsp2⟩
      · rw [(hinv.1 sat).2.1, ← e]; exact hE
      · rw [hsp2] at hb
        simpa using hb

/-- C13: in every state the scheduler reaches from the start of `SearchTask` (by passes of
its loop and by `SearchEnable` calls that the tracking subsystem makes, between passes or
during a pass's sleeps, for satellites it was handed), the satellite for which a pass
requests a channel is E1B and is not marked busy when it is selected, whether it was
selected by the list iteration, by a pending restart or by a pending resume point; the
satellite a pass correlates on or starts a channel for is that satellite; and a pass
requests no channel exactly when it ends at the constellation test or at the `busy` test,
making no call. -/
theorem searchTask_selects_enabled (cfg : Config) (min_sig : Int) (code : Int → Cplx)
    (S0 : Nat → SATELLITE) (bits : Nat → Int × Int) (fwd_buf rev_buf : Buf)
    (acts : List SchedStep) (s : SchedState) (tracked : List Nat) (hnum : Numbered S0)
    (hrun : schedRun cfg min_sig code acts (schedStart S0 bits fwd_buf rev_buf, []) =
      some (s, tracked))
    (env : IterEnv) (pre mid : List EnableCall)
    (hcalls : allTracked tracked (pre ++ mid) = true) :
    (∀ sat, requested pre s = some sat →
      (s.Sats sat).type = SatType.E1B ∧
      ((enables pre (redirect s).1).Sats sat).busy = false ∧
      (redirect s).2 = sat ∧ (enables pre (redirect s).1).sp = sat) ∧
    (∀ s2 evs out, SearchTask_body_yield cfg min_sig code env pre mid s = some (s2, evs, out) →
      (∀ q, q ∈ startedSats evs → requested pre s = some q) ∧
      (∀ q c snr, out = Outcome.lowSnr q c snr ∨ out = Outcome.started q c snr →
        requested pre s = some q) ∧
      (out = Outcome.noChannel → (requested pre s).isSome = true) ∧
      (requested pre s = none ↔ (out = Outcome.skipType ∨ out = Outcome.skipBusy)) ∧
      (requested pre s = none → evs = [])) := by
  have hinv : PendingE1B S0 s tracked :=
    schedRun_inv cfg min_sig code S0 hnum acts _ (s, tracked)
      (pendingE1B_start S0 bits fwd_buf rev_buf) hrun
  refine ⟨fun sat h => requested_spec S0 s tracked pre hnum hinv sat h, ?_⟩
  intro s2 evs out h
  exact (searchTask_body_yield_inv cfg min_sig code env pre mid S0 s s2 tracked evs out hnum
    hinv hcalls h).2

/-- The example history ends with the iteration point on entry 2 and a restart pending for
satellite 1, the one satellite handed to tracking; the next pass requests a channel for
satellite 1, correlates on it and starts a channel for it. -/
theorem exampleHistory_state :
    (schedRun unitCfg 1 onesCode exampleHistory
      (schedStart mixedSats (cycleStart 0 0).bits (cycleStart 0 0).fwd_buf
        (cycleStart 0 0).rev_buf, [])).isSome = true ∧
    exampleAfter.2 = [1] ∧ exampleAfter.1.sp = 2 ∧ exampleAfter.1.searchRestart = 2 ∧
    requested [] exampleAfter.1 = some 1 ∧
    (SearchTask_body_yield unitCfg 1 onesCode exampleEnv [] [] exampleAfter.1).map
      (fun r => (startedSats r.2.1, r.1.searchRestart, r.1.searchResume)) =
      some ([1], 0, 3) := by
  decide!

theorem searchTask_selects_enabled_witness :
    Numbered mixedSats ∧
    schedRun unitCfg 1 onesCode exampleHistory
      (schedStart mixedSats (cycleStart 0 0).bits (cycleStart 0 0).fwd_buf
        (cycleStart 0 0).rev_buf, []) = some (exampleAfter.1, exampleAfter.2) ∧
    allTracked exampleAfter.2 ([] ++ []) = true ∧
    requested [] exampleAfter.1 = some 1 ∧
    ((∀ sat, requested [] exampleAfter.1 = some sat →
      (exampleAfter.1.Sats sat).type = SatType.E1B ∧
      ((enables [] (redirect exampleAfter.1).1).Sats sat).busy = false ∧
      (redirect exampleAfter.1).2 = sat ∧ (enables [] (redirect exampleAfter.1).1).sp = sat) ∧
    (∀ s2 evs out,
      SearchTask_body_yield unitCfg 1 onesCode exampleEnv [] [] exampleAfter.1 =
        some (s2, evs, out) →
      (∀ q, q ∈ startedSats evs → requested [] exampleAfter.1 = some q) ∧
      (∀ q c snr, out = Outcome.lowSnr q c snr ∨ out = Outcome.started q c snr →
        requested [] exampleAfter.1 = some q) ∧
      (out = Outcome.noChannel → (requested [] exampleAfter.1).isSome = true) ∧
      (requested [] exampleAfter.1 = none ↔
        (out = Outcome.skipType ∨ out = Outcome.skipBusy)) ∧
      (requested [] exampleAfter.1 = none → evs = []))) :=
  ⟨mixedSats_numbered,
    schedRun_stateAfter unitCfg 1 onesCode exampleHistory _ exampleHistory_state.1,
    rfl, exampleHistory_state.2.2.2.2.1,
    searchTask_selects_enabled unitCfg 1 onesCode mixedSats (cycleStart 0 0).bits
      (cycleStart 0 0).fwd_buf (cycleStart 0 0).rev_buf exampleHistory exampleAfter.1
      exampleAfter.2 mixedSats_numbered
      (schedRun_stateAfter unitCfg 1 onesCode exampleHistory _ exampleHistory_state.1)
      exampleEnv [] [] rfl⟩


end Search
